import Mathlib

/-!
Verification of the crew_os core: a shallow embedding of the Python sources
(`crew_os/enums.py`, `components/{task,agent,tool,crew}.py`,
`core/{task_manager,scheduler,tool_dispatcher,resource_monitor,kernel}.py`)
as executable Lean definitions, followed by theorems about the scheduling,
dependency-resolution, tool-dispatch and accounting behaviour.

Python dictionaries keyed by task id / agent id are embedded as association
lists (`List Task`, `List Agent`) with the dictionary lookup `dict.get`
embedded as `List.find?` on the key; the no-duplicate-key property of a
dictionary appears as `Nodup` hypotheses on the key lists where it matters.
Object mutation is embedded as explicit state passing: every operation takes
and returns the tables it mutates.
-/

set_option maxRecDepth 8000

namespace CrewOS

/-- `TaskState` from `crew_os/enums.py`. -/
inductive TaskState where
  | pending
  | ready
  | assigned
  | running
  | waiting_context
  | completed
  | failed
deriving DecidableEq, Repr

/-- `AgentState` from `crew_os/enums.py`. -/
inductive AgentState where
  | idle
  | assigned
  | running_task
  | using_tool
  | waiting_delegation
  | terminated
deriving DecidableEq, Repr

/-- `CrewProcess` from `crew_os/enums.py`. -/
inductive CrewProcess where
  | sequential
  | hierarchical
deriving DecidableEq, Repr

/-- The `resource_usage` dict of an `Agent` (`components/agent.py`): the two
fixed keys `tokens` and `tool_calls`. -/
structure Usage where
  tokens : Nat
  tool_calls : Nat
deriving DecidableEq, Repr

/-- `Task` from `components/task.py`.  The auto-incremented `tid` is a plain
field here: construction sites pass explicit distinct ids. -/
structure Task where
  tid : Nat
  description : String
  expected_output : String
  assigned_agent_id : Option Nat
  dependencies : List Nat
  state : TaskState
  context : Option String
  result : Option String
deriving DecidableEq, Repr

/-- `Task.__init__`: a freshly constructed task starts PENDING with no
context and no result. -/
def Task.init (tid : Nat) (description expected_output : String)
    (agent_id : Option Nat) (dependencies : List Nat) : Task :=
  { tid := tid, description := description, expected_output := expected_output,
    assigned_agent_id := agent_id, dependencies := dependencies,
    state := TaskState.pending, context := none, result := none }

/-- `Agent` from `components/agent.py`. -/
structure Agent where
  aid : Nat
  role : String
  goal : String
  backstory : String
  tools : List String
  state : AgentState
  current_task_id : Option Nat
  resource_usage : Usage
deriving DecidableEq, Repr

/-- `Agent.__init__`: a fresh agent is IDLE with no current task and zeroed
usage counters. -/
def Agent.init (aid : Nat) (role goal backstory : String) (tools : List String) : Agent :=
  { aid := aid, role := role, goal := goal, backstory := backstory,
    tools := tools, state := AgentState.idle, current_task_id := none,
    resource_usage := { tokens := 0, tool_calls := 0 } }

/-- `Agent.record_usage`: adds to the matching counter, ignores a
non-positive amount and an unknown usage type.  Amounts are the tool costs
and the per-call token estimate, all natural numbers in the source, so the
`amount <= 0` guard is the `amount = 0` guard here. -/
def Agent.record_usage (a : Agent) (usage_type : String) (amount : Nat) : Agent :=
  if amount = 0 then a
  else if usage_type == "tokens" then
    { a with resource_usage := { a.resource_usage with tokens := a.resource_usage.tokens + amount } }
  else if usage_type == "tool_calls" then
    { a with resource_usage := { a.resource_usage with tool_calls := a.resource_usage.tool_calls + amount } }
  else a

/-- Dictionary lookup `self._tasks.get(tid)` on the task table. -/
def getTask (ts : List Task) (tid : Nat) : Option Task :=
  ts.find? (fun t => t.tid == tid)

/-- In-place mutation of the task object with id `tid`, seen from the task
table: the entry (unique when the table's ids are Nodup) is replaced by its
image under `f`. -/
def updateTask (ts : List Task) (tid : Nat) (f : Task → Task) : List Task :=
  ts.map (fun t => if t.tid == tid then f t else t)

/-- Dictionary lookup `self.agents.get(aid)` on the agent table. -/
def getAgent (ags : List Agent) (aid : Nat) : Option Agent :=
  ags.find? (fun a => a.aid == aid)

/-- In-place mutation of the agent object with id `aid`, seen from the agent
table. -/
def updateAgent (ags : List Agent) (aid : Nat) (f : Agent → Agent) : List Agent :=
  ags.map (fun a => if a.aid == aid then f a else a)

/-! ## Generic lemmas about table lookup and update -/

theorem getTask_cons (t : Task) (ts : List Task) (tid : Nat) :
    getTask (t :: ts) tid = if t.tid = tid then some t else getTask ts tid := by
  unfold getTask
  by_cases h : t.tid = tid
  · rw [List.find?_cons_of_pos _ (by simp [h]), if_pos h]
  · rw [List.find?_cons_of_neg _ (by simp [h]), if_neg h]

theorem updateTask_cons (t : Task) (ts : List Task) (tid : Nat) (f : Task → Task) :
    updateTask (t :: ts) tid f = (if t.tid = tid then f t else t) :: updateTask ts tid f := by
  simp only [updateTask, List.map_cons]
  congr 1
  by_cases h : t.tid = tid <;> simp [h]

theorem getAgent_cons (a : Agent) (ags : List Agent) (aid : Nat) :
    getAgent (a :: ags) aid = if a.aid = aid then some a else getAgent ags aid := by
  unfold getAgent
  by_cases h : a.aid = aid
  · rw [List.find?_cons_of_pos _ (by simp [h]), if_pos h]
  · rw [List.find?_cons_of_neg _ (by simp [h]), if_neg h]

theorem updateAgent_cons (a : Agent) (ags : List Agent) (aid : Nat) (f : Agent → Agent) :
    updateAgent (a :: ags) aid f = (if a.aid = aid then f a else a) :: updateAgent ags aid f := by
  simp only [updateAgent, List.map_cons]
  congr 1
  by_cases h : a.aid = aid <;> simp [h]

theorem getTask_mem {ts : List Task} {tid : Nat} {t : Task}
    (h : getTask ts tid = some t) : t ∈ ts :=
  List.mem_of_find?_eq_some h

theorem getTask_tid {ts : List Task} {tid : Nat} {t : Task}
    (h : getTask ts tid = some t) : t.tid = tid := by
  have := List.find?_some h
  simpa using this

theorem getAgent_mem {ags : List Agent} {aid : Nat} {a : Agent}
    (h : getAgent ags aid = some a) : a ∈ ags :=
  List.mem_of_find?_eq_some h

theorem getAgent_aid {ags : List Agent} {aid : Nat} {a : Agent}
    (h : getAgent ags aid = some a) : a.aid = aid := by
  have := List.find?_some h
  simpa using this

theorem getTask_update_self (ts : List Task) (tid : Nat) (f : Task → Task)
    (hf : ∀ t, (f t).tid = t.tid) :
    getTask (updateTask ts tid f) tid = (getTask ts tid).map f := by
  induction ts with
  | nil => rfl
  | cons h rest ih =>
    rw [updateTask_cons, getTask_cons, getTask_cons]
    by_cases hh : h.tid = tid
    · simp [hh, hf]
    · simp [hh, ih]

theorem getTask_update_ne (ts : List Task) (tid tid' : Nat) (f : Task → Task)
    (hf : ∀ t, (f t).tid = t.tid) (hne : tid' ≠ tid) :
    getTask (updateTask ts tid f) tid' = getTask ts tid' := by
  induction ts with
  | nil => rfl
  | cons h rest ih =>
    rw [updateTask_cons, getTask_cons, getTask_cons]
    by_cases hh : h.tid = tid
    · have h1 : (f h).tid ≠ tid' := by rw [hf, hh]; exact fun e => hne e.symm
      have h2 : h.tid ≠ tid' := by rw [hh]; exact fun e => hne e.symm
      rw [if_pos hh, if_neg h1, if_neg h2]
      exact ih
    · rw [if_neg hh]
      by_cases hx : h.tid = tid'
      · rw [if_pos hx, if_pos hx]
      · rw [if_neg hx, if_neg hx]
        exact ih

theorem updateTask_map_tid (ts : List Task) (tid : Nat) (f : Task → Task)
    (hf : ∀ t, (f t).tid = t.tid) :
    (updateTask ts tid f).map (fun t => t.tid) = ts.map (fun t => t.tid) := by
  unfold updateTask
  rw [List.map_map]
  apply List.map_congr_left
  intro t _
  by_cases h : t.tid = tid <;> simp [h, hf]

theorem getAgent_update_self (ags : List Agent) (aid : Nat) (f : Agent → Agent)
    (hf : ∀ a, (f a).aid = a.aid) :
    getAgent (updateAgent ags aid f) aid = (getAgent ags aid).map f := by
  induction ags with
  | nil => rfl
  | cons h rest ih =>
    rw [updateAgent_cons, getAgent_cons, getAgent_cons]
    by_cases hh : h.aid = aid
    · simp [hh, hf]
    · simp [hh, ih]

theorem getAgent_update_ne (ags : List Agent) (aid aid' : Nat) (f : Agent → Agent)
    (hf : ∀ a, (f a).aid = a.aid) (hne : aid' ≠ aid) :
    getAgent (updateAgent ags aid f) aid' = getAgent ags aid' := by
  induction ags with
  | nil => rfl
  | cons h rest ih =>
    rw [updateAgent_cons, getAgent_cons, getAgent_cons]
    by_cases hh : h.aid = aid
    · have h1 : (f h).aid ≠ aid' := by rw [hf, hh]; exact fun e => hne e.symm
      have h2 : h.aid ≠ aid' := by rw [hh]; exact fun e => hne e.symm
      rw [if_pos hh, if_neg h1, if_neg h2]
      exact ih
    · rw [if_neg hh]
      by_cases hx : h.aid = aid'
      · rw [if_pos hx, if_pos hx]
      · rw [if_neg hx, if_neg hx]
        exact ih

theorem updateAgent_map_aid (ags : List Agent) (aid : Nat) (f : Agent → Agent)
    (hf : ∀ a, (f a).aid = a.aid) :
    (updateAgent ags aid f).map (fun a => a.aid) = ags.map (fun a => a.aid) := by
  unfold updateAgent
  rw [List.map_map]
  apply List.map_congr_left
  intro a _
  by_cases h : a.aid = aid <;> simp [h, hf]

/-! ## TaskManager (`core/task_manager.py`) -/

/-- The per-dependency delimiter block of `TaskManager.build_context`:
`--- Output from Task {tid} ({description[:30]}...) ---\n{result}\n--- End Task {tid} ---`. -/
def contextPart (dep_tid : Nat) (dep : Task) (res : String) : String :=
  "--- Output from Task " ++ toString dep_tid ++ " (" ++ dep.description.take 30
    ++ "...) ---\n" ++ res ++ "\n--- End Task " ++ toString dep_tid ++ " ---"

/-- One iteration of the `build_context` loop: the delimiter-wrapped result
of dependency `d` when `d` exists, is COMPLETED and has a non-null result;
`none` otherwise (the loop `break`s). -/
def depPart (ts : List Task) (d : Nat) : Option String :=
  (getTask ts d).bind (fun dep =>
    if dep.state = TaskState.completed then
      dep.result.map (fun res => contextPart d dep res)
    else none)

/-- The `build_context` loop: walks the declared dependency list in order,
collecting one delimiter-wrapped result per dependency; `none` as soon as
one dependency fails the check. -/
def collectParts (ts : List Task) : List Nat → Option (List String)
  | [] => some []
  | d :: ds =>
    (depPart ts d).bind (fun part => (collectParts ts ds).map (fun parts => part :: parts))

/-- `TaskManager.build_context(task)`: returns the updated task table
(the mutation of `task.context`) and the returned string. -/
def build_context (ts : List Task) (task : Task) : List Task × String :=
  if task.dependencies = [] then
    (updateTask ts task.tid (fun u => { u with context := some "" }), "")
  else
    match collectParts ts task.dependencies with
    | some parts =>
      let full_context := String.intercalate "\n\n" parts
      (updateTask ts task.tid (fun u => { u with context := some full_context }), full_context)
    | none =>
      (updateTask ts task.tid (fun u => { u with context := none }), "")

/-- One dependency is satisfied for readiness: it exists in the table and is
COMPLETED (`check_and_update_task_readiness` does not look at the result). -/
def depCompleted (ts : List Task) (d : Nat) : Bool :=
  match getTask ts d with
  | some dep => dep.state == TaskState.completed
  | none => false

/-- The dependency check of `check_and_update_task_readiness` for one task
(vacuously true for an empty dependency list). -/
def depsMet (ts : List Task) (t : Task) : Bool :=
  t.dependencies.all (fun d => depCompleted ts d)

/-- `TaskManager.add_result(tid, result)`: sets the result of the task with
id `tid`; no-op when the id is unknown. -/
def add_result (ts : List Task) (tid : Nat) (result : String) : List Task :=
  updateTask ts tid (fun t => { t with result := some result })

/-- `TaskManager.update_task_state(tid, new_state)`: sets the state of the
task with id `tid` (a no-op when the state is unchanged, which coincides with
plainly writing the same value); no-op when the id is unknown. -/
def update_task_state (ts : List Task) (tid : Nat) (new_state : TaskState) : List Task :=
  updateTask ts tid (fun t => { t with state := new_state })

/-- The `check_and_update_task_readiness` loop over the iteration snapshot of
task objects.  The loop variable `task` is the dictionary's unique object for
its id, and only the iteration for `task` itself writes to it, so reading
`task.state` from the snapshot value coincides with the live object read;
the dependency check consults the threaded (live) table. -/
def readinessPass (ts : List Task) : List Task → List Task
  | [] => ts
  | t :: rest =>
    readinessPass
      (if t.state = TaskState.pending ∧ depsMet ts t then
        update_task_state ts t.tid TaskState.ready
      else ts) rest

/-- `TaskManager.check_and_update_task_readiness()`: iterates over the task
table (in table order, as `dict.values()` does) promoting PENDING tasks whose
dependencies are all COMPLETED to READY. -/
def check_and_update_task_readiness (ts : List Task) : List Task :=
  readinessPass ts ts

/-! ## C1: build_context -/

/-- Every dependency of the list is COMPLETED in the table with a non-null
result (the definedness condition of `build_context`). -/
def depsCompletedWithResult (ts : List Task) (deps : List Nat) : Prop :=
  ∀ d ∈ deps, ∃ u, getTask ts d = some u ∧ u.state = TaskState.completed ∧ u.result.isSome

instance (ts : List Task) (deps : List Nat) : Decidable (depsCompletedWithResult ts deps) := by
  unfold depsCompletedWithResult
  infer_instance

/-- The context text `build_context` produces on success: the dependencies'
delimiter-wrapped results in declared dependency order, joined by blank
lines. -/
def declaredContext (ts : List Task) (deps : List Nat) : String :=
  String.intercalate "\n\n" (deps.map (fun d => (depPart ts d).getD ""))

theorem depPart_eq_some_iff {ts : List Task} {d : Nat} {part : String} :
    depPart ts d = some part ↔
      ∃ dep res, getTask ts d = some dep ∧ dep.state = TaskState.completed ∧
        dep.result = some res ∧ part = contextPart d dep res := by
  unfold depPart
  rw [Option.bind_eq_some]
  constructor
  · rintro ⟨dep, hdep, hif⟩
    by_cases hs : dep.state = TaskState.completed
    · rw [if_pos hs] at hif
      rcases Option.map_eq_some'.mp hif with ⟨res, hres, hpart⟩
      exact ⟨dep, res, hdep, hs, hres, hpart.symm⟩
    · rw [if_neg hs] at hif
      exact absurd hif (by simp)
  · rintro ⟨dep, res, hdep, hs, hres, hpart⟩
    exact ⟨dep, hdep, by rw [if_pos hs, hres, Option.map_some', hpart]⟩

theorem depPart_isSome_iff {ts : List Task} {d : Nat} :
    (depPart ts d).isSome ↔
      ∃ u, getTask ts d = some u ∧ u.state = TaskState.completed ∧ u.result.isSome := by
  constructor
  · intro h
    rcases Option.isSome_iff_exists.mp h with ⟨part, hp⟩
    rcases depPart_eq_some_iff.mp hp with ⟨dep, res, hd, hs, hr, _⟩
    exact ⟨dep, hd, hs, by simp [hr]⟩
  · rintro ⟨u, hu, hs, hr⟩
    rcases Option.isSome_iff_exists.mp hr with ⟨res, hres⟩
    exact Option.isSome_iff_exists.mpr
      ⟨contextPart d u res, depPart_eq_some_iff.mpr ⟨u, res, hu, hs, hres, rfl⟩⟩

theorem collectParts_eq_some_iff (ts : List Task) (deps : List Nat) :
    (∃ parts, collectParts ts deps = some parts) ↔ depsCompletedWithResult ts deps := by
  induction deps with
  | nil => simp [collectParts, depsCompletedWithResult]
  | cons d ds ih =>
    unfold collectParts
    constructor
    · rintro ⟨parts, hp⟩
      rcases Option.bind_eq_some.mp hp with ⟨part, hpart, hmap⟩
      rcases Option.map_eq_some'.mp hmap with ⟨parts', hp', _⟩
      intro x hx
      rcases List.mem_cons.mp hx with rfl | hx'
      · exact depPart_isSome_iff.mp (by simp [hpart])
      · exact ih.mp ⟨parts', hp'⟩ x hx'
    · intro h
      have hd : (depPart ts d).isSome :=
        depPart_isSome_iff.mpr (h d (List.mem_cons_self d ds))
      rcases Option.isSome_iff_exists.mp hd with ⟨part, hpart⟩
      rcases ih.mpr (fun x hx => h x (List.mem_cons_of_mem d hx)) with ⟨parts, hp⟩
      exact ⟨part :: parts, by rw [hpart, Option.some_bind, hp, Option.map_some']⟩

theorem collectParts_value (ts : List Task) (deps : List Nat) (parts : List String)
    (hp : collectParts ts deps = some parts) :
    parts = deps.map (fun d => (depPart ts d).getD "") := by
  induction deps generalizing parts with
  | nil => simpa [collectParts] using hp.symm
  | cons d ds ih =>
    unfold collectParts at hp
    rcases Option.bind_eq_some.mp hp with ⟨part, hpart, hmap⟩
    rcases Option.map_eq_some'.mp hmap with ⟨parts', hp', rfl⟩
    rw [List.map_cons, hpart, ih parts' hp']
    rfl

/-- C1: for a task `t` of the loaded task table, `build_context` (i) with an
empty dependency list sets `t.context` to the explicit empty string and
returns it; (ii) when every declared dependency resolves to a COMPLETED task
with a non-null result, sets and returns the concatenation of the
dependencies' delimiter-wrapped results in declared dependency-list order;
(iii) otherwise sets `t.context` back to undefined (`none`) and returns the
empty string, never a partial concatenation. -/
theorem C1_build_context (ts : List Task) (t : Task)
    (ht : getTask ts t.tid = some t) :
    (t.dependencies = [] →
        (build_context ts t).2 = "" ∧
        getTask (build_context ts t).1 t.tid = some { t with context := some "" }) ∧
    (depsCompletedWithResult ts t.dependencies →
        (build_context ts t).2 = declaredContext ts t.dependencies ∧
        getTask (build_context ts t).1 t.tid =
          some { t with context := some (declaredContext ts t.dependencies) }) ∧
    (t.dependencies ≠ [] → ¬ depsCompletedWithResult ts t.dependencies →
        getTask (build_context ts t).1 t.tid = some { t with context := none } ∧
        (build_context ts t).2 = "") := by
  refine ⟨?_, ?_, ?_⟩
  · intro hd
    constructor
    · simp [build_context, hd]
    · simp only [build_context, hd, if_pos]
      rw [getTask_update_self ts t.tid (fun u => { u with context := some "" }) (fun u => rfl), ht]
      simp [hd]
  · intro h
    by_cases hd : t.dependencies = []
    · have he : declaredContext ts t.dependencies = "" := by
        rw [hd]; rfl
      refine ⟨?_, ?_⟩
      · rw [he]; simp [build_context, hd]
      · rw [he]
        simp only [build_context, hd, if_pos]
        rw [getTask_update_self ts t.tid (fun u => { u with context := some "" }) (fun u => rfl), ht]
        simp [hd]
    · rcases (collectParts_eq_some_iff ts t.dependencies).mpr h with ⟨parts, hp⟩
      have hval := collectParts_value ts t.dependencies parts hp
      have hctx : String.intercalate "\n\n" parts = declaredContext ts t.dependencies := by
        rw [hval]; rfl
      refine ⟨?_, ?_⟩
      · simp only [build_context, if_neg hd, hp]
        exact hctx
      · simp only [build_context, if_neg hd, hp]
        rw [getTask_update_self ts t.tid
          (fun u => { u with context := some (String.intercalate "\n\n" parts) }) (fun u => rfl), ht]
        rw [hctx]
        rfl
  · intro hd hno
    have hcp : collectParts ts t.dependencies = none := by
      cases hc : collectParts ts t.dependencies with
      | none => rfl
      | some parts =>
        exact absurd ((collectParts_eq_some_iff ts t.dependencies).mp ⟨parts, hc⟩) hno
    constructor
    · simp only [build_context, if_neg hd, hcp]
      rw [getTask_update_self ts t.tid (fun u => { u with context := none }) (fun u => rfl), ht]
      rfl
    · simp [build_context, if_neg hd, hcp]

/-- Witness for C1 on a concrete three-task table: task 2 depends on
[0, 1]; with both dependencies COMPLETED and carrying results, the built
context concatenates their delimiter-wrapped results in declared order and
is stored on task 2. -/
theorem C1_build_context_witness :
    let t0 : Task :=
      { tid := 0, description := "research", expected_output := "list",
        assigned_agent_id := some 0, dependencies := [], state := TaskState.completed,
        context := some "", result := some "r0" }
    let t1 : Task :=
      { tid := 1, description := "calc", expected_output := "number",
        assigned_agent_id := some 1, dependencies := [], state := TaskState.completed,
        context := some "", result := some "r1" }
    let t2 : Task :=
      { tid := 2, description := "write", expected_output := "report",
        assigned_agent_id := some 2, dependencies := [0, 1], state := TaskState.running,
        context := none, result := none }
    let ts : List Task := [t0, t1, t2]
    (build_context ts t2).2 = declaredContext ts [0, 1] ∧
    getTask (build_context ts t2).1 2 =
      some { t2 with context := some (declaredContext ts [0, 1]) } := by
  intro t0 t1 t2 ts
  exact (C1_build_context ts t2 (by decide)).2.1 (by decide)

/-! ## C2: check_and_update_task_readiness -/

theorem getTask_of_mem_nodup {ts : List Task} (hN : (ts.map (fun t => t.tid)).Nodup)
    {t : Task} (ht : t ∈ ts) : getTask ts t.tid = some t := by
  induction ts with
  | nil => cases ht
  | cons h rest ih =>
    simp only [List.map_cons, List.nodup_cons] at hN
    rcases List.mem_cons.mp ht with rfl | hmem
    · rw [getTask_cons, if_pos rfl]
    · rw [getTask_cons]
      have hne : h.tid ≠ t.tid := by
        intro he
        exact hN.1 (he ▸ List.mem_map_of_mem (fun t => t.tid) hmem)
      rw [if_neg hne]
      exact ih hN.2 hmem

theorem update_task_state_map_tid (ts : List Task) (tid : Nat) (ns : TaskState) :
    (update_task_state ts tid ns).map (fun t => t.tid) = ts.map (fun t => t.tid) :=
  updateTask_map_tid ts tid (fun t => { t with state := ns }) (fun t => rfl)

theorem depCompleted_update (ts : List Task) (tid : Nat) (t : Task)
    (ht : getTask ts tid = some t) (h1 : t.state ≠ TaskState.completed)
    (ns : TaskState) (h2 : ns ≠ TaskState.completed) (d : Nat) :
    depCompleted (update_task_state ts tid ns) d = depCompleted ts d := by
  unfold depCompleted update_task_state
  by_cases hd : d = tid
  · subst hd
    rw [getTask_update_self ts d (fun u => { u with state := ns }) (fun u => rfl), ht]
    show (ns == TaskState.completed) = (t.state == TaskState.completed)
    simp [beq_iff_eq, h1, h2]
  · rw [getTask_update_ne ts tid d (fun u => { u with state := ns }) (fun u => rfl) hd]

theorem depsMet_congr (ts ts' : List Task)
    (h : ∀ d, depCompleted ts' d = depCompleted ts d) (t : Task) :
    depsMet ts' t = depsMet ts t := by
  unfold depsMet
  induction t.dependencies with
  | nil => rfl
  | cons d ds ih => simp only [List.all_cons, h d, ih]

/-- The full pointwise characterization of the readiness loop over a snapshot
`l` whose entries are current in the table: the entry for `tid0` is promoted
to READY exactly when it is in the snapshot, PENDING and has all
dependencies COMPLETED (conditions read on the table at entry); every other
entry is returned unchanged. -/
theorem readinessPass_getTask (l : List Task) : ∀ (ts : List Task),
    (ts.map (fun t => t.tid)).Nodup →
    (∀ t ∈ l, getTask ts t.tid = some t) →
    (l.map (fun t => t.tid)).Nodup →
    ∀ (tid0 : Nat) (t0 : Task), getTask ts tid0 = some t0 →
    getTask (readinessPass ts l) tid0 =
      some (if t0 ∈ l ∧ t0.state = TaskState.pending ∧ depsMet ts t0 = true
        then { t0 with state := TaskState.ready } else t0) := by
  induction l with
  | nil =>
    intro ts hN hl hlN tid0 t0 h0
    have hcond : ¬ (t0 ∈ ([] : List Task) ∧ t0.state = TaskState.pending ∧
        depsMet ts t0 = true) := by
      rintro ⟨hm, -⟩
      cases hm
    rw [show readinessPass ts [] = ts from rfl, if_neg hcond]
    exact h0
  | cons t l' ih =>
    intro ts hN hl hlN tid0 t0 h0
    simp only [List.map_cons, List.nodup_cons] at hlN
    have hhead : getTask ts t.tid = some t := hl t (List.mem_cons_self t l')
    by_cases hc : t.state = TaskState.pending ∧ depsMet ts t = true
    · -- the head iteration promotes `t`
      have hstep : readinessPass ts (t :: l') =
          readinessPass (update_task_state ts t.tid TaskState.ready) l' := by
        simp only [readinessPass, if_pos hc]
      set ts' := update_task_state ts t.tid TaskState.ready with hts'
      have hN' : (ts'.map (fun t => t.tid)).Nodup := by
        rw [hts', update_task_state_map_tid]; exact hN
      have hdep : ∀ d, depCompleted ts' d = depCompleted ts d := fun d =>
        depCompleted_update ts t.tid t hhead (by rw [hc.1]; intro h; cases h)
          TaskState.ready (by intro h; cases h) d
      have hl' : ∀ u ∈ l', getTask ts' u.tid = some u := by
        intro u hu
        have hne : u.tid ≠ t.tid := by
          intro he
          exact hlN.1 (he ▸ List.mem_map_of_mem (fun t => t.tid) hu)
        rw [hts', update_task_state,
          getTask_update_ne ts t.tid u.tid (fun v => { v with state := TaskState.ready })
            (fun v => rfl) hne]
        exact hl u (List.mem_cons_of_mem t hu)
      by_cases h0t : tid0 = t.tid
      · -- tid0 is the promoted head
        subst h0t
        obtain rfl : t0 = t := by
          rw [hhead] at h0
          exact (Option.some_inj.mp h0).symm
        have h0' : getTask ts' t0.tid = some { t0 with state := TaskState.ready } := by
          rw [hts', update_task_state,
            getTask_update_self ts t0.tid (fun v => { v with state := TaskState.ready })
              (fun v => rfl), h0]
          rfl
        have := ih ts' hN' hl' hlN.2 t0.tid { t0 with state := TaskState.ready } h0'
        rw [hstep, this]
        have hcond1 : ¬ (({ t0 with state := TaskState.ready } : Task) ∈ l' ∧
            ({ t0 with state := TaskState.ready } : Task).state = TaskState.pending ∧
            depsMet ts' { t0 with state := TaskState.ready } = true) := by
          rintro ⟨-, hpend, -⟩
          cases hpend
        rw [if_neg hcond1]
        have hcond2 : t0 ∈ t0 :: l' ∧ t0.state = TaskState.pending ∧ depsMet ts t0 = true :=
          ⟨List.mem_cons_self t0 l', hc⟩
        rw [if_pos hcond2]
      · -- tid0 is some other entry
        have h0' : getTask ts' tid0 = some t0 := by
          rw [hts', update_task_state,
            getTask_update_ne ts t.tid tid0 (fun v => { v with state := TaskState.ready })
              (fun v => rfl) h0t]
          exact h0
        have := ih ts' hN' hl' hlN.2 tid0 t0 h0'
        rw [hstep, this]
        have ht0t : t0 ≠ t := by
          intro he
          exact h0t (by rw [← getTask_tid h0, he])
        have hiff : (t0 ∈ l' ∧ t0.state = TaskState.pending ∧ depsMet ts' t0 = true) ↔
            (t0 ∈ t :: l' ∧ t0.state = TaskState.pending ∧ depsMet ts t0 = true) := by
          rw [depsMet_congr ts ts' hdep t0]
          constructor
          · rintro ⟨hm, h1, h2⟩
            exact ⟨List.mem_cons_of_mem t hm, h1, h2⟩
          · rintro ⟨hm, h1, h2⟩
            rcases List.mem_cons.mp hm with rfl | hm'
            · exact absurd rfl ht0t
            · exact ⟨hm', h1, h2⟩
        rw [if_congr hiff rfl rfl]
    · -- the head iteration is a no-op
      have hstep : readinessPass ts (t :: l') = readinessPass ts l' := by
        simp only [readinessPass, if_neg hc]
      have := ih ts hN (fun u hu => hl u (List.mem_cons_of_mem t hu)) hlN.2 tid0 t0 h0
      rw [hstep, this]
      by_cases h0t : t0 = t
      · subst h0t
        have hcond1 : ¬ (t0 ∈ l' ∧ t0.state = TaskState.pending ∧ depsMet ts t0 = true) := by
          rintro ⟨-, h1, h2⟩
          exact hc ⟨h1, h2⟩
        have hcond2 : ¬ (t0 ∈ t0 :: l' ∧ t0.state = TaskState.pending ∧ depsMet ts t0 = true) := by
          rintro ⟨-, h1, h2⟩
          exact hc ⟨h1, h2⟩
        rw [if_neg hcond1, if_neg hcond2]
      · have hiff : (t0 ∈ l' ∧ t0.state = TaskState.pending ∧ depsMet ts t0 = true) ↔
            (t0 ∈ t :: l' ∧ t0.state = TaskState.pending ∧ depsMet ts t0 = true) := by
          constructor
          · rintro ⟨hm, h1, h2⟩
            exact ⟨List.mem_cons_of_mem t hm, h1, h2⟩
          · rintro ⟨hm, h1, h2⟩
            rcases List.mem_cons.mp hm with rfl | hm'
            · exact absurd rfl h0t
            · exact ⟨hm', h1, h2⟩
        rw [if_congr hiff rfl rfl]

/-- Pointwise characterization of the readiness pass over a duplicate-free
table: each entry is promoted to READY iff it is PENDING with all
dependencies COMPLETED, and is otherwise untouched. -/
theorem check_readiness_spec (ts : List Task)
    (hN : (ts.map (fun t => t.tid)).Nodup)
    (tid0 : Nat) (t0 : Task) (h0 : getTask ts tid0 = some t0) :
    getTask (check_and_update_task_readiness ts) tid0 =
      some (if t0.state = TaskState.pending ∧ depsMet ts t0 = true
        then { t0 with state := TaskState.ready } else t0) := by
  have hmem : t0 ∈ ts := getTask_mem h0
  have h := readinessPass_getTask ts ts hN
    (fun t ht => getTask_of_mem_nodup hN ht) hN tid0 t0 h0
  rw [check_and_update_task_readiness, h]
  have hiff : (t0 ∈ ts ∧ t0.state = TaskState.pending ∧ depsMet ts t0 = true) ↔
      (t0.state = TaskState.pending ∧ depsMet ts t0 = true) := by
    constructor
    · rintro ⟨-, h1, h2⟩
      exact ⟨h1, h2⟩
    · rintro ⟨h1, h2⟩
      exact ⟨hmem, h1, h2⟩
  rw [if_congr hiff rfl rfl]

/-- C2: the readiness pass promotes to READY exactly those PENDING tasks all
of whose dependency ids exist in the task table and refer to COMPLETED
tasks; every other task's record (in particular its state) is left
unchanged.  A PENDING task with an empty dependency list satisfies the
dependency condition vacuously, so it is promoted on the first readiness
check. -/
theorem C2_check_and_update_task_readiness (ts : List Task)
    (hN : (ts.map (fun t => t.tid)).Nodup)
    (tid0 : Nat) (t0 : Task) (h0 : getTask ts tid0 = some t0) :
    getTask (check_and_update_task_readiness ts) tid0 =
      some (if t0.state = TaskState.pending ∧ depsMet ts t0 = true
        then { t0 with state := TaskState.ready } else t0) ∧
    (t0.dependencies = [] → depsMet ts t0 = true) := by
  constructor
  · exact check_readiness_spec ts hN tid0 t0 h0
  · intro hd
    unfold depsMet
    rw [hd]
    rfl

/-- Witness for C2 on a concrete table: task 1 (PENDING, dep on the
COMPLETED task 0) is promoted to READY; task 2 (PENDING, one dependency id
unknown) and task 0 (already COMPLETED) are unchanged. -/
theorem C2_check_and_update_task_readiness_witness :
    let t0 : Task :=
      { tid := 0, description := "a", expected_output := "a",
        assigned_agent_id := none, dependencies := [], state := TaskState.completed,
        context := some "", result := some "r0" }
    let t1 : Task :=
      { tid := 1, description := "b", expected_output := "b",
        assigned_agent_id := none, dependencies := [0], state := TaskState.pending,
        context := none, result := none }
    let t2 : Task :=
      { tid := 2, description := "c", expected_output := "c",
        assigned_agent_id := none, dependencies := [0, 7], state := TaskState.pending,
        context := none, result := none }
    let ts : List Task := [t0, t1, t2]
    getTask (check_and_update_task_readiness ts) 1 =
      some { t1 with state := TaskState.ready } ∧
    getTask (check_and_update_task_readiness ts) 2 = some t2 ∧
    getTask (check_and_update_task_readiness ts) 0 = some t0 := by
  intro t0 t1 t2 ts
  refine ⟨?_, ?_, ?_⟩
  · have h := (C2_check_and_update_task_readiness ts (by decide) 1 t1 (by decide)).1
    rw [h]
    decide
  · have h := (C2_check_and_update_task_readiness ts (by decide) 2 t2 (by decide)).1
    rw [h]
    decide
  · have h := (C2_check_and_update_task_readiness ts (by decide) 0 t0 (by decide)).1
    rw [h]
    decide

/-! ## ResourceMonitor (`core/resource_monitor.py`) -/

/-- `ResourceMonitor`: running totals per usage kind plus the append-only
usage log of `(type, agent_id, task_id, amount)` entries. -/
structure ResourceMonitor where
  total_tokens_used : Nat
  total_tool_calls : Nat
  usage_log : List (String × Nat × Option Nat × Nat)
deriving DecidableEq, Repr

/-- `ResourceMonitor.__init__`. -/
def ResourceMonitor.init : ResourceMonitor :=
  { total_tokens_used := 0, total_tool_calls := 0, usage_log := [] }

/-- `ResourceMonitor.record_usage`: ignores a non-positive amount, adds to
the matching total, and appends the log entry.  Amounts are naturals in the
source (tool costs, the per-call token estimate), so `amount <= 0` is
`amount = 0` here. -/
def ResourceMonitor.record_usage (rm : ResourceMonitor) (usage_type : String)
    (agent_id : Nat) (task_id : Option Nat) (amount : Nat) : ResourceMonitor :=
  if amount = 0 then rm
  else
    let rm :=
      if usage_type == "tokens" then
        { rm with total_tokens_used := rm.total_tokens_used + amount }
      else if usage_type == "tool_calls" then
        { rm with total_tool_calls := rm.total_tool_calls + amount }
      else rm
    { rm with usage_log := rm.usage_log ++ [(usage_type, agent_id, task_id, amount)] }

/-! ## Decoded JSON values (`json.loads` results: oracle responses, tool arguments) -/

/-- A decoded JSON value as `json.loads` returns it: the shape of the
decision oracle's responses and of tool arguments. -/
inductive JVal where
  | jnull
  | jbool (b : Bool)
  | jnum (n : Int)
  | jstr (s : String)
  | jarr (xs : List JVal)
  | jobj (fields : List (String × JVal))

/-- Python `value == "lit"` for a decoded JSON value: true only for the
equal string (a non-string value never equals a string). -/
def jeqStr (v : JVal) (s : String) : Bool :=
  match v with
  | JVal.jstr t => t == s
  | _ => false

/-- Python falsiness of a decoded JSON value (the `if not tool_name`
check). -/
def jfalsy : JVal → Bool
  | JVal.jnull => true
  | JVal.jbool b => !b
  | JVal.jnum n => n == 0
  | JVal.jstr s => s == ""
  | JVal.jarr xs => xs.isEmpty
  | JVal.jobj fs => fs.isEmpty

/-- `dict.get(key)` on a decoded JSON object. -/
def jget (fields : List (String × JVal)) (key : String) : Option JVal :=
  (fields.find? (fun p => p.1 == key)).map (fun p => p.2)

/-- Python `value in tools` for a decoded JSON value against a list of
strings: only an equal string is a member. -/
def jmemStr (v : JVal) (tools : List String) : Bool :=
  match v with
  | JVal.jstr s => tools.contains s
  | _ => false

mutual

/-- Python `str()` of a decoded JSON value (what `add_result` stores for the
final answer, and how `tool_name` renders inside error strings).  Containers
render in Python repr style. -/
def pyStr : JVal → String
  | JVal.jnull => "None"
  | JVal.jbool b => if b then "True" else "False"
  | JVal.jnum n => toString n
  | JVal.jstr s => s
  | JVal.jarr xs => "[" ++ pyStrList xs ++ "]"
  | JVal.jobj fs => "\x7b" ++ pyStrFields fs ++ "\x7d"

/-- Comma-joined renderings of the elements of a JSON array. -/
def pyStrList : List JVal → String
  | [] => ""
  | [x] => pyStr x
  | x :: xs => pyStr x ++ ", " ++ pyStrList xs

/-- Comma-joined `key: value` renderings of the fields of a JSON object. -/
def pyStrFields : List (String × JVal) → String
  | [] => ""
  | [(k, v)] => k ++ ": " ++ pyStr v
  | (k, v) :: fs => k ++ ": " ++ pyStr v ++ ", " ++ pyStrFields fs

end

/-- Python `str()` of a list of strings (the allowed-tools list rendered
inside the Unauthorized error string). -/
def pyStrListStr (xs : List String) : String :=
  "[" ++ String.intercalate ", " (xs.map (fun s => "'" ++ s ++ "'")) ++ "]"

/-! ## Tools (`components/tool.py`) -/

/-- The outcome of invoking a tool implementation: the returned string, or a
raised exception carrying its Python type name and message. -/
inductive ToolOutcome where
  | ok (result : String)
  | exc (exc_type : String) (exc_msg : String)

/-- `Tool` from `components/tool.py`: registered name, description, declared
cost, and the `execute(**kwargs)` behaviour.  `sig` stands for
`inspect.signature(self.execute)`, which the dispatcher quotes in its
argument-mismatch error string. -/
structure Tool where
  name : String
  description : String
  cost : Nat
  sig : String
  execute : List (String × JVal) → ToolOutcome

/-- `ToolRegistry._tools`: the name-keyed tool mapping. -/
abbrev ToolRegistry := List Tool

/-- `ToolRegistry.get_tool(name)`: `self._tools.get(name)`.  A non-string
key (the dispatcher passes the oracle's decoded `tool_name` through) matches
no entry of the str-keyed dict. -/
def get_tool (registry : ToolRegistry) (name : JVal) : Option Tool :=
  match name with
  | JVal.jstr s => registry.find? (fun t => t.name == s)
  | _ => none

/-! ## ToolDispatcher (`core/tool_dispatcher.py`) -/

/-- `ToolDispatcher.execute_tool(agent, task_id, tool_name, **kwargs)`.
Returns the mutated agent table (the dispatcher's crew reference aliases the
table the kernel and scheduler share, and the `agent` argument is that
table's object), the mutated resource monitor, and the returned string.
Order as in the source: authorization against the crew agent's allowlist,
registry lookup, resource recording (global ledger then agent counters),
then invocation with every exception converted to an error string. -/
def execute_tool (ags : List Agent) (registry : ToolRegistry) (rm : ResourceMonitor)
    (agent_aid : Nat) (task_id : Option Nat) (tool_name : JVal)
    (kwargs : List (String × JVal)) : List Agent × ResourceMonitor × String :=
  match getAgent ags agent_aid with
  | none =>
    (ags, rm, "Error: Agent " ++ toString agent_aid ++ " not found.")
  | some agent_obj =>
    if !(jmemStr tool_name agent_obj.tools) then
      (ags, rm, "Error: You are not authorized to use the tool '" ++ pyStr tool_name
        ++ "'. Available tools: " ++ pyStrListStr agent_obj.tools)
    else
      match get_tool registry tool_name with
      | none =>
        (ags, rm, "Error: Tool '" ++ pyStr tool_name ++ "' not found in the system.")
      | some tool =>
        let rm := rm.record_usage "tool_calls" agent_aid task_id 1
        let rm := rm.record_usage "tokens" agent_aid task_id tool.cost
        let ags := updateAgent ags agent_aid
          (fun a => (a.record_usage "tool_calls" 1).record_usage "tokens" tool.cost)
        match tool.execute kwargs with
        | ToolOutcome.ok result => (ags, rm, result)
        | ToolOutcome.exc exc_type exc_msg =>
          if exc_type == "TypeError" then
            (ags, rm, "Error: Tool '" ++ pyStr tool_name
              ++ "' failed. Incorrect arguments provided. Expected arguments: "
              ++ tool.sig ++ ". Error: " ++ exc_msg)
          else
            (ags, rm, "Error executing tool '" ++ pyStr tool_name ++ "': "
              ++ exc_type ++ " - " ++ exc_msg)

/-! ## C4, C5: tool-dispatch accounting and fault conversion -/

theorem pyStr_jstr (s : String) : pyStr (JVal.jstr s) = s := by
  simp [pyStr]

theorem jmemStr_jstr (s : String) (tools : List String) :
    jmemStr (JVal.jstr s) tools = tools.contains s := rfl

theorem record_usage_tool_calls_one (rm : ResourceMonitor) (a : Nat) (t : Option Nat) :
    rm.record_usage "tool_calls" a t 1 =
      { rm with
        total_tool_calls := rm.total_tool_calls + 1,
        usage_log := rm.usage_log ++ [("tool_calls", a, t, 1)] } := by
  simp [ResourceMonitor.record_usage]

theorem record_usage_tokens (rm : ResourceMonitor) (a : Nat) (t : Option Nat) (n : Nat) :
    rm.record_usage "tokens" a t n =
      if n = 0 then rm else
        { rm with
          total_tokens_used := rm.total_tokens_used + n,
          usage_log := rm.usage_log ++ [("tokens", a, t, n)] } := by
  by_cases hn : n = 0
  · simp [ResourceMonitor.record_usage, hn]
  · simp [ResourceMonitor.record_usage, hn]

theorem Agent.record_usage_aid (a : Agent) (ty : String) (n : Nat) :
    (a.record_usage ty n).aid = a.aid := by
  unfold Agent.record_usage
  by_cases h0 : n = 0
  · rw [if_pos h0]
  · rw [if_neg h0]
    by_cases h1 : (ty == "tokens") = true
    · rw [if_pos h1]
    · rw [if_neg h1]
      by_cases h2 : (ty == "tool_calls") = true
      · rw [if_pos h2]
      · rw [if_neg h2]

theorem agent_tool_charge (a : Agent) (c : Nat) :
    (a.record_usage "tool_calls" 1).record_usage "tokens" c =
      { a with resource_usage :=
        { tokens := a.resource_usage.tokens + c,
          tool_calls := a.resource_usage.tool_calls + 1 } } := by
  by_cases hc : c = 0
  · subst hc
    simp [Agent.record_usage]
  · simp [Agent.record_usage, hc]

/-- C4 (amended): for every dispatch that passes authorization and registry
lookup, exactly one toolCalls unit and tokens equal to the tool's declared
cost are recorded against both the global ledger totals and the calling
agent's counters — whatever `tool.execute` then does (the conclusion does
not depend on the invocation outcome, which may be a raised exception). -/
theorem C4_execute_tool_accounting (ags : List Agent) (registry : ToolRegistry)
    (rm : ResourceMonitor) (aid : Nat) (task_id : Option Nat) (s : String)
    (kwargs : List (String × JVal)) (agent_obj : Agent) (tool : Tool)
    (hagent : getAgent ags aid = some agent_obj)
    (hauth : agent_obj.tools.contains s = true)
    (htool : get_tool registry (JVal.jstr s) = some tool) :
    (execute_tool ags registry rm aid task_id (JVal.jstr s) kwargs).2.1.total_tool_calls
        = rm.total_tool_calls + 1 ∧
    (execute_tool ags registry rm aid task_id (JVal.jstr s) kwargs).2.1.total_tokens_used
        = rm.total_tokens_used + tool.cost ∧
    getAgent (execute_tool ags registry rm aid task_id (JVal.jstr s) kwargs).1 aid =
      some { agent_obj with resource_usage :=
        { tokens := agent_obj.resource_usage.tokens + tool.cost,
          tool_calls := agent_obj.resource_usage.tool_calls + 1 } } := by
  have hmem : (!(jmemStr (JVal.jstr s) agent_obj.tools)) = false := by
    rw [jmemStr_jstr, hauth]
    rfl
  have hags : (execute_tool ags registry rm aid task_id (JVal.jstr s) kwargs).1 =
      updateAgent ags aid
        (fun a => (a.record_usage "tool_calls" 1).record_usage "tokens" tool.cost) ∧
      (execute_tool ags registry rm aid task_id (JVal.jstr s) kwargs).2.1 =
      (rm.record_usage "tool_calls" aid task_id 1).record_usage "tokens" aid task_id tool.cost := by
    cases ho : tool.execute kwargs with
    | ok result =>
      constructor <;>
        simp only [execute_tool, hagent, hmem, Bool.false_eq_true, if_false, htool, ho]
    | exc exc_type exc_msg =>
      by_cases hty : (exc_type == "TypeError") = true
      · constructor <;>
          simp only [execute_tool, hagent, hmem, Bool.false_eq_true, if_false, htool, ho,
            hty, if_true]
      · constructor <;>
          simp only [execute_tool, hagent, hmem, Bool.false_eq_true, if_false, htool, ho,
            hty, if_false]
  refine ⟨?_, ?_, ?_⟩
  · rw [hags.2, record_usage_tokens, record_usage_tool_calls_one]
    by_cases hc : tool.cost = 0
    · rw [if_pos hc]
    · rw [if_neg hc]
  · rw [hags.2, record_usage_tokens, record_usage_tool_calls_one]
    by_cases hc : tool.cost = 0
    · rw [if_pos hc, hc]
      simp
    · rw [if_neg hc]
  · rw [hags.1,
      getAgent_update_self ags aid _ (fun a => by rw [Agent.record_usage_aid, Agent.record_usage_aid]),
      hagent, Option.map_some', agent_tool_charge]

/-- C4 counterexample to the claim as stated: a call to `execute_tool` whose
tool name is outside the agent's allowlist records nothing at all — the
ledger and the agent table come back unchanged (zero toolCalls units, not
exactly one per call). -/
theorem C4_execute_tool_counterexample :
    let a0 : Agent :=
      { aid := 0, role := "Calculation Assistant", goal := "g", backstory := "b",
        tools := ["calculator"], state := AgentState.using_tool, current_task_id := some 1,
        resource_usage := { tokens := 0, tool_calls := 0 } }
    let web : Tool :=
      { name := "web_search", description := "Searches the web for a query.", cost := 5,
        sig := "(**kwargs)", execute := fun _ => ToolOutcome.ok "r" }
    (execute_tool [a0] [web] ResourceMonitor.init 0 (some 1) (JVal.jstr "web_search") []).1
        = [a0] ∧
    (execute_tool [a0] [web] ResourceMonitor.init 0 (some 1) (JVal.jstr "web_search") []).2.1
        = ResourceMonitor.init ∧
    ResourceMonitor.init.total_tool_calls = 0 ∧ ResourceMonitor.init.total_tokens_used = 0 := by
  refine ⟨rfl, rfl, rfl, rfl⟩

/-- Witness for C4 (amended) at a concrete call whose tool raises: the
charge is still recorded once against both ledgers. -/
theorem C4_execute_tool_accounting_witness :
    let a0 : Agent :=
      { aid := 0, role := "Market Researcher", goal := "g", backstory := "b",
        tools := ["web_search"], state := AgentState.using_tool, current_task_id := some 1,
        resource_usage := { tokens := 100, tool_calls := 2 } }
    let boom : Tool :=
      { name := "web_search", description := "Searches the web for a query.", cost := 5,
        sig := "(**kwargs)", execute := fun _ => ToolOutcome.exc "ValueError" "boom" }
    (execute_tool [a0] [boom] ResourceMonitor.init 0 (some 1) (JVal.jstr "web_search") []).2.1.total_tool_calls
        = 1 ∧
    (execute_tool [a0] [boom] ResourceMonitor.init 0 (some 1) (JVal.jstr "web_search") []).2.1.total_tokens_used
        = 5 ∧
    getAgent (execute_tool [a0] [boom] ResourceMonitor.init 0 (some 1) (JVal.jstr "web_search") []).1 0 =
      some { a0 with resource_usage := { tokens := 105, tool_calls := 3 } } := by
  intro a0 boom
  obtain ⟨h1, h2, h3⟩ :=
    C4_execute_tool_accounting [a0] [boom] ResourceMonitor.init 0 (some 1) "web_search" []
      a0 boom rfl rfl rfl
  exact ⟨h1, h2, h3⟩

/-- C5: every fault of a dispatch is converted to a returned error string,
never propagated: an unauthorized tool name yields the Unauthorized string
naming the allowed set; a name absent from the registry yields the NotFound
string; an exception raised by the tool's `execute` yields the
argument-mismatch string for a TypeError and the generic execution-error
string otherwise; an unknown agent yields the agent-not-found string.  In
each case the dispatcher returns normally with that string. -/
theorem C5_execute_tool_fault_strings (ags : List Agent) (registry : ToolRegistry)
    (rm : ResourceMonitor) (aid : Nat) (task_id : Option Nat)
    (kwargs : List (String × JVal)) :
    (∀ s agent_obj, getAgent ags aid = some agent_obj →
      agent_obj.tools.contains s = false →
      execute_tool ags registry rm aid task_id (JVal.jstr s) kwargs =
        (ags, rm, "Error: You are not authorized to use the tool '" ++ s
          ++ "'. Available tools: " ++ pyStrListStr agent_obj.tools)) ∧
    (∀ s agent_obj, getAgent ags aid = some agent_obj →
      agent_obj.tools.contains s = true →
      get_tool registry (JVal.jstr s) = none →
      execute_tool ags registry rm aid task_id (JVal.jstr s) kwargs =
        (ags, rm, "Error: Tool '" ++ s ++ "' not found in the system.")) ∧
    (∀ s agent_obj tool exc_type exc_msg, getAgent ags aid = some agent_obj →
      agent_obj.tools.contains s = true →
      get_tool registry (JVal.jstr s) = some tool →
      tool.execute kwargs = ToolOutcome.exc exc_type exc_msg →
      (execute_tool ags registry rm aid task_id (JVal.jstr s) kwargs).2.2 =
        (if exc_type == "TypeError" then
          "Error: Tool '" ++ s ++ "' failed. Incorrect arguments provided. Expected arguments: "
            ++ tool.sig ++ ". Error: " ++ exc_msg
        else
          "Error executing tool '" ++ s ++ "': " ++ exc_type ++ " - " ++ exc_msg)) ∧
    (∀ tool_name, getAgent ags aid = none →
      execute_tool ags registry rm aid task_id tool_name kwargs =
        (ags, rm, "Error: Agent " ++ toString aid ++ " not found.")) := by
  refine ⟨?_, ?_, ?_, ?_⟩
  · intro s agent_obj hagent hnauth
    have hmem : (!(jmemStr (JVal.jstr s) agent_obj.tools)) = true := by
      rw [jmemStr_jstr, hnauth]
      rfl
    simp only [execute_tool, hagent, hmem, if_true, pyStr_jstr]
  · intro s agent_obj hagent hauth htool
    have hmem : (!(jmemStr (JVal.jstr s) agent_obj.tools)) = false := by
      rw [jmemStr_jstr, hauth]
      rfl
    simp only [execute_tool, hagent, hmem, Bool.false_eq_true, if_false, htool, pyStr_jstr]
  · intro s agent_obj tool exc_type exc_msg hagent hauth htool ho
    have hmem : (!(jmemStr (JVal.jstr s) agent_obj.tools)) = false := by
      rw [jmemStr_jstr, hauth]
      rfl
    by_cases hty : (exc_type == "TypeError") = true
    · simp only [execute_tool, hagent, hmem, Bool.false_eq_true, if_false, htool, ho, hty,
        if_true, pyStr_jstr]
    · have hty' : (exc_type == "TypeError") = false := by
        cases h : (exc_type == "TypeError") with
        | true => exact absurd h hty
        | false => rfl
      simp only [execute_tool, hagent, hmem, Bool.false_eq_true, if_false, htool, ho, hty',
        pyStr_jstr]
  · intro tool_name hagent
    simp only [execute_tool, hagent]

/-- Witness for C5 at a concrete call whose tool raises a TypeError: the
dispatcher returns the argument-mismatch error string. -/
theorem C5_execute_tool_fault_strings_witness :
    let a0 : Agent :=
      { aid := 0, role := "Calculation Assistant", goal := "g", backstory := "b",
        tools := ["calculator"], state := AgentState.using_tool, current_task_id := some 1,
        resource_usage := { tokens := 0, tool_calls := 0 } }
    let calculator : Tool :=
      { name := "calculator", description := "Performs calculations.", cost := 1,
        sig := "(**kwargs)", execute := fun _ => ToolOutcome.exc "TypeError" "boom" }
    (execute_tool [a0] [calculator] ResourceMonitor.init 0 (some 1) (JVal.jstr "calculator") []).2.2 =
      "Error: Tool 'calculator' failed. Incorrect arguments provided. Expected arguments: "
        ++ "(**kwargs)" ++ ". Error: " ++ "boom" := by
  intro a0 calculator
  have h := (C5_execute_tool_fault_strings [a0] [calculator] ResourceMonitor.init 0 (some 1) []).2.2.1
    "calculator" a0 calculator "TypeError" "boom" rfl rfl rfl rfl
  rw [h]
  rfl

/-! ## Scheduler (`core/scheduler.py`) -/

/-- The mutable core state the scheduler and kernel share: the task table,
the agent pool, the sequential task queue and the resource monitor. -/
structure Sys where
  tasks : List Task
  agents : List Agent
  task_queue : List Nat
  rm : ResourceMonitor
deriving DecidableEq, Repr

/-- One iteration of the promotion loop of `AgentScheduler.schedule_next`
(SEQUENTIAL, step 1), for snapshot entry `t` — a task that was ASSIGNED when
the `assigned_tasks` snapshot was taken; only this iteration writes to that
object, so the snapshot value is the live object.  If the bound agent still
holds exactly this task and is ASSIGNED: agent to RUNNING_TASK, task to
RUNNING, then the context is built. -/
def promoteStep (s : Sys) (t : Task) : Sys :=
  match t.assigned_agent_id with
  | some aid =>
    match getAgent s.agents aid with
    | some agent =>
      if agent.current_task_id = some t.tid ∧ agent.state = AgentState.assigned then
        let agents := updateAgent s.agents aid
          (fun a => { a with state := AgentState.running_task })
        let tasks := update_task_state s.tasks t.tid TaskState.running
        let tasks := (build_context tasks t).1
        { s with agents := agents, tasks := tasks }
      else s
    | none => s
  | none => s

/-- Step 1 of the SEQUENTIAL `schedule_next`: promote every ASSIGNED task
whose agent confirms the assignment, iterating over the snapshot of ASSIGNED
tasks. -/
def promote_assigned (s : Sys) : Sys :=
  (s.tasks.filter (fun t => t.state == TaskState.assigned)).foldl promoteStep s

/-- `AgentScheduler.get_available_agents()`: the IDLE agents in table
order. -/
def get_available_agents (ags : List Agent) : List Agent :=
  ags.filter (fun a => a.state == AgentState.idle)

/-- `AgentScheduler.assign_task_to_agent(task, agent)`: records the binding
on the task, sets it ASSIGNED, and gives the agent the task (the agent's
`assign_task` sets `current_task_id` and the ASSIGNED state). -/
def assign_task_to_agent (s : Sys) (tid : Nat) (agent : Agent) : Sys :=
  let tasks := updateTask s.tasks tid (fun t => { t with assigned_agent_id := some agent.aid })
  let tasks := update_task_state tasks tid TaskState.assigned
  let agents := updateAgent s.agents agent.aid
    (fun a => { a with current_task_id := some tid, state := AgentState.assigned })
  { s with tasks := tasks, agents := agents }

/-- Step 2 of the SEQUENTIAL `schedule_next`: peek the queue head, recompute
readiness, re-fetch the head task and branch on its state: READY with an
IDLE agent available dequeues and assigns to the first IDLE agent; PENDING
takes no action; ASSIGNED/RUNNING/COMPLETED/FAILED drops exactly the head
entry; an unknown id drops exactly the head entry. -/
def assign_phase (s : Sys) : Sys :=
  match s.task_queue with
  | [] => s
  | next_tid :: rest =>
    let tasks := check_and_update_task_readiness s.tasks
    let s1 : Sys := { s with tasks := tasks }
    match getTask tasks next_tid with
    | some task =>
      if task.state = TaskState.ready then
        match get_available_agents s1.agents with
        | agent :: _ => assign_task_to_agent { s1 with task_queue := rest } next_tid agent
        | [] => s1
      else if task.state = TaskState.pending then s1
      else if task.state = TaskState.assigned ∨ task.state = TaskState.running ∨
          task.state = TaskState.completed ∨ task.state = TaskState.failed then
        { s1 with task_queue := rest }
      else s1
    | none => { s1 with task_queue := rest }

/-- `AgentScheduler.schedule_next()`: the SEQUENTIAL process runs promotion
then head-of-queue assignment; HIERARCHICAL is a reserved no-op. -/
def schedule_next (process : CrewProcess) (s : Sys) : Sys :=
  match process with
  | CrewProcess.sequential => assign_phase (promote_assigned s)
  | CrewProcess.hierarchical => s

/-! ## C3: schedule_next (SEQUENTIAL) -/

/-- The context value `build_context` stores: the explicit empty string for
no dependencies, the declared-order concatenation on success, undefined on
failure. -/
def builtContext (ts : List Task) (t : Task) : Option String :=
  if t.dependencies = [] then some ""
  else (collectParts ts t.dependencies).map (fun parts => String.intercalate "\n\n" parts)

theorem build_context_fst (ts : List Task) (t : Task) :
    (build_context ts t).1 =
      updateTask ts t.tid (fun u => { u with context := builtContext ts t }) := by
  unfold build_context builtContext
  by_cases hd : t.dependencies = []
  · simp [hd]
  · cases hc : collectParts ts t.dependencies with
    | none => simp [hd, hc]
    | some parts => simp [hd, hc]

theorem depPart_update_congr (ts : List Task) (tid : Nat) (f : Task → Task)
    (hf : ∀ u, (f u).tid = u.tid ∧ (f u).state = u.state ∧ (f u).result = u.result ∧
      (f u).description = u.description) (d : Nat) :
    depPart (updateTask ts tid f) d = depPart ts d := by
  unfold depPart
  by_cases hd : d = tid
  · subst hd
    rw [getTask_update_self ts d f (fun u => (hf u).1)]
    cases hg : getTask ts d with
    | none => rfl
    | some u =>
      rw [Option.map_some', Option.some_bind, Option.some_bind]
      have hcp : (fun res => contextPart d (f u) res) = (fun res => contextPart d u res) := by
        funext res
        unfold contextPart
        rw [(hf u).2.2.2]
      rw [(hf u).2.1, (hf u).2.2.1, hcp]
  · rw [getTask_update_ne ts tid d f (fun u => (hf u).1) hd]

theorem depPart_update_state (ts : List Task) (tid : Nat) (t : Task)
    (ht : getTask ts tid = some t) (h1 : t.state ≠ TaskState.completed)
    (ns : TaskState) (h2 : ns ≠ TaskState.completed) (d : Nat) :
    depPart (update_task_state ts tid ns) d = depPart ts d := by
  unfold depPart update_task_state
  by_cases hd : d = tid
  · subst hd
    rw [getTask_update_self ts d (fun u => { u with state := ns }) (fun u => rfl), ht,
      Option.map_some', Option.some_bind, Option.some_bind]
    rw [if_neg (fun h => h2 h), if_neg h1]
  · rw [getTask_update_ne ts tid d (fun u => { u with state := ns }) (fun u => rfl) hd]

theorem collectParts_congr (ts ts' : List Task)
    (h : ∀ d, depPart ts' d = depPart ts d) (deps : List Nat) :
    collectParts ts' deps = collectParts ts deps := by
  induction deps with
  | nil => rfl
  | cons d ds ih =>
    unfold collectParts
    rw [h d, ih]

theorem builtContext_congr (ts ts' : List Task)
    (h : ∀ d, depPart ts' d = depPart ts d) (t : Task) :
    builtContext ts' t = builtContext ts t := by
  unfold builtContext
  rw [collectParts_congr ts ts' h t.dependencies]

theorem updateTask_updateTask (ts : List Task) (tid : Nat) (f g : Task → Task)
    (hf : ∀ t, (f t).tid = t.tid) :
    updateTask (updateTask ts tid f) tid g = updateTask ts tid (fun t => g (f t)) := by
  unfold updateTask
  rw [List.map_map]
  apply List.map_congr_left
  intro t _
  by_cases h : t.tid = tid
  · simp [h, hf]
  · simp [h]

/-- The promotion guard of `schedule_next` step 1, read on state `s`: the
snapshot task's bound agent exists, still holds exactly this task, and is
ASSIGNED. -/
def promotesB (s : Sys) (t : Task) : Bool :=
  match t.assigned_agent_id with
  | some aid =>
    match getAgent s.agents aid with
    | some agent =>
      agent.current_task_id == some t.tid && agent.state == AgentState.assigned
    | none => false
  | none => false

theorem promotesB_iff {s : Sys} {t : Task} :
    promotesB s t = true ↔
      ∃ aid agent, t.assigned_agent_id = some aid ∧ getAgent s.agents aid = some agent ∧
        agent.current_task_id = some t.tid ∧ agent.state = AgentState.assigned := by
  unfold promotesB
  cases hta : t.assigned_agent_id with
  | none => simp
  | some aid =>
    cases hga : getAgent s.agents aid with
    | none => simp [hga]
    | some agent => simp [hga, Bool.and_eq_true, beq_iff_eq]

/-- Whether the promotion loop over snapshot `l` promotes agent `a` to
RUNNING_TASK: the agent is ASSIGNED and some snapshot task is the one it
holds and is bound back to it. -/
def agentPromotedB (l : List Task) (a : Agent) : Bool :=
  a.state == AgentState.assigned &&
    l.any (fun t => a.current_task_id == some t.tid && t.assigned_agent_id == some a.aid)

theorem promoteStep_of_not (s : Sys) (t : Task) (h : promotesB s t = false) :
    promoteStep s t = s := by
  unfold promoteStep
  cases hta : t.assigned_agent_id with
  | none => rfl
  | some aid =>
    cases hga : getAgent s.agents aid with
    | none => simp only [hga]
    | some agent =>
      simp only [hga]
      rw [if_neg]
      rintro ⟨h1, h2⟩
      have hcontra : promotesB s t = true :=
        promotesB_iff.mpr ⟨aid, agent, hta, hga, h1, h2⟩
      rw [h] at hcontra
      cases hcontra

theorem promoteStep_of_promotes (s : Sys) (t : Task) (aid : Nat) (agent : Agent)
    (hta : t.assigned_agent_id = some aid) (hga : getAgent s.agents aid = some agent)
    (h1 : agent.current_task_id = some t.tid) (h2 : agent.state = AgentState.assigned) :
    promoteStep s t =
      { s with
        agents := updateAgent s.agents aid (fun a => { a with state := AgentState.running_task }),
        tasks := (build_context (update_task_state s.tasks t.tid TaskState.running) t).1 } := by
  unfold promoteStep
  simp only [hta, hga, if_pos (And.intro h1 h2)]

theorem bool_eq_of_iff {a b : Bool} (h : a = true ↔ b = true) : a = b := by
  cases a <;> cases b <;> simp_all

/-- The pointwise characterization of the promotion loop over a snapshot `l`
of ASSIGNED tasks current in the table: a task's entry is set RUNNING with
its context built exactly when it is in the snapshot and its promotion guard
holds on the entry state; an agent moves to RUNNING_TASK exactly when it is
ASSIGNED and holds a snapshot task bound back to it; the queue, the monitor,
the id sequences and the dependency view are untouched. -/
theorem promote_fold_spec (l : List Task) : ∀ (s : Sys),
    (∀ t ∈ l, getTask s.tasks t.tid = some t ∧ t.state = TaskState.assigned) →
    (l.map (fun t => t.tid)).Nodup →
    (∀ tid0 t0, getTask s.tasks tid0 = some t0 →
      getTask ((l.foldl promoteStep s).tasks) tid0 =
        some (if t0 ∈ l ∧ promotesB s t0 = true then
          { t0 with state := TaskState.running, context := builtContext s.tasks t0 }
        else t0)) ∧
    (∀ aid0 a0, getAgent s.agents aid0 = some a0 →
      getAgent ((l.foldl promoteStep s).agents) aid0 =
        some (if agentPromotedB l a0 = true then { a0 with state := AgentState.running_task }
        else a0)) ∧
    (l.foldl promoteStep s).task_queue = s.task_queue ∧
    (l.foldl promoteStep s).rm = s.rm ∧
    ((l.foldl promoteStep s).tasks.map (fun t => t.tid) = s.tasks.map (fun t => t.tid)) ∧
    ((l.foldl promoteStep s).agents.map (fun a => a.aid) = s.agents.map (fun a => a.aid)) ∧
    (∀ d, depPart ((l.foldl promoteStep s).tasks) d = depPart s.tasks d) := by
  induction l with
  | nil =>
    intro s hl hlN
    refine ⟨?_, ?_, rfl, rfl, rfl, rfl, fun d => rfl⟩
    · intro tid0 t0 h0
      rw [List.foldl_nil]
      have hcond : ¬ (t0 ∈ ([] : List Task) ∧ promotesB s t0 = true) := by
        rintro ⟨hm, -⟩
        cases hm
      rw [if_neg hcond]
      exact h0
    · intro aid0 a0 ha0
      rw [List.foldl_nil]
      have hcond : ¬ (agentPromotedB [] a0 = true) := by
        simp [agentPromotedB]
      rw [if_neg hcond]
      exact ha0
  | cons t l' ih =>
    intro s hl hlN
    simp only [List.map_cons, List.nodup_cons] at hlN
    obtain ⟨hts, hassigned⟩ := hl t (List.mem_cons_self t l')
    rw [List.foldl_cons]
    by_cases hp : promotesB s t = true
    · -- the head iteration fires
      obtain ⟨aid, agent, hta, hga, hcur, hstate⟩ := promotesB_iff.mp hp
      have hagentaid : agent.aid = aid := getAgent_aid hga
      have hstep := promoteStep_of_promotes s t aid agent hta hga hcur hstate
      have hdep1 : ∀ d, depPart (update_task_state s.tasks t.tid TaskState.running) d =
          depPart s.tasks d := fun d =>
        depPart_update_state s.tasks t.tid t hts (by rw [hassigned]; intro hc; cases hc)
          TaskState.running (by intro hc; cases hc) d
      have hbcongr : builtContext (update_task_state s.tasks t.tid TaskState.running) t =
          builtContext s.tasks t :=
        builtContext_congr s.tasks _ hdep1 t
      have htasks' : (promoteStep s t).tasks =
          updateTask s.tasks t.tid
            (fun u => { u with state := TaskState.running, context := builtContext s.tasks t }) := by
        rw [hstep]
        show (build_context (update_task_state s.tasks t.tid TaskState.running) t).1 = _
        rw [build_context_fst, hbcongr, update_task_state,
          updateTask_updateTask s.tasks t.tid
            (fun v => { v with state := TaskState.running })
            (fun u => { u with context := builtContext s.tasks t }) (fun u => rfl)]
      have hagents' : (promoteStep s t).agents =
          updateAgent s.agents aid (fun a => { a with state := AgentState.running_task }) := by
        rw [hstep]
      have hqueue' : (promoteStep s t).task_queue = s.task_queue := by rw [hstep]
      have hrm' : (promoteStep s t).rm = s.rm := by rw [hstep]
      have hdep' : ∀ d, depPart (promoteStep s t).tasks d = depPart s.tasks d := by
        intro d
        rw [hstep]
        show depPart (build_context (update_task_state s.tasks t.tid TaskState.running) t).1 d = _
        rw [build_context_fst]
        rw [depPart_update_congr (update_task_state s.tasks t.tid TaskState.running) t.tid
          (fun u => { u with context := builtContext (update_task_state s.tasks t.tid TaskState.running) t })
          (fun u => ⟨rfl, rfl, rfl, rfl⟩) d]
        exact hdep1 d
      have hl' : ∀ u ∈ l', getTask (promoteStep s t).tasks u.tid = some u ∧
          u.state = TaskState.assigned := by
        intro u hu
        have hne : u.tid ≠ t.tid := fun he =>
          hlN.1 (he ▸ List.mem_map_of_mem (fun x => x.tid) hu)
        refine ⟨?_, (hl u (List.mem_cons_of_mem t hu)).2⟩
        rw [htasks', getTask_update_ne s.tasks t.tid u.tid
          (fun v => { v with state := TaskState.running, context := builtContext s.tasks t })
          (fun v => rfl) hne]
        exact (hl u (List.mem_cons_of_mem t hu)).1
      obtain ⟨ihT, ihA, ihQ, ihRM, ihMT, ihMA, ihD⟩ := ih (promoteStep s t) hl' hlN.2
      refine ⟨?_, ?_, ?_, ?_, ?_, ?_, ?_⟩
      · -- task entries
        intro tid0 t0 h0
        by_cases h0t : tid0 = t.tid
        · subst h0t
          obtain rfl : t = t0 := by
            rw [hts] at h0
            exact Option.some_inj.mp h0
          have h0' : getTask (promoteStep s t).tasks t.tid =
              some { t with state := TaskState.running, context := builtContext s.tasks t } := by
            rw [htasks', getTask_update_self s.tasks t.tid
              (fun v => { v with state := TaskState.running, context := builtContext s.tasks t })
              (fun v => rfl), h0, Option.map_some']
          rw [ihT t.tid _ h0']
          have hnp : ¬ (({ t with state := TaskState.running, context := builtContext s.tasks t } : Task) ∈ l' ∧ promotesB (promoteStep s t) { t with state := TaskState.running, context := builtContext s.tasks t } = true) := by
            rintro ⟨-, hq⟩
            obtain ⟨aid', agent', hta', hga', hcur', hstate'⟩ := promotesB_iff.mp hq
            have haid' : aid' = aid := by
              have he : t.assigned_agent_id = some aid' := hta'
              rw [hta] at he
              exact (Option.some_inj.mp he).symm
            subst haid'
            rw [hagents', getAgent_update_self s.agents aid'
              (fun a => { a with state := AgentState.running_task }) (fun a => rfl), hga,
              Option.map_some'] at hga'
            obtain rfl : agent' = { agent with state := AgentState.running_task } :=
              (Option.some_inj.mp hga').symm
            exact AgentState.noConfusion hstate'
          rw [if_neg hnp]
          rw [if_pos (And.intro (List.mem_cons_self t l') hp)]
        · have h0' : getTask (promoteStep s t).tasks tid0 = some t0 := by
            rw [htasks', getTask_update_ne s.tasks t.tid tid0
              (fun v => { v with state := TaskState.running, context := builtContext s.tasks t })
              (fun v => rfl) h0t]
            exact h0
          rw [ihT tid0 t0 h0']
          have ht0ne : t0 ≠ t := fun he => h0t (by rw [← getTask_tid h0, he])
          have hbc0 : builtContext (promoteStep s t).tasks t0 = builtContext s.tasks t0 :=
            builtContext_congr _ _ hdep' t0
          have hpeq : promotesB (promoteStep s t) t0 = promotesB s t0 := by
            apply bool_eq_of_iff
            rw [promotesB_iff, promotesB_iff]
            constructor
            · rintro ⟨aid', agent', hta', hga', hcur', hstate'⟩
              by_cases haid : aid' = aid
              · subst haid
                rw [hagents', getAgent_update_self s.agents aid'
                  (fun a => { a with state := AgentState.running_task }) (fun a => rfl), hga,
                  Option.map_some'] at hga'
                obtain rfl : agent' = { agent with state := AgentState.running_task } :=
                  (Option.some_inj.mp hga').symm
                exact absurd hstate' (fun hc => AgentState.noConfusion hc)
              · rw [hagents', getAgent_update_ne s.agents aid aid'
                  (fun a => { a with state := AgentState.running_task })
                  (fun a => rfl) haid] at hga'
                exact ⟨aid', agent', hta', hga', hcur', hstate'⟩
            · rintro ⟨aid', agent', hta', hga', hcur', hstate'⟩
              by_cases haid : aid' = aid
              · subst haid
                rw [hga] at hga'
                obtain rfl : agent' = agent := (Option.some_inj.mp hga').symm
                rw [hcur] at hcur'
                have he : t.tid = t0.tid := Option.some_inj.mp hcur'
                exact absurd (by rw [← getTask_tid h0, ← he] : tid0 = t.tid) h0t
              · refine ⟨aid', agent', hta', ?_, hcur', hstate'⟩
                rw [hagents', getAgent_update_ne s.agents aid aid'
                  (fun a => { a with state := AgentState.running_task }) (fun a => rfl) haid]
                exact hga'
          rw [hbc0, hpeq]
          have hiff : (t0 ∈ l' ∧ promotesB s t0 = true) ↔
              (t0 ∈ t :: l' ∧ promotesB s t0 = true) := by
            constructor
            · rintro ⟨hm, hq⟩
              exact ⟨List.mem_cons_of_mem t hm, hq⟩
            · rintro ⟨hm, hq⟩
              rcases List.mem_cons.mp hm with rfl | hm'
              · exact absurd rfl ht0ne
              · exact ⟨hm', hq⟩
          rw [if_congr hiff rfl rfl]
      · -- agent entries
        intro aid0 a0 ha0
        by_cases h0a : aid0 = aid
        · subst h0a
          obtain rfl : a0 = agent := by
            rw [hga] at ha0
            exact (Option.some_inj.mp ha0).symm
          have ha0' : getAgent (promoteStep s t).agents aid0 =
              some { a0 with state := AgentState.running_task } := by
            rw [hagents', getAgent_update_self s.agents aid0
              (fun a => { a with state := AgentState.running_task }) (fun a => rfl), hga,
              Option.map_some']
          rw [ihA aid0 _ ha0']
          have hF : ¬ (agentPromotedB l' { a0 with state := AgentState.running_task } = true) := by
            simp [agentPromotedB]
          rw [if_neg hF]
          have hT : agentPromotedB (t :: l') a0 = true := by
            unfold agentPromotedB
            rw [List.any_cons]
            have h1 : (a0.state == AgentState.assigned) = true := by
              rw [hstate]
              rfl
            have h2 : (a0.current_task_id == some t.tid) = true := by
              rw [hcur]
              simp
            have h3 : (t.assigned_agent_id == some a0.aid) = true := by
              rw [hta, hagentaid]
              simp
            rw [h1, h2, h3]
            rfl
          rw [if_pos hT]
        · have ha0' : getAgent (promoteStep s t).agents aid0 = some a0 := by
            rw [hagents', getAgent_update_ne s.agents aid aid0
              (fun a => { a with state := AgentState.running_task }) (fun a => rfl) h0a]
            exact ha0
          rw [ihA aid0 a0 ha0']
          have haidne : a0.aid ≠ aid := by
            rw [getAgent_aid ha0]
            exact h0a
          have hw : (a0.current_task_id == some t.tid && t.assigned_agent_id == some a0.aid)
              = false := by
            cases hq : (a0.current_task_id == some t.tid && t.assigned_agent_id == some a0.aid) with
            | false => rfl
            | true =>
              rw [Bool.and_eq_true] at hq
              obtain ⟨-, hq2⟩ := hq
              have he : t.assigned_agent_id = some a0.aid := beq_iff_eq.mp hq2
              rw [hta] at he
              exact absurd (Option.some_inj.mp he).symm haidne
          have heq : agentPromotedB (t :: l') a0 = agentPromotedB l' a0 := by
            unfold agentPromotedB
            rw [List.any_cons, hw, Bool.false_or]
          rw [heq]
      · rw [ihQ, hqueue']
      · rw [ihRM, hrm']
      · rw [ihMT, htasks', updateTask_map_tid s.tasks t.tid
          (fun v => { v with state := TaskState.running, context := builtContext s.tasks t })
          (fun v => rfl)]
      · rw [ihMA, hagents', updateAgent_map_aid s.agents aid
          (fun a => { a with state := AgentState.running_task }) (fun a => rfl)]
      · intro d
        rw [ihD d, hdep' d]
    · -- the head iteration is a no-op
      have hpf : promotesB s t = false := by
        revert hp
        cases promotesB s t <;> simp
      rw [promoteStep_of_not s t hpf]
      obtain ⟨ihT, ihA, ihQ, ihRM, ihMT, ihMA, ihD⟩ :=
        ih s (fun u hu => hl u (List.mem_cons_of_mem t hu)) hlN.2
      refine ⟨?_, ?_, ihQ, ihRM, ihMT, ihMA, ihD⟩
      · intro tid0 t0 h0
        rw [ihT tid0 t0 h0]
        have hiff : (t0 ∈ l' ∧ promotesB s t0 = true) ↔
            (t0 ∈ t :: l' ∧ promotesB s t0 = true) := by
          constructor
          · rintro ⟨hm, hq⟩
            exact ⟨List.mem_cons_of_mem t hm, hq⟩
          · rintro ⟨hm, hq⟩
            rcases List.mem_cons.mp hm with rfl | hm'
            · rw [hpf] at hq
              cases hq
            · exact ⟨hm', hq⟩
        rw [if_congr hiff rfl rfl]
      · intro aid0 a0 ha0
        rw [ihA aid0 a0 ha0]
        have heq : agentPromotedB (t :: l') a0 = agentPromotedB l' a0 := by
          by_cases hst : a0.state = AgentState.assigned
          · have hw : (a0.current_task_id == some t.tid &&
                t.assigned_agent_id == some a0.aid) = false := by
              cases hq : (a0.current_task_id == some t.tid &&
                  t.assigned_agent_id == some a0.aid) with
              | false => rfl
              | true =>
                rw [Bool.and_eq_true] at hq
                obtain ⟨hq1, hq2⟩ := hq
                have he1 : a0.current_task_id = some t.tid := beq_iff_eq.mp hq1
                have he2 : t.assigned_agent_id = some a0.aid := beq_iff_eq.mp hq2
                have hga0 : getAgent s.agents a0.aid = some a0 := by
                  rw [getAgent_aid ha0]
                  exact ha0
                have hcontra : promotesB s t = true :=
                  promotesB_iff.mpr ⟨a0.aid, a0, he2, hga0, he1, hst⟩
                rw [hpf] at hcontra
                cases hcontra
            unfold agentPromotedB
            rw [List.any_cons, hw, Bool.false_or]
          · have hst' : (a0.state == AgentState.assigned) = false := by
              simp [hst]
            unfold agentPromotedB
            rw [hst', Bool.false_and, Bool.false_and]
        rw [heq]

theorem getAgent_of_mem_nodup {ags : List Agent} (hN : (ags.map (fun a => a.aid)).Nodup)
    {a : Agent} (ha : a ∈ ags) : getAgent ags a.aid = some a := by
  induction ags with
  | nil => cases ha
  | cons h rest ih =>
    simp only [List.map_cons, List.nodup_cons] at hN
    rcases List.mem_cons.mp ha with rfl | hmem
    · rw [getAgent_cons, if_pos rfl]
    · rw [getAgent_cons]
      have hne : h.aid ≠ a.aid := by
        intro he
        exact hN.1 (he ▸ List.mem_map_of_mem (fun a => a.aid) hmem)
      rw [if_neg hne]
      exact ih hN.2 hmem

theorem assign_task_to_agent_tasks (s : Sys) (tid : Nat) (agent : Agent) :
    (assign_task_to_agent s tid agent).tasks =
      updateTask s.tasks tid
        (fun t => { t with assigned_agent_id := some agent.aid, state := TaskState.assigned }) := by
  show updateTask
      (updateTask s.tasks tid (fun t => { t with assigned_agent_id := some agent.aid })) tid
      (fun t => { t with state := TaskState.assigned }) = _
  rw [updateTask_updateTask s.tasks tid
    (fun t => { t with assigned_agent_id := some agent.aid })
    (fun t => { t with state := TaskState.assigned }) (fun t => rfl)]

theorem assign_task_to_agent_agents (s : Sys) (tid : Nat) (agent : Agent) :
    (assign_task_to_agent s tid agent).agents =
      updateAgent s.agents agent.aid
        (fun a => { a with current_task_id := some tid, state := AgentState.assigned }) := rfl

theorem assign_task_to_agent_queue (s : Sys) (tid : Nat) (agent : Agent) :
    (assign_task_to_agent s tid agent).task_queue = s.task_queue := rfl

theorem assign_task_to_agent_rm (s : Sys) (tid : Nat) (agent : Agent) :
    (assign_task_to_agent s tid agent).rm = s.rm := rfl

theorem assign_phase_nil (s : Sys) (h : s.task_queue = []) : assign_phase s = s := by
  unfold assign_phase
  rw [h]

theorem assign_phase_ready_avail (s : Sys) (tid : Nat) (rest : List Nat)
    (h : s.task_queue = tid :: rest) (t : Task)
    (hget : getTask (check_and_update_task_readiness s.tasks) tid = some t)
    (hready : t.state = TaskState.ready) (agent : Agent) (rest2 : List Agent)
    (havail : get_available_agents s.agents = agent :: rest2) :
    assign_phase s =
      assign_task_to_agent
        { s with tasks := check_and_update_task_readiness s.tasks, task_queue := rest }
        tid agent := by
  unfold assign_phase
  rw [h]
  simp only [hget, if_pos hready, havail]

theorem assign_phase_ready_noidle (s : Sys) (tid : Nat) (rest : List Nat)
    (h : s.task_queue = tid :: rest) (t : Task)
    (hget : getTask (check_and_update_task_readiness s.tasks) tid = some t)
    (hready : t.state = TaskState.ready)
    (havail : get_available_agents s.agents = []) :
    assign_phase s = { s with tasks := check_and_update_task_readiness s.tasks } := by
  unfold assign_phase
  rw [h]
  simp only [hget, if_pos hready, havail]

theorem assign_phase_pending (s : Sys) (tid : Nat) (rest : List Nat)
    (h : s.task_queue = tid :: rest) (t : Task)
    (hget : getTask (check_and_update_task_readiness s.tasks) tid = some t)
    (hpend : t.state = TaskState.pending) :
    assign_phase s = { s with tasks := check_and_update_task_readiness s.tasks } := by
  unfold assign_phase
  rw [h]
  have hnr : t.state ≠ TaskState.ready := by rw [hpend]; intro hc; cases hc
  simp only [hget, if_neg hnr, if_pos hpend]

theorem assign_phase_drop (s : Sys) (tid : Nat) (rest : List Nat)
    (h : s.task_queue = tid :: rest) (t : Task)
    (hget : getTask (check_and_update_task_readiness s.tasks) tid = some t)
    (hdone : t.state = TaskState.assigned ∨ t.state = TaskState.running ∨
      t.state = TaskState.completed ∨ t.state = TaskState.failed) :
    assign_phase s =
      { s with tasks := check_and_update_task_readiness s.tasks, task_queue := rest } := by
  unfold assign_phase
  rw [h]
  have hnr : t.state ≠ TaskState.ready := by
    rcases hdone with hc | hc | hc | hc <;> rw [hc] <;> intro hx <;> cases hx
  have hnp : t.state ≠ TaskState.pending := by
    rcases hdone with hc | hc | hc | hc <;> rw [hc] <;> intro hx <;> cases hx
  simp only [hget, if_neg hnr, if_neg hnp, if_pos hdone]

theorem assign_phase_unknown (s : Sys) (tid : Nat) (rest : List Nat)
    (h : s.task_queue = tid :: rest)
    (hget : getTask (check_and_update_task_readiness s.tasks) tid = none) :
    assign_phase s =
      { s with tasks := check_and_update_task_readiness s.tasks, task_queue := rest } := by
  unfold assign_phase
  rw [h]
  simp only [hget]

theorem assign_phase_waiting (s : Sys) (tid : Nat) (rest : List Nat)
    (h : s.task_queue = tid :: rest) (t : Task)
    (hget : getTask (check_and_update_task_readiness s.tasks) tid = some t)
    (hw : t.state = TaskState.waiting_context) :
    assign_phase s = { s with tasks := check_and_update_task_readiness s.tasks } := by
  unfold assign_phase
  rw [h]
  have hnr : t.state ≠ TaskState.ready := by rw [hw]; intro hc; cases hc
  have hnp : t.state ≠ TaskState.pending := by rw [hw]; intro hc; cases hc
  have hnd : ¬ (t.state = TaskState.assigned ∨ t.state = TaskState.running ∨
      t.state = TaskState.completed ∨ t.state = TaskState.failed) := by
    rw [hw]
    rintro (hc | hc | hc | hc) <;> cases hc
  simp only [hget, if_neg hnr, if_neg hnp, if_neg hnd]

theorem getTask_isSome_iff_mem (ts : List Task) (tid : Nat) :
    (getTask ts tid).isSome ↔ tid ∈ ts.map (fun t => t.tid) := by
  induction ts with
  | nil => simp [getTask]
  | cons h rest ih =>
    rw [getTask_cons, List.map_cons]
    by_cases hh : h.tid = tid
    · simp [hh]
    · rw [if_neg hh, List.mem_cons]
      simp only [ih]
      constructor
      · intro hx
        exact Or.inr hx
      · rintro (hx | hx)
        · exact absurd hx.symm hh
        · exact hx

/-- The readiness recompute and head-of-queue step of `assign_phase` leaves a
RUNNING entry untouched. -/
theorem assign_phase_preserves_running (s : Sys)
    (hNT : (s.tasks.map (fun t => t.tid)).Nodup)
    (tid0 : Nat) (t0 : Task) (h0 : getTask s.tasks tid0 = some t0)
    (hrun : t0.state = TaskState.running) :
    getTask (assign_phase s).tasks tid0 = some t0 := by
  have hts1 : getTask (check_and_update_task_readiness s.tasks) tid0 = some t0 := by
    rw [check_readiness_spec s.tasks hNT tid0 t0 h0]
    rw [if_neg]
    rintro ⟨hpend, -⟩
    rw [hrun] at hpend
    cases hpend
  cases hq : s.task_queue with
  | nil =>
    rw [assign_phase_nil s hq]
    exact h0
  | cons tid rest =>
    cases hg : getTask (check_and_update_task_readiness s.tasks) tid with
    | none =>
      rw [assign_phase_unknown s tid rest hq hg]
      exact hts1
    | some t =>
      cases hst : t.state with
      | pending =>
        rw [assign_phase_pending s tid rest hq t hg hst]
        exact hts1
      | ready =>
        cases havail : get_available_agents s.agents with
        | nil =>
          rw [assign_phase_ready_noidle s tid rest hq t hg hst havail]
          exact hts1
        | cons agent rest2 =>
          rw [assign_phase_ready_avail s tid rest hq t hg hst agent rest2 havail,
            assign_task_to_agent_tasks]
          have hne : tid0 ≠ tid := by
            intro he
            rw [he, hg] at hts1
            have heq : t = t0 := Option.some_inj.mp hts1
            rw [heq, hrun] at hst
            cases hst
          show getTask (updateTask (check_and_update_task_readiness s.tasks) tid
            (fun t => { t with assigned_agent_id := some agent.aid, state := TaskState.assigned })) tid0 = some t0
          rw [getTask_update_ne (check_and_update_task_readiness s.tasks) tid tid0
            (fun t => { t with assigned_agent_id := some agent.aid, state := TaskState.assigned })
            (fun t => rfl) hne]
          exact hts1
      | assigned =>
        rw [assign_phase_drop s tid rest hq t hg (Or.inl hst)]
        exact hts1
      | running =>
        rw [assign_phase_drop s tid rest hq t hg (Or.inr (Or.inl hst))]
        exact hts1
      | waiting_context =>
        rw [assign_phase_waiting s tid rest hq t hg hst]
        exact hts1
      | completed =>
        rw [assign_phase_drop s tid rest hq t hg (Or.inr (Or.inr (Or.inl hst)))]
        exact hts1
      | failed =>
        rw [assign_phase_drop s tid rest hq t hg (Or.inr (Or.inr (Or.inr hst)))]
        exact hts1

/-- `assign_phase` binds only an IDLE agent, so a non-IDLE agent's record
survives it. -/
theorem assign_phase_preserves_nonidle (s : Sys)
    (hNA : (s.agents.map (fun a => a.aid)).Nodup)
    (aid0 : Nat) (a0 : Agent) (h0 : getAgent s.agents aid0 = some a0)
    (hnid : a0.state ≠ AgentState.idle) :
    getAgent (assign_phase s).agents aid0 = some a0 := by
  cases hq : s.task_queue with
  | nil =>
    rw [assign_phase_nil s hq]
    exact h0
  | cons tid rest =>
    cases hg : getTask (check_and_update_task_readiness s.tasks) tid with
    | none =>
      rw [assign_phase_unknown s tid rest hq hg]
      exact h0
    | some t =>
      cases hst : t.state with
      | pending =>
        rw [assign_phase_pending s tid rest hq t hg hst]
        exact h0
      | ready =>
        cases havail : get_available_agents s.agents with
        | nil =>
          rw [assign_phase_ready_noidle s tid rest hq t hg hst havail]
          exact h0
        | cons agent rest2 =>
          rw [assign_phase_ready_avail s tid rest hq t hg hst agent rest2 havail,
            assign_task_to_agent_agents]
          have hmem : agent ∈ get_available_agents s.agents := by
            rw [havail]
            exact List.mem_cons_self agent rest2
          have hmem2 := List.mem_filter.mp hmem
          have hidle : agent.state = AgentState.idle := by
            have := hmem2.2
            simpa using this
          have hne : aid0 ≠ agent.aid := by
            intro he
            have hga : getAgent s.agents agent.aid = some agent :=
              getAgent_of_mem_nodup hNA hmem2.1
            rw [← he, h0] at hga
            have heq : a0 = agent := Option.some_inj.mp hga
            rw [heq] at hnid
            exact hnid hidle
          show getAgent (updateAgent s.agents agent.aid
            (fun a => { a with current_task_id := some tid, state := AgentState.assigned })) aid0 = some a0
          rw [getAgent_update_ne s.agents agent.aid aid0
            (fun a => { a with current_task_id := some tid, state := AgentState.assigned })
            (fun a => rfl) hne]
          exact h0
      | assigned =>
        rw [assign_phase_drop s tid rest hq t hg (Or.inl hst)]
        exact h0
      | running =>
        rw [assign_phase_drop s tid rest hq t hg (Or.inr (Or.inl hst))]
        exact h0
      | waiting_context =>
        rw [assign_phase_waiting s tid rest hq t hg hst]
        exact h0
      | completed =>
        rw [assign_phase_drop s tid rest hq t hg (Or.inr (Or.inr (Or.inl hst)))]
        exact h0
      | failed =>
        rw [assign_phase_drop s tid rest hq t hg (Or.inr (Or.inr (Or.inr hst)))]
        exact h0
theorem readinessPass_map_tid (l : List Task) : ∀ ts : List Task,
    (readinessPass ts l).map (fun t => t.tid) = ts.map (fun t => t.tid) := by
  induction l with
  | nil => intro ts; rfl
  | cons t rest ih =>
    intro ts
    by_cases hc : t.state = TaskState.pending ∧ depsMet ts t = true
    · rw [show readinessPass ts (t :: rest) =
          readinessPass (update_task_state ts t.tid TaskState.ready) rest from by
        simp only [readinessPass, if_pos hc]]
      rw [ih, update_task_state_map_tid]
    · rw [show readinessPass ts (t :: rest) = readinessPass ts rest from by
        simp only [readinessPass, if_neg hc]]
      exact ih ts

theorem check_map_tid (ts : List Task) :
    (check_and_update_task_readiness ts).map (fun t => t.tid) = ts.map (fun t => t.tid) :=
  readinessPass_map_tid ts ts

/-- Any task ASSIGNED after `assign_phase` was already ASSIGNED before it or
is the queue head it dequeued (the readiness recompute only creates READY,
and only the head can be newly bound). -/
theorem assign_phase_new_assigned (s : Sys)
    (hNT : (s.tasks.map (fun t => t.tid)).Nodup)
    (tid0 : Nat) (t0 : Task)
    (h0 : getTask (assign_phase s).tasks tid0 = some t0)
    (hassigned : t0.state = TaskState.assigned) :
    (∃ t1, getTask s.tasks tid0 = some t1 ∧ t1.state = TaskState.assigned) ∨
    (∃ rest, s.task_queue = tid0 :: rest) := by
  have hts1 : ∀ t', getTask (check_and_update_task_readiness s.tasks) tid0 = some t' →
      t'.state = TaskState.assigned →
      ∃ t1, getTask s.tasks tid0 = some t1 ∧ t1.state = TaskState.assigned := by
    intro t' ht' hst'
    have hsome : (getTask s.tasks tid0).isSome := by
      rw [getTask_isSome_iff_mem]
      have h1 : (getTask (check_and_update_task_readiness s.tasks) tid0).isSome := by
        rw [ht']
        rfl
      rw [getTask_isSome_iff_mem, check_map_tid] at h1
      exact h1
    obtain ⟨t1, ht1⟩ := Option.isSome_iff_exists.mp hsome
    have hspec := check_readiness_spec s.tasks hNT tid0 t1 ht1
    rw [ht'] at hspec
    by_cases hc : t1.state = TaskState.pending ∧ depsMet s.tasks t1 = true
    · rw [if_pos hc] at hspec
      have he : t' = { t1 with state := TaskState.ready } := Option.some_inj.mp hspec
      rw [he] at hst'
      exact absurd hst' (fun hx => TaskState.noConfusion hx)
    · rw [if_neg hc] at hspec
      have he : t' = t1 := Option.some_inj.mp hspec
      rw [he] at hst'
      exact ⟨t1, ht1, hst'⟩
  cases hq : s.task_queue with
  | nil =>
    rw [assign_phase_nil s hq] at h0
    exact Or.inl ⟨t0, h0, hassigned⟩
  | cons tid rest =>
    cases hg : getTask (check_and_update_task_readiness s.tasks) tid with
    | none =>
      rw [assign_phase_unknown s tid rest hq hg] at h0
      exact Or.inl (hts1 t0 h0 hassigned)
    | some t =>
      cases hst : t.state with
      | pending =>
        rw [assign_phase_pending s tid rest hq t hg hst] at h0
        exact Or.inl (hts1 t0 h0 hassigned)
      | ready =>
        cases havail : get_available_agents s.agents with
        | nil =>
          rw [assign_phase_ready_noidle s tid rest hq t hg hst havail] at h0
          exact Or.inl (hts1 t0 h0 hassigned)
        | cons agent rest2 =>
          rw [assign_phase_ready_avail s tid rest hq t hg hst agent rest2 havail,
            assign_task_to_agent_tasks] at h0
          by_cases he : tid0 = tid
          · refine Or.inr ⟨rest, ?_⟩
            rw [he]
          · have h1 : getTask (updateTask (check_and_update_task_readiness s.tasks) tid
                (fun t => { t with assigned_agent_id := some agent.aid, state := TaskState.assigned })) tid0 = some t0 := h0
            rw [getTask_update_ne (check_and_update_task_readiness s.tasks) tid tid0
              (fun t => { t with assigned_agent_id := some agent.aid, state := TaskState.assigned })
              (fun t => rfl) he] at h1
            exact Or.inl (hts1 t0 h1 hassigned)
      | assigned =>
        rw [assign_phase_drop s tid rest hq t hg (Or.inl hst)] at h0
        exact Or.inl (hts1 t0 h0 hassigned)
      | running =>
        rw [assign_phase_drop s tid rest hq t hg (Or.inr (Or.inl hst))] at h0
        exact Or.inl (hts1 t0 h0 hassigned)
      | waiting_context =>
        rw [assign_phase_waiting s tid rest hq t hg hst] at h0
        exact Or.inl (hts1 t0 h0 hassigned)
      | completed =>
        rw [assign_phase_drop s tid rest hq t hg (Or.inr (Or.inr (Or.inl hst)))] at h0
        exact Or.inl (hts1 t0 h0 hassigned)
      | failed =>
        rw [assign_phase_drop s tid rest hq t hg (Or.inr (Or.inr (Or.inr hst)))] at h0
        exact Or.inl (hts1 t0 h0 hassigned)

/-- `promote_assigned` instantiated on the ASSIGNED-snapshot of the table:
pointwise characterization on task entries and agent entries. -/
theorem promote_assigned_spec (s : Sys)
    (hNT : (s.tasks.map (fun t => t.tid)).Nodup) :
    (∀ tid0 t0, getTask s.tasks tid0 = some t0 →
      getTask (promote_assigned s).tasks tid0 =
        some (if t0.state = TaskState.assigned ∧ promotesB s t0 = true then
          { t0 with state := TaskState.running, context := builtContext s.tasks t0 }
        else t0)) ∧
    (∀ aid0 a0, getAgent s.agents aid0 = some a0 →
      getAgent (promote_assigned s).agents aid0 =
        some (if agentPromotedB (s.tasks.filter (fun t => t.state == TaskState.assigned)) a0 = true
          then { a0 with state := AgentState.running_task } else a0)) ∧
    (promote_assigned s).task_queue = s.task_queue ∧
    (promote_assigned s).rm = s.rm ∧
    ((promote_assigned s).tasks.map (fun t => t.tid) = s.tasks.map (fun t => t.tid)) ∧
    ((promote_assigned s).agents.map (fun a => a.aid) = s.agents.map (fun a => a.aid)) ∧
    (∀ d, depPart (promote_assigned s).tasks d = depPart s.tasks d) := by
  have hl : ∀ t ∈ s.tasks.filter (fun t => t.state == TaskState.assigned),
      getTask s.tasks t.tid = some t ∧ t.state = TaskState.assigned := by
    intro t ht
    have hm := List.mem_filter.mp ht
    exact ⟨getTask_of_mem_nodup hNT hm.1, by simpa using hm.2⟩
  have hlN : ((s.tasks.filter (fun t => t.state == TaskState.assigned)).map
      (fun t => t.tid)).Nodup := by
    have hsub : List.Sublist
        ((s.tasks.filter (fun t => t.state == TaskState.assigned)).map (fun t => t.tid))
        (s.tasks.map (fun t => t.tid)) :=
      List.Sublist.map (fun t => t.tid) (List.filter_sublist s.tasks)
    exact hNT.sublist hsub
  obtain ⟨hT, hA, hQ, hRM, hMT, hMA, hD⟩ :=
    promote_fold_spec (s.tasks.filter (fun t => t.state == TaskState.assigned)) s hl hlN
  unfold promote_assigned
  refine ⟨?_, hA, hQ, hRM, hMT, hMA, hD⟩
  intro tid0 t0 h0
  rw [hT tid0 t0 h0]
  have hiff : (t0 ∈ s.tasks.filter (fun t => t.state == TaskState.assigned) ∧
      promotesB s t0 = true) ↔
      (t0.state = TaskState.assigned ∧ promotesB s t0 = true) := by
    constructor
    · rintro ⟨hm, hq⟩
      exact ⟨by simpa using (List.mem_filter.mp hm).2, hq⟩
    · rintro ⟨hst, hq⟩
      exact ⟨List.mem_filter.mpr ⟨getTask_mem h0, by simpa using hst⟩, hq⟩
  rw [if_congr hiff rfl rfl]

/-- C3: the SEQUENTIAL scheduling pass (i) runs promotion first and then a
single head-of-queue inspection; (ii) leaves the queue untouched during
promotion; (iii) promotes every ASSIGNED task whose bound agent is still
ASSIGNED with `current_task_id` equal to that task — the task becomes
RUNNING and its context is built at this promotion, the agent becomes
RUNNING_TASK; (iv) when the head is READY after the readiness recompute and
an IDLE agent exists, exactly the head is dequeued and bound to the first
IDLE agent; (v) when the head is still PENDING, neither the queue nor any
assignment changes (the pass only recomputes readiness); (vi) when the head
is terminal, and (vii) when it is unknown, exactly that one entry is dropped
and nothing else changes; (viii) at most one task is assigned per pass: any
task ASSIGNED after the pass either was ASSIGNED before it or is the
original queue head. -/
theorem C3_schedule_next (s : Sys)
    (hNT : (s.tasks.map (fun t => t.tid)).Nodup) :
    (schedule_next CrewProcess.sequential s = assign_phase (promote_assigned s)) ∧
    ((promote_assigned s).task_queue = s.task_queue) ∧
    (∀ t, getTask s.tasks t.tid = some t → t.state = TaskState.assigned →
      promotesB s t = true →
      getTask (promote_assigned s).tasks t.tid =
        some { t with state := TaskState.running, context := builtContext s.tasks t } ∧
      ∀ aid agent, t.assigned_agent_id = some aid → getAgent s.agents aid = some agent →
        getAgent (promote_assigned s).agents aid =
          some { agent with state := AgentState.running_task }) ∧
    (∀ tid rest t agent rest2, s.task_queue = tid :: rest →
      getTask (check_and_update_task_readiness (promote_assigned s).tasks) tid = some t →
      t.state = TaskState.ready →
      get_available_agents (promote_assigned s).agents = agent :: rest2 →
      schedule_next CrewProcess.sequential s =
        assign_task_to_agent
          { promote_assigned s with
            tasks := check_and_update_task_readiness (promote_assigned s).tasks,
            task_queue := rest } tid agent) ∧
    (∀ tid rest t, s.task_queue = tid :: rest →
      getTask (check_and_update_task_readiness (promote_assigned s).tasks) tid = some t →
      t.state = TaskState.pending →
      schedule_next CrewProcess.sequential s =
        { promote_assigned s with
          tasks := check_and_update_task_readiness (promote_assigned s).tasks }) ∧
    (∀ tid rest t, s.task_queue = tid :: rest →
      getTask (check_and_update_task_readiness (promote_assigned s).tasks) tid = some t →
      t.state = TaskState.completed ∨ t.state = TaskState.failed →
      schedule_next CrewProcess.sequential s =
        { promote_assigned s with
          tasks := check_and_update_task_readiness (promote_assigned s).tasks,
          task_queue := rest }) ∧
    (∀ tid rest, s.task_queue = tid :: rest →
      getTask (check_and_update_task_readiness (promote_assigned s).tasks) tid = none →
      schedule_next CrewProcess.sequential s =
        { promote_assigned s with
          tasks := check_and_update_task_readiness (promote_assigned s).tasks,
          task_queue := rest }) ∧
    (∀ tid0 t0, getTask (schedule_next CrewProcess.sequential s).tasks tid0 = some t0 →
      t0.state = TaskState.assigned →
      (∃ t1, getTask s.tasks tid0 = some t1 ∧ t1.state = TaskState.assigned) ∨
      (∃ rest, s.task_queue = tid0 :: rest)) := by
  obtain ⟨hT, hA, hQ, hRM, hMT, hMA, hD⟩ := promote_assigned_spec s hNT
  have hsched : schedule_next CrewProcess.sequential s = assign_phase (promote_assigned s) := rfl
  refine ⟨hsched, hQ, ?_, ?_, ?_, ?_, ?_, ?_⟩
  · intro t ht hassigned hprom
    constructor
    · rw [hT t.tid t ht, if_pos (And.intro hassigned hprom)]
    · intro aid agent hta hga
      rw [hA aid agent hga]
      have hmemf : t ∈ s.tasks.filter (fun x => x.state == TaskState.assigned) :=
        List.mem_filter.mpr ⟨getTask_mem ht, by simpa using hassigned⟩
      obtain ⟨aid', agent', hta', hga', hcur', hstate'⟩ := promotesB_iff.mp hprom
      have haid : aid' = aid := by
        rw [hta] at hta'
        exact (Option.some_inj.mp hta').symm
      subst haid
      have hagent : agent' = agent := by
        rw [hga] at hga'
        exact (Option.some_inj.mp hga').symm
      rw [hagent] at hstate' hcur'
      have hcond : agentPromotedB (s.tasks.filter (fun x => x.state == TaskState.assigned))
          agent = true := by
        unfold agentPromotedB
        rw [Bool.and_eq_true]
        constructor
        · rw [hstate']
          rfl
        · rw [List.any_eq_true]
          refine ⟨t, hmemf, ?_⟩
          rw [Bool.and_eq_true]
          constructor
          · rw [hcur']
            simp
          · rw [hta, getAgent_aid hga]
            simp
      rw [if_pos hcond]
  · intro tid rest t agent rest2 hq hg hready havail
    rw [hsched]
    exact assign_phase_ready_avail (promote_assigned s) tid rest (by rw [hQ, hq]) t hg hready
      agent rest2 havail
  · intro tid rest t hq hg hpend
    rw [hsched]
    exact assign_phase_pending (promote_assigned s) tid rest (by rw [hQ, hq]) t hg hpend
  · intro tid rest t hq hg hdone
    rw [hsched]
    exact assign_phase_drop (promote_assigned s) tid rest (by rw [hQ, hq]) t hg
      (Or.elim hdone (fun hc => Or.inr (Or.inr (Or.inl hc)))
        (fun hc => Or.inr (Or.inr (Or.inr hc))))
  · intro tid rest hq hg
    rw [hsched]
    exact assign_phase_unknown (promote_assigned s) tid rest (by rw [hQ, hq]) hg
  · intro tid0 t0 h0 hassigned
    rw [hsched] at h0
    have hNT1 : ((promote_assigned s).tasks.map (fun t => t.tid)).Nodup := by
      rw [hMT]
      exact hNT
    rcases assign_phase_new_assigned (promote_assigned s) hNT1 tid0 t0 h0 hassigned with h | h
    · obtain ⟨t1, ht1, hst1⟩ := h
      left
      have hsome : (getTask s.tasks tid0).isSome := by
        rw [getTask_isSome_iff_mem]
        have h1 : (getTask (promote_assigned s).tasks tid0).isSome := by
          rw [ht1]
          rfl
        rw [getTask_isSome_iff_mem, hMT] at h1
        exact h1
      obtain ⟨t2, ht2⟩ := Option.isSome_iff_exists.mp hsome
      have hspec := hT tid0 t2 ht2
      rw [ht1] at hspec
      by_cases hc : t2.state = TaskState.assigned ∧ promotesB s t2 = true
      · rw [if_pos hc] at hspec
        have he : t1 = { t2 with state := TaskState.running, context := builtContext s.tasks t2 } :=
          Option.some_inj.mp hspec
        rw [he] at hst1
        exact absurd hst1 (fun hx => TaskState.noConfusion hx)
      · rw [if_neg hc] at hspec
        have he : t1 = t2 := Option.some_inj.mp hspec
        rw [he] at hst1
        exact ⟨t2, ht2, hst1⟩
    · obtain ⟨rest, hrest⟩ := h
      right
      rw [hQ] at hrest
      exact ⟨rest, hrest⟩

/-- Witness for C3 on a concrete state: task 0 is ASSIGNED to agent 0 (still
ASSIGNED, holding task 0) and is promoted to RUNNING with its context built;
the queue head task 1 becomes READY on the recompute and is dequeued and
bound to agent 1, the first IDLE agent. -/
theorem C3_schedule_next_witness :
    let t0 : Task :=
      { tid := 0, description := "research", expected_output := "list",
        assigned_agent_id := some 0, dependencies := [], state := TaskState.assigned,
        context := none, result := none }
    let t1 : Task :=
      { tid := 1, description := "write", expected_output := "report",
        assigned_agent_id := none, dependencies := [], state := TaskState.pending,
        context := none, result := none }
    let a0 : Agent :=
      { aid := 0, role := "Researcher", goal := "g", backstory := "b", tools := [],
        state := AgentState.assigned, current_task_id := some 0,
        resource_usage := { tokens := 0, tool_calls := 0 } }
    let a1 : Agent :=
      { aid := 1, role := "Writer", goal := "g", backstory := "b", tools := [],
        state := AgentState.idle, current_task_id := none,
        resource_usage := { tokens := 0, tool_calls := 0 } }
    let w : Sys :=
      { tasks := [t0, t1], agents := [a0, a1], task_queue := [1], rm := ResourceMonitor.init }
    getTask (promote_assigned w).tasks 0 =
      some { t0 with state := TaskState.running, context := builtContext w.tasks t0 } ∧
    getAgent (promote_assigned w).agents 0 =
      some { a0 with state := AgentState.running_task } ∧
    schedule_next CrewProcess.sequential w =
      assign_task_to_agent
        { promote_assigned w with
          tasks := check_and_update_task_readiness (promote_assigned w).tasks,
          task_queue := [] } 1 a1 := by
  intro t0 t1 a0 a1 w
  obtain ⟨-, -, hProm, hReady, -, -, -, -⟩ := C3_schedule_next w (by decide)
  obtain ⟨hpt, hpa⟩ := hProm t0 (by decide) rfl (by decide)
  exact ⟨hpt, hpa 0 a0 rfl (by decide),
    hReady 1 [] { t1 with state := TaskState.ready } a1 [] rfl (by decide) rfl (by decide)⟩

/-! ## Kernel (`core/kernel.py`) -/

/-- The flat token estimate `_call_ollama` charges per oracle
consultation. -/
def call_cost : Nat := 100

/-- The accounting prefix of `_call_ollama`: the per-call token estimate is
recorded against the global ledger and the agent before the response is even
parsed. -/
def charge_llm (s : Sys) (aid tid : Nat) : Sys :=
  { s with
    rm := s.rm.record_usage "tokens" aid (some tid) call_cost,
    agents := updateAgent s.agents aid (fun a => a.record_usage "tokens" call_cost) }

/-- The validity gate `_simulate_agent_work` applies to a decoded oracle
response: a dict containing the key `action`; yields the action value and
the dict's fields.  `none` covers a failed call, a non-dict reply, and a
dict without `action`. -/
def respAction (resp : Option JVal) : Option (JVal × List (String × JVal)) :=
  match resp with
  | some (JVal.jobj fields) =>
    match jget fields "action" with
    | some action => some (action, fields)
    | none => none
  | _ => none

/-- Python falsiness of `llm_response.get("tool_name")`: missing or a falsy
decoded value. -/
def optFalsy (o : Option JVal) : Bool :=
  match o with
  | none => true
  | some v => jfalsy v

/-- `AgentScheduler.release_agent(agent_id)`: idempotent; a non-IDLE agent
returns to IDLE with its task reference cleared. -/
def release_agent (ags : List Agent) (aid : Nat) : List Agent :=
  match getAgent ags aid with
  | some agent =>
    if agent.state ≠ AgentState.idle then
      updateAgent ags aid (fun a => { a with state := AgentState.idle, current_task_id := none })
    else ags
  | none => ags

/-- The `final_answer` check ending `_simulate_agent_work` (reached with the
first response's action when no tool was used, or with the second response's
action after a tool call): a final answer whose content is present and not
None completes the task — result recorded, task COMPLETED, agent released,
readiness recomputed; any other action, and a final answer without content,
leaves the task untouched with the agent set back to RUNNING_TASK. -/
def final_answer_phase (s : Sys) (aid tid : Nat) (action : JVal)
    (fields : List (String × JVal)) : Bool × Sys :=
  if jeqStr action "final_answer" then
    match jget fields "content" with
    | some JVal.jnull =>
      (false, { s with
        agents := updateAgent s.agents aid (fun a => { a with state := AgentState.running_task }) })
    | some content =>
      let tasks := add_result s.tasks tid (pyStr content)
      let tasks := update_task_state tasks tid TaskState.completed
      let agents := release_agent s.agents aid
      let tasks := check_and_update_task_readiness tasks
      (true, { s with tasks := tasks, agents := agents })
    | none =>
      (false, { s with
        agents := updateAgent s.agents aid (fun a => { a with state := AgentState.running_task }) })
  else
    (false, { s with
      agents := updateAgent s.agents aid (fun a => { a with state := AgentState.running_task }) })

/-- `Kernel._simulate_agent_work(agent, task)`: one work step for the
RUNNING task `tid` worked by agent `aid`.  `resp1` and `resp2` stand for the
parsed outcomes of the step's (up to) two `_call_ollama` consultations,
`none` meaning an unusable reply; each consultation charges `call_cost`
tokens before parsing.  Returns whether the task completed, with the mutated
state. -/
def _simulate_agent_work (registry : ToolRegistry) (resp1 resp2 : Option JVal)
    (s : Sys) (aid tid : Nat) : Bool × Sys :=
  let s := charge_llm s aid tid
  match respAction resp1 with
  | none => (false, s)
  | some (action, fields) =>
    if jeqStr action "use_tool" then
      let tool_name := jget fields "tool_name"
      let tool_args := (jget fields "arguments").getD (JVal.jobj [])
      match tool_args with
      | JVal.jobj arg_fields =>
        if optFalsy tool_name then (false, s)
        else
          let s := { s with
            agents := updateAgent s.agents aid (fun a => { a with state := AgentState.using_tool }) }
          let r := execute_tool s.agents registry s.rm aid (some tid)
            (tool_name.getD JVal.jnull) arg_fields
          let s := { s with agents := r.1, rm := r.2.1 }
          let s := charge_llm s aid tid
          match respAction resp2 with
          | none =>
            (false, { s with
              agents := updateAgent s.agents aid
                (fun a => { a with state := AgentState.running_task }) })
          | some (action2, fields2) => final_answer_phase s aid tid action2 fields2
      | _ => (false, s)
    else
      final_answer_phase s aid tid action fields

/-- `Crew.all_tasks_done()`: every task COMPLETED or FAILED. -/
def all_tasks_done (ts : List Task) : Bool :=
  ts.all (fun t => t.state == TaskState.completed || t.state == TaskState.failed)

/-- `Kernel`: `load_crew` creates every core component together, so one
`loaded` flag models their presence; the shared mutable state, the crew's
process, the tick counter and the running flag. -/
structure Kernel where
  loaded : Bool
  process : CrewProcess
  sys : Sys
  tick_count : Nat
  running : Bool
deriving DecidableEq, Repr

/-- One iteration of `tick`'s work loop over the snapshot of RUNNING tasks:
re-check the task object is still RUNNING, fetch its agent, and require the
agent to be RUNNING_TASK before simulating work.  `oracle` maps a task id to
the two oracle responses of its step this tick. -/
def work_loop_step (registry : ToolRegistry) (oracle : Nat → Option JVal × Option JVal)
    (s : Sys) (t : Task) : Sys :=
  match getTask s.tasks t.tid with
  | some cur =>
    if cur.state = TaskState.running then
      match cur.assigned_agent_id with
      | some aid =>
        match getAgent s.agents aid with
        | some agent =>
          if agent.state = AgentState.running_task then
            (_simulate_agent_work registry (oracle t.tid).1 (oracle t.tid).2 s aid t.tid).2
          else s
        | none => s
      | none => s
    else s
  | none => s

/-- `Kernel.tick()`: False with no work at all when the components are not
loaded or the running flag is unset; otherwise counts the tick, runs one
scheduling pass, one work step for each task RUNNING in the post-scheduling
snapshot, and reports whether to continue (False once every task is
terminal, which also clears the running flag). -/
def tick (registry : ToolRegistry) (oracle : Nat → Option JVal × Option JVal)
    (k : Kernel) : Bool × Kernel :=
  if !k.loaded then (false, k)
  else if !k.running then (false, k)
  else
    let k1 : Kernel := { k with tick_count := k.tick_count + 1 }
    let s := schedule_next k1.process k1.sys
    let running_tasks := s.tasks.filter (fun t => t.state == TaskState.running)
    let s := running_tasks.foldl (work_loop_step registry oracle) s
    let k2 : Kernel := { k1 with sys := s }
    if all_tasks_done k2.sys.tasks then (false, { k2 with running := false })
    else (true, k2)

/-! ## Crew (`components/crew.py`) -/

/-- `Crew`: agents and tasks keyed by id, the scheduling process, and the
declared task order seeding the sequential queue. -/
structure Crew where
  agents : List Agent
  tasks : List Task
  process : CrewProcess
  task_order : List Nat
deriving DecidableEq, Repr

/-- `Crew.__init__`: the task order records the declaration order of the
task list. -/
def Crew.make (agents : List Agent) (tasks : List Task) (process : CrewProcess) : Crew :=
  { agents := agents, tasks := tasks, process := process,
    task_order := tasks.map (fun t => t.tid) }

/-- `Crew.reset_states()`: every agent back to IDLE with its task reference
cleared and counters zeroed; every task back to PENDING with context and
result cleared.  (The global id-counter resets in the source concern only
future object constructions.) -/
def Crew.reset_states (c : Crew) : Crew :=
  { c with
    agents := c.agents.map (fun a =>
      { a with state := AgentState.idle, current_task_id := none,
               resource_usage := { tokens := 0, tool_calls := 0 } }),
    tasks := c.tasks.map (fun t =>
      { t with state := TaskState.pending, context := none, result := none }) }

/-! ## C10: tick requires the running flag -/

/-- C10: with the running flag unset, `tick` returns False immediately and
performs no work at all — the kernel (tick counter included) and every part
of the shared state (tasks, agents, queue, ledger) are returned verbatim —
even when a crew is loaded and not all tasks are terminal. -/
theorem C10_tick_requires_running (registry : ToolRegistry)
    (oracle : Nat → Option JVal × Option JVal) (k : Kernel)
    (h : k.running = false) :
    tick registry oracle k = (false, k) := by
  unfold tick
  cases hl : k.loaded with
  | false => simp
  | true => simp [h]

/-- Witness for C10: a kernel with a loaded crew, a non-terminal (PENDING)
task on the queue and an idle agent, but `running = false`: `tick` is the
identity apart from the False verdict. -/
theorem C10_tick_requires_running_witness :
    let t : Task := Task.init 0 "write" "text" none []
    let a : Agent := Agent.init 0 "writer" "write" "story" []
    let k : Kernel :=
      { loaded := true, process := CrewProcess.sequential,
        sys := { tasks := [t], agents := [a], task_queue := [0],
                 rm := ResourceMonitor.init },
        tick_count := 5, running := false }
    k.loaded = true ∧ all_tasks_done k.sys.tasks = false ∧ k.running = false ∧
    tick [] (fun _ => (none, none)) k = (false, k) := by
  intro t a k
  refine ⟨rfl, rfl, rfl, ?_⟩
  exact C10_tick_requires_running [] (fun _ => (none, none)) k rfl

/-! ## C8: invalid oracle decisions -/

theorem Agent.record_usage_shadow (a : Agent) (ty : String) (n : Nat) :
    (a.record_usage ty n).state = a.state ∧
    (a.record_usage ty n).current_task_id = a.current_task_id ∧
    (a.record_usage ty n).aid = a.aid := by
  unfold Agent.record_usage
  split
  · exact ⟨rfl, rfl, rfl⟩
  · split
    · exact ⟨rfl, rfl, rfl⟩
    · split
      · exact ⟨rfl, rfl, rfl⟩
      · exact ⟨rfl, rfl, rfl⟩

theorem charge_llm_tasks (s : Sys) (aid tid : Nat) :
    (charge_llm s aid tid).tasks = s.tasks := rfl

theorem charge_llm_queue (s : Sys) (aid tid : Nat) :
    (charge_llm s aid tid).task_queue = s.task_queue := rfl

theorem getAgent_charge_llm (s : Sys) (aid tid aid0 : Nat) (a0 : Agent)
    (h0 : getAgent s.agents aid0 = some a0) :
    ∃ a1, getAgent (charge_llm s aid tid).agents aid0 = some a1 ∧
      a1.state = a0.state ∧ a1.current_task_id = a0.current_task_id ∧
      a1.aid = a0.aid := by
  show ∃ a1, getAgent (updateAgent s.agents aid
      (fun a => a.record_usage "tokens" call_cost)) aid0 = some a1 ∧ _
  by_cases he : aid0 = aid
  · subst he
    rw [getAgent_update_self s.agents aid0 (fun a => a.record_usage "tokens" call_cost)
      (fun a => (Agent.record_usage_shadow a "tokens" call_cost).2.2), h0, Option.map_some']
    exact ⟨_, rfl, (Agent.record_usage_shadow a0 "tokens" call_cost).1,
      (Agent.record_usage_shadow a0 "tokens" call_cost).2.1,
      (Agent.record_usage_shadow a0 "tokens" call_cost).2.2⟩
  · rw [getAgent_update_ne s.agents aid aid0 (fun a => a.record_usage "tokens" call_cost)
      (fun a => (Agent.record_usage_shadow a "tokens" call_cost).2.2) he]
    exact ⟨a0, h0, rfl, rfl, rfl⟩

/-- The agent table after `execute_tool` is either untouched (an early
rejection) or the calling agent charged with one tool call and the tool's
cost in tokens. -/
theorem execute_tool_agents_cases (ags : List Agent) (registry : ToolRegistry)
    (rm : ResourceMonitor) (aid : Nat) (task_id : Option Nat) (tool_name : JVal)
    (kwargs : List (String × JVal)) :
    (execute_tool ags registry rm aid task_id tool_name kwargs).1 = ags ∨
    ∃ c, (execute_tool ags registry rm aid task_id tool_name kwargs).1 =
      updateAgent ags aid
        (fun a => (a.record_usage "tool_calls" 1).record_usage "tokens" c) := by
  cases hga : getAgent ags aid with
  | none =>
    left
    simp only [execute_tool, hga]
  | some agent_obj =>
    cases hmem : jmemStr tool_name agent_obj.tools with
    | false =>
      left
      simp only [execute_tool, hga, hmem, Bool.not_false, if_true]
    | true =>
      cases hgt : get_tool registry tool_name with
      | none =>
        left
        simp only [execute_tool, hga, hmem, Bool.not_true, Bool.false_eq_true, if_false, hgt]
      | some tool =>
        right
        refine ⟨tool.cost, ?_⟩
        cases ho : tool.execute kwargs with
        | ok result =>
          simp only [execute_tool, hga, hmem, Bool.not_true, Bool.false_eq_true, if_false,
            hgt, ho]
        | exc exc_type exc_msg =>
          by_cases hty : (exc_type == "TypeError") = true
          · simp only [execute_tool, hga, hmem, Bool.not_true, Bool.false_eq_true, if_false,
              hgt, ho, hty, if_true]
          · simp only [execute_tool, hga, hmem, Bool.not_true, Bool.false_eq_true, if_false,
              hgt, ho, hty, if_false]

/-- `execute_tool` never changes an agent's state, current task or id: only
usage counters are written. -/
theorem getAgent_execute_tool (ags : List Agent) (registry : ToolRegistry)
    (rm : ResourceMonitor) (aid : Nat) (task_id : Option Nat) (tool_name : JVal)
    (kwargs : List (String × JVal)) (aid0 : Nat) (a0 : Agent)
    (h0 : getAgent ags aid0 = some a0) :
    ∃ a1, getAgent (execute_tool ags registry rm aid task_id tool_name kwargs).1 aid0
        = some a1 ∧
      a1.state = a0.state ∧ a1.current_task_id = a0.current_task_id ∧
      a1.aid = a0.aid := by
  rcases execute_tool_agents_cases ags registry rm aid task_id tool_name kwargs with
    hcase | ⟨c, hcase⟩
  · rw [hcase]
    exact ⟨a0, h0, rfl, rfl, rfl⟩
  · rw [hcase]
    have hpres : ∀ a : Agent,
        ((a.record_usage "tool_calls" 1).record_usage "tokens" c).aid = a.aid := by
      intro a
      rw [(Agent.record_usage_shadow (a.record_usage "tool_calls" 1) "tokens" c).2.2,
        (Agent.record_usage_shadow a "tool_calls" 1).2.2]
    by_cases he : aid0 = aid
    · subst he
      rw [getAgent_update_self ags aid0
        (fun a => (a.record_usage "tool_calls" 1).record_usage "tokens" c) hpres,
        h0, Option.map_some']
      refine ⟨_, rfl, ?_, ?_, hpres a0⟩
      · rw [(Agent.record_usage_shadow (a0.record_usage "tool_calls" 1) "tokens" c).1,
          (Agent.record_usage_shadow a0 "tool_calls" 1).1]
      · rw [(Agent.record_usage_shadow (a0.record_usage "tool_calls" 1) "tokens" c).2.1,
          (Agent.record_usage_shadow a0 "tool_calls" 1).2.1]
    · rw [getAgent_update_ne ags aid aid0
        (fun a => (a.record_usage "tool_calls" 1).record_usage "tokens" c) hpres he]
      exact ⟨a0, h0, rfl, rfl, rfl⟩

theorem endRun_agent (ags : List Agent) (aid : Nat) (a1 : Agent)
    (h1 : getAgent ags aid = some a1) :
    getAgent (updateAgent ags aid
        (fun a => { a with state := AgentState.running_task })) aid
      = some { a1 with state := AgentState.running_task } := by
  rw [getAgent_update_self ags aid (fun a => { a with state := AgentState.running_task })
    (fun a => rfl), h1, Option.map_some']

/-- Whether a decoded value is a JSON dict. -/
def isJObjB : JVal → Bool
  | JVal.jobj _ => true
  | _ => false

/-- The `final_answer` check fails — task not completed, agent set back to
RUNNING_TASK — for any action other than `final_answer` and for a
`final_answer` without usable content (key missing or null). -/
theorem final_answer_phase_fail (s : Sys) (aid tid : Nat) (action : JVal)
    (fields : List (String × JVal))
    (h : jeqStr action "final_answer" = false ∨
      jget fields "content" = none ∨ jget fields "content" = some JVal.jnull) :
    final_answer_phase s aid tid action fields =
      (false, { s with agents := updateAgent s.agents aid (fun a => { a with state := AgentState.running_task }) }) := by
  cases hf : jeqStr action "final_answer" with
  | false =>
    simp only [final_answer_phase, hf, Bool.false_eq_true, if_false]
  | true =>
    rcases h with h | h | h
    · rw [hf] at h
      cases h
    · simp only [final_answer_phase, hf, if_true, h]
    · simp only [final_answer_phase, hf, if_true, h]

theorem setState_agent (ags : List Agent) (aid : Nat) (st : AgentState) (a1 : Agent)
    (h1 : getAgent ags aid = some a1) :
    getAgent (updateAgent ags aid (fun a => { a with state := st })) aid
      = some { a1 with state := st } := by
  rw [getAgent_update_self ags aid (fun a => { a with state := st }) (fun a => rfl), h1,
    Option.map_some']

/-- A consultation outcome on which the `final_answer` check cannot succeed:
an unusable reply (failed call, non-dict, no `action` key), an action other
than `final_answer` (a second `use_tool` falls through to this check), or a
`final_answer` whose content is missing or null. -/
def invalidFinal (resp : Option JVal) : Prop :=
  respAction resp = none ∨
  ∃ action fields, respAction resp = some (action, fields) ∧
    (jeqStr action "final_answer" = false ∨
     jget fields "content" = none ∨ jget fields "content" = some JVal.jnull)

/-- The invalid-decision shapes of a work step, read off
`_simulate_agent_work`: an unusable first reply; a recognized dict whose
action is neither `use_tool` nor a content-bearing `final_answer`; a
`use_tool` with non-dict arguments or a falsy/missing tool name; or a
`use_tool` whose follow-up consultation cannot produce a final answer. -/
def invalidDecision (resp1 resp2 : Option JVal) : Prop :=
  respAction resp1 = none ∨
  ∃ action fields, respAction resp1 = some (action, fields) ∧
    ((jeqStr action "use_tool" = false ∧
       (jeqStr action "final_answer" = false ∨
        jget fields "content" = none ∨ jget fields "content" = some JVal.jnull)) ∨
     (jeqStr action "use_tool" = true ∧
       (isJObjB ((jget fields "arguments").getD (JVal.jobj [])) = false ∨
        optFalsy (jget fields "tool_name") = true ∨
        invalidFinal resp2)))

/-- C8: a work step whose oracle decision is invalid reports not-completed
and leaves the task table exactly as it was — in particular the RUNNING task
keeps its state, context and result — and the worked agent ends the step in
RUNNING_TASK with its current task reference unchanged; the step never
faults (it is a total function returning this benign outcome). -/
theorem C8_simulate_invalid_decision (registry : ToolRegistry)
    (resp1 resp2 : Option JVal) (s : Sys) (aid tid : Nat) (a : Agent) (t : Task)
    (ha : getAgent s.agents aid = some a) (hst : a.state = AgentState.running_task)
    (ht : getTask s.tasks tid = some t) (hrun : t.state = TaskState.running)
    (hinv : invalidDecision resp1 resp2) :
    (_simulate_agent_work registry resp1 resp2 s aid tid).1 = false ∧
    (_simulate_agent_work registry resp1 resp2 s aid tid).2.tasks = s.tasks ∧
    getTask (_simulate_agent_work registry resp1 resp2 s aid tid).2.tasks tid = some t ∧
    ∃ a2, getAgent (_simulate_agent_work registry resp1 resp2 s aid tid).2.agents aid
        = some a2 ∧
      a2.state = AgentState.running_task ∧
      a2.current_task_id = a.current_task_id := by
  obtain ⟨a1, ha1, hs1, hc1, haid1⟩ := getAgent_charge_llm s aid tid aid a ha
  rcases hinv with h1 | ⟨action, fields, h1, hcase⟩
  · have hred : _simulate_agent_work registry resp1 resp2 s aid tid =
        (false, charge_llm s aid tid) := by
      simp only [_simulate_agent_work, h1]
    rw [hred]
    exact ⟨rfl, rfl, ht, a1, ha1, hs1.trans hst, hc1⟩
  · rcases hcase with ⟨huse, hfail⟩ | ⟨huse, hbad⟩
    · have hred : _simulate_agent_work registry resp1 resp2 s aid tid =
          (false, { charge_llm s aid tid with agents := updateAgent (charge_llm s aid tid).agents aid (fun a => { a with state := AgentState.running_task }) }) := by
        have hstep : _simulate_agent_work registry resp1 resp2 s aid tid =
            final_answer_phase (charge_llm s aid tid) aid tid action fields := by
          simp only [_simulate_agent_work, h1, huse, Bool.false_eq_true, if_false]
        rw [hstep, final_answer_phase_fail _ _ _ _ _ hfail]
      rw [hred]
      exact ⟨rfl, rfl, ht, { a1 with state := AgentState.running_task },
        setState_agent _ aid AgentState.running_task a1 ha1, rfl, hc1⟩
    · cases hv : (jget fields "arguments").getD (JVal.jobj []) with
      | jobj af =>
        rcases hbad with hargs | hname | hfin
        · rw [hv] at hargs
          simp [isJObjB] at hargs
        · have hred : _simulate_agent_work registry resp1 resp2 s aid tid =
              (false, charge_llm s aid tid) := by
            simp only [_simulate_agent_work, h1, huse, if_true, hv, hname]
          rw [hred]
          exact ⟨rfl, rfl, ht, a1, ha1, hs1.trans hst, hc1⟩
        · by_cases hname : optFalsy (jget fields "tool_name") = true
          · have hred : _simulate_agent_work registry resp1 resp2 s aid tid =
                (false, charge_llm s aid tid) := by
              simp only [_simulate_agent_work, h1, huse, if_true, hv, hname]
            rw [hred]
            exact ⟨rfl, rfl, ht, a1, ha1, hs1.trans hst, hc1⟩
          · have hname' : optFalsy (jget fields "tool_name") = false := by
              cases hx : optFalsy (jget fields "tool_name")
              · rfl
              · exact absurd hx hname
            have ha2 : getAgent (updateAgent (charge_llm s aid tid).agents aid (fun a => { a with state := AgentState.using_tool })) aid
                = some { a1 with state := AgentState.using_tool } :=
              setState_agent _ aid AgentState.using_tool a1 ha1
            obtain ⟨a3, ha3, hs3, hc3, haid3⟩ :=
              getAgent_execute_tool
                (updateAgent (charge_llm s aid tid).agents aid (fun a => { a with state := AgentState.using_tool }))
                registry (charge_llm s aid tid).rm aid (some tid)
                ((jget fields "tool_name").getD JVal.jnull) af aid _ ha2
            simp only [_simulate_agent_work, h1, huse, if_true, hv, hname',
              Bool.false_eq_true, if_false]
            generalize hE :
              execute_tool (updateAgent (charge_llm s aid tid).agents aid (fun a => { a with state := AgentState.using_tool }))
                registry (charge_llm s aid tid).rm aid (some tid)
                ((jget fields "tool_name").getD JVal.jnull) af = E
            rw [hE] at ha3
            obtain ⟨a4, ha4, hs4, hc4, haid4⟩ :=
              getAgent_charge_llm
                (Sys.mk (charge_llm s aid tid).tasks E.1 (charge_llm s aid tid).task_queue E.2.1)
                aid tid aid a3 ha3
            rcases hfin with h2 | ⟨action2, fields2, h2, hfail2⟩
            · simp only [h2]
              refine ⟨by trivial, by trivial, ht, { a4 with state := AgentState.running_task },
                setState_agent _ aid AgentState.running_task a4 ha4, rfl, ?_⟩
              show a4.current_task_id = a.current_task_id
              rw [hc4, hc3]
              exact hc1
            · simp only [h2]
              rw [final_answer_phase_fail _ aid tid action2 fields2 hfail2]
              refine ⟨by trivial, by trivial, ht, { a4 with state := AgentState.running_task },
                setState_agent _ aid AgentState.running_task a4 ha4, rfl, ?_⟩
              show a4.current_task_id = a.current_task_id
              rw [hc4, hc3]
              exact hc1
      | jnull =>
        have hred : _simulate_agent_work registry resp1 resp2 s aid tid =
            (false, charge_llm s aid tid) := by
          simp only [_simulate_agent_work, h1, huse, if_true, hv]
        rw [hred]
        exact ⟨rfl, rfl, ht, a1, ha1, hs1.trans hst, hc1⟩
      | jbool b =>
        have hred : _simulate_agent_work registry resp1 resp2 s aid tid =
            (false, charge_llm s aid tid) := by
          simp only [_simulate_agent_work, h1, huse, if_true, hv]
        rw [hred]
        exact ⟨rfl, rfl, ht, a1, ha1, hs1.trans hst, hc1⟩
      | jnum n =>
        have hred : _simulate_agent_work registry resp1 resp2 s aid tid =
            (false, charge_llm s aid tid) := by
          simp only [_simulate_agent_work, h1, huse, if_true, hv]
        rw [hred]
        exact ⟨rfl, rfl, ht, a1, ha1, hs1.trans hst, hc1⟩
      | jstr str =>
        have hred : _simulate_agent_work registry resp1 resp2 s aid tid =
            (false, charge_llm s aid tid) := by
          simp only [_simulate_agent_work, h1, huse, if_true, hv]
        rw [hred]
        exact ⟨rfl, rfl, ht, a1, ha1, hs1.trans hst, hc1⟩
      | jarr xs =>
        have hred : _simulate_agent_work registry resp1 resp2 s aid tid =
            (false, charge_llm s aid tid) := by
          simp only [_simulate_agent_work, h1, huse, if_true, hv]
        rw [hred]
        exact ⟨rfl, rfl, ht, a1, ha1, hs1.trans hst, hc1⟩

/-- Witness for C8: a RUNNING task worked by a RUNNING_TASK agent whose
oracle reply is unusable (no JSON decoded): the step reports False, the task
table is untouched, and the agent is still RUNNING_TASK on the same task. -/
theorem C8_simulate_invalid_decision_witness :
    let t : Task :=
      { tid := 0, description := "write", expected_output := "text",
        assigned_agent_id := some 0, dependencies := [], state := TaskState.running,
        context := some "", result := none }
    let a : Agent :=
      { aid := 0, role := "writer", goal := "write", backstory := "b", tools := [],
        state := AgentState.running_task, current_task_id := some 0,
        resource_usage := { tokens := 0, tool_calls := 0 } }
    let s : Sys := { tasks := [t], agents := [a], task_queue := [], rm := ResourceMonitor.init }
    (_simulate_agent_work [] none none s 0 0).1 = false ∧
    (_simulate_agent_work [] none none s 0 0).2.tasks = s.tasks ∧
    ∃ a2, getAgent (_simulate_agent_work [] none none s 0 0).2.agents 0 = some a2 ∧
      a2.state = AgentState.running_task ∧ a2.current_task_id = some 0 := by
  intro t a s
  obtain ⟨h1, h2, -, a2, ha2, hst2, hc2⟩ :=
    C8_simulate_invalid_decision [] none none s 0 0 a t rfl rfl rfl rfl (Or.inl rfl)
  exact ⟨h1, h2, a2, ha2, hst2, hc2⟩

/-! ## C7: COMPLETED is never reverted -/

/-- The entry for `tid`, if any, is COMPLETED. -/
def completedAt (ts : List Task) (tid : Nat) : Prop :=
  ∀ t, getTask ts tid = some t → t.state = TaskState.completed

theorem completedAt_nofind (ts : List Task) (tid : Nat)
    (h : getTask ts tid = none) : completedAt ts tid := by
  intro t htg
  rw [h] at htg
  cases htg

theorem completedAt_of_map_tid (ts ts' : List Task) (tid : Nat)
    (hm : ts'.map (fun t => t.tid) = ts.map (fun t => t.tid))
    (hg : getTask ts tid = none) : completedAt ts' tid := by
  apply completedAt_nofind
  cases hx : getTask ts' tid with
  | none => rfl
  | some u =>
    have h1 : (getTask ts' tid).isSome := by rw [hx]; rfl
    rw [getTask_isSome_iff_mem, hm, ← getTask_isSome_iff_mem, hg] at h1
    cases h1

theorem completedAt_update (ts : List Task) (tid tid' : Nat) (f : Task → Task)
    (hf : ∀ u, (f u).tid = u.tid)
    (hc : ∀ u, u.state = TaskState.completed → (f u).state = TaskState.completed)
    (h : completedAt ts tid) : completedAt (updateTask ts tid' f) tid := by
  intro t htg
  by_cases he : tid = tid'
  · subst he
    rw [getTask_update_self ts tid f hf] at htg
    cases hg : getTask ts tid with
    | none => rw [hg] at htg; cases htg
    | some u =>
      rw [hg, Option.map_some'] at htg
      injection htg with he2
      rw [← he2]
      exact hc u (h u hg)
  · rw [getTask_update_ne ts tid' tid f hf he] at htg
    exact h t htg

theorem completedAt_check (ts : List Task) (tid : Nat)
    (hN : (ts.map (fun t => t.tid)).Nodup)
    (h : completedAt ts tid) : completedAt (check_and_update_task_readiness ts) tid := by
  cases hg : getTask ts tid with
  | none => exact completedAt_of_map_tid ts _ tid (check_map_tid ts) hg
  | some t0 =>
    intro t htg
    rw [check_readiness_spec ts hN tid t0 hg] at htg
    have hnc : ¬ (t0.state = TaskState.pending ∧ depsMet ts t0 = true) := by
      rintro ⟨hp, -⟩
      rw [h t0 hg] at hp
      cases hp
    rw [if_neg hnc] at htg
    injection htg with he
    rw [← he]
    exact h t0 hg

theorem completedAt_promote (s : Sys) (tid : Nat)
    (hN : (s.tasks.map (fun t => t.tid)).Nodup)
    (h : completedAt s.tasks tid) : completedAt (promote_assigned s).tasks tid := by
  obtain ⟨hT, -, -, -, hMT, -, -⟩ := promote_assigned_spec s hN
  cases hg : getTask s.tasks tid with
  | none => exact completedAt_of_map_tid s.tasks _ tid hMT hg
  | some t0 =>
    intro t htg
    rw [hT tid t0 hg] at htg
    have hnc : ¬ (t0.state = TaskState.assigned ∧ promotesB s t0 = true) := by
      rintro ⟨hp, -⟩
      rw [h t0 hg] at hp
      cases hp
    rw [if_neg hnc] at htg
    injection htg with he
    rw [← he]
    exact h t0 hg

theorem completedAt_assign_phase (s : Sys) (tid : Nat)
    (hNT : (s.tasks.map (fun t => t.tid)).Nodup)
    (h : completedAt s.tasks tid) : completedAt (assign_phase s).tasks tid := by
  have hch : completedAt (check_and_update_task_readiness s.tasks) tid :=
    completedAt_check s.tasks tid hNT h
  cases hq : s.task_queue with
  | nil =>
    rw [assign_phase_nil s hq]
    exact h
  | cons next rest =>
    cases hg : getTask (check_and_update_task_readiness s.tasks) next with
    | none =>
      rw [assign_phase_unknown s next rest hq hg]
      exact hch
    | some task =>
      cases hstate : task.state with
      | pending =>
        rw [assign_phase_pending s next rest hq task hg hstate]
        exact hch
      | waiting_context =>
        rw [assign_phase_waiting s next rest hq task hg hstate]
        exact hch
      | ready =>
        cases hav : get_available_agents s.agents with
        | nil =>
          rw [assign_phase_ready_noidle s next rest hq task hg hstate hav]
          exact hch
        | cons agent r2 =>
          rw [assign_phase_ready_avail s next rest hq task hg hstate agent r2 hav]
          have hne : tid ≠ next := by
            intro he
            subst he
            have hcomp := hch task hg
            rw [hstate] at hcomp
            cases hcomp
          intro t htg
          rw [assign_task_to_agent_tasks] at htg
          rw [getTask_update_ne _ next tid
            (fun t => { t with assigned_agent_id := some agent.aid, state := TaskState.assigned })
            (fun u => rfl) hne] at htg
          exact hch t htg
      | assigned =>
        rw [assign_phase_drop s next rest hq task hg (Or.inl hstate)]
        exact hch
      | running =>
        rw [assign_phase_drop s next rest hq task hg (Or.inr (Or.inl hstate))]
        exact hch
      | completed =>
        rw [assign_phase_drop s next rest hq task hg (Or.inr (Or.inr (Or.inl hstate)))]
        exact hch
      | failed =>
        rw [assign_phase_drop s next rest hq task hg (Or.inr (Or.inr (Or.inr hstate)))]
        exact hch

theorem completedAt_schedule (p : CrewProcess) (s : Sys) (tid : Nat)
    (hNT : (s.tasks.map (fun t => t.tid)).Nodup)
    (h : completedAt s.tasks tid) : completedAt (schedule_next p s).tasks tid := by
  cases p with
  | hierarchical => exact h
  | sequential =>
    show completedAt (assign_phase (promote_assigned s)).tasks tid
    obtain ⟨-, -, -, -, hMT, -, -⟩ := promote_assigned_spec s hNT
    exact completedAt_assign_phase (promote_assigned s) tid (by rw [hMT]; exact hNT)
      (completedAt_promote s tid hNT h)

theorem add_result_map_tid (ts : List Task) (tid : Nat) (res : String) :
    (add_result ts tid res).map (fun t => t.tid) = ts.map (fun t => t.tid) :=
  updateTask_map_tid ts tid (fun t => { t with result := some res }) (fun u => rfl)

/-- The task table after a `final_answer` check: untouched on failure; on
success the result is recorded, the task set COMPLETED, and readiness
recomputed. -/
theorem final_answer_phase_tasks (s : Sys) (aid tid : Nat) (action : JVal)
    (fields : List (String × JVal)) :
    (final_answer_phase s aid tid action fields).2.tasks = s.tasks ∨
    ∃ res, (final_answer_phase s aid tid action fields).2.tasks =
      check_and_update_task_readiness
        (update_task_state (add_result s.tasks tid res) tid TaskState.completed) := by
  cases hf : jeqStr action "final_answer" with
  | false =>
    left
    simp only [final_answer_phase, hf, Bool.false_eq_true, if_false]
  | true =>
    cases hc : jget fields "content" with
    | none =>
      left
      simp only [final_answer_phase, hf, if_true, hc]
    | some v =>
      cases v with
      | jnull =>
        left
        simp only [final_answer_phase, hf, if_true, hc]
      | jbool b =>
        right
        exact ⟨pyStr (JVal.jbool b), by simp only [final_answer_phase, hf, if_true, hc]⟩
      | jnum n =>
        right
        exact ⟨pyStr (JVal.jnum n), by simp only [final_answer_phase, hf, if_true, hc]⟩
      | jstr str =>
        right
        exact ⟨pyStr (JVal.jstr str), by simp only [final_answer_phase, hf, if_true, hc]⟩
      | jarr xs =>
        right
        exact ⟨pyStr (JVal.jarr xs), by simp only [final_answer_phase, hf, if_true, hc]⟩
      | jobj ofs =>
        right
        exact ⟨pyStr (JVal.jobj ofs), by simp only [final_answer_phase, hf, if_true, hc]⟩

/-- The task table after a work step: untouched unless the step completed
its task, in which case the result was recorded, the task set COMPLETED and
readiness recomputed. -/
theorem simulate_tasks_cases (registry : ToolRegistry) (resp1 resp2 : Option JVal)
    (s : Sys) (aid tid : Nat) :
    (_simulate_agent_work registry resp1 resp2 s aid tid).2.tasks = s.tasks ∨
    ∃ res, (_simulate_agent_work registry resp1 resp2 s aid tid).2.tasks =
      check_and_update_task_readiness
        (update_task_state (add_result s.tasks tid res) tid TaskState.completed) := by
  cases h1 : respAction resp1 with
  | none =>
    left
    have hred : _simulate_agent_work registry resp1 resp2 s aid tid =
        (false, charge_llm s aid tid) := by
      simp only [_simulate_agent_work, h1]
    rw [hred]
    rfl
  | some p =>
    obtain ⟨action, fields⟩ := p
    cases hu : jeqStr action "use_tool" with
    | false =>
      have hstep : _simulate_agent_work registry resp1 resp2 s aid tid =
          final_answer_phase (charge_llm s aid tid) aid tid action fields := by
        simp only [_simulate_agent_work, h1, hu, Bool.false_eq_true, if_false]
      rw [hstep]
      rcases final_answer_phase_tasks (charge_llm s aid tid) aid tid action fields with
        hx | ⟨res, hx⟩
      · left
        rw [hx]
        rfl
      · right
        exact ⟨res, hx⟩
    | true =>
      cases hv : (jget fields "arguments").getD (JVal.jobj []) with
      | jobj af =>
        cases hn : optFalsy (jget fields "tool_name") with
        | true =>
          left
          have hred : _simulate_agent_work registry resp1 resp2 s aid tid =
              (false, charge_llm s aid tid) := by
            simp only [_simulate_agent_work, h1, hu, if_true, hv, hn]
          rw [hred]
          rfl
        | false =>
          simp only [_simulate_agent_work, h1, hu, if_true, hv, hn,
            Bool.false_eq_true, if_false]
          generalize hE :
            execute_tool (updateAgent (charge_llm s aid tid).agents aid (fun a => { a with state := AgentState.using_tool }))
              registry (charge_llm s aid tid).rm aid (some tid)
              ((jget fields "tool_name").getD JVal.jnull) af = E
          cases h2 : respAction resp2 with
          | none =>
            left
            simp only [h2]
            rfl
          | some p2 =>
            obtain ⟨action2, fields2⟩ := p2
            simp only [h2]
            rcases final_answer_phase_tasks
                (charge_llm (Sys.mk (charge_llm s aid tid).tasks E.1
                  (charge_llm s aid tid).task_queue E.2.1) aid tid)
                aid tid action2 fields2 with hx | ⟨res, hx⟩
            · left
              rw [hx]
              rfl
            · right
              exact ⟨res, hx⟩
      | jnull =>
        left
        have hred : _simulate_agent_work registry resp1 resp2 s aid tid =
            (false, charge_llm s aid tid) := by
          simp only [_simulate_agent_work, h1, hu, if_true, hv]
        rw [hred]
        rfl
      | jbool b =>
        left
        have hred : _simulate_agent_work registry resp1 resp2 s aid tid =
            (false, charge_llm s aid tid) := by
          simp only [_simulate_agent_work, h1, hu, if_true, hv]
        rw [hred]
        rfl
      | jnum n =>
        left
        have hred : _simulate_agent_work registry resp1 resp2 s aid tid =
            (false, charge_llm s aid tid) := by
          simp only [_simulate_agent_work, h1, hu, if_true, hv]
        rw [hred]
        rfl
      | jstr str =>
        left
        have hred : _simulate_agent_work registry resp1 resp2 s aid tid =
            (false, charge_llm s aid tid) := by
          simp only [_simulate_agent_work, h1, hu, if_true, hv]
        rw [hred]
        rfl
      | jarr xs =>
        left
        have hred : _simulate_agent_work registry resp1 resp2 s aid tid =
            (false, charge_llm s aid tid) := by
          simp only [_simulate_agent_work, h1, hu, if_true, hv]
        rw [hred]
        rfl

theorem simulate_map_tid (registry : ToolRegistry) (resp1 resp2 : Option JVal)
    (s : Sys) (aid tid : Nat) :
    ((_simulate_agent_work registry resp1 resp2 s aid tid).2.tasks).map (fun t => t.tid)
      = s.tasks.map (fun t => t.tid) := by
  rcases simulate_tasks_cases registry resp1 resp2 s aid tid with hx | ⟨res, hx⟩ <;> rw [hx]
  rw [check_map_tid, update_task_state_map_tid, add_result_map_tid]

theorem completedAt_simulate (registry : ToolRegistry) (resp1 resp2 : Option JVal)
    (s : Sys) (aid wtid tid : Nat)
    (hNT : (s.tasks.map (fun t => t.tid)).Nodup)
    (h : completedAt s.tasks tid) :
    completedAt (_simulate_agent_work registry resp1 resp2 s aid wtid).2.tasks tid := by
  rcases simulate_tasks_cases registry resp1 resp2 s aid wtid with hx | ⟨res, hx⟩ <;> rw [hx]
  · exact h
  · apply completedAt_check
    · rw [update_task_state_map_tid, add_result_map_tid]
      exact hNT
    · apply completedAt_update _ tid wtid (fun t => { t with state := TaskState.completed })
        (fun u => rfl) (fun u _ => rfl)
      exact completedAt_update _ tid wtid (fun t => { t with result := some res })
        (fun u => rfl) (fun u hu => hu) h

theorem work_loop_step_spec (registry : ToolRegistry)
    (oracle : Nat → Option JVal × Option JVal) (s : Sys) (t : Task) (tid : Nat)
    (hNT : (s.tasks.map (fun u => u.tid)).Nodup)
    (h : completedAt s.tasks tid) :
    completedAt (work_loop_step registry oracle s t).tasks tid ∧
    ((work_loop_step registry oracle s t).tasks.map (fun u => u.tid)
      = s.tasks.map (fun u => u.tid)) := by
  cases hg : getTask s.tasks t.tid with
  | none =>
    simp only [work_loop_step, hg]
    exact ⟨h, by trivial⟩
  | some cur =>
    simp only [work_loop_step, hg]
    by_cases hst : cur.state = TaskState.running
    · rw [if_pos hst]
      cases hasg : cur.assigned_agent_id with
      | none =>
        exact ⟨h, rfl⟩
      | some aid =>
        cases hga : getAgent s.agents aid with
        | none =>
          simp only [hga]
          exact ⟨h, by trivial⟩
        | some agent =>
          simp only [hga]
          by_cases hag : agent.state = AgentState.running_task
          · rw [if_pos hag]
            exact ⟨completedAt_simulate registry (oracle t.tid).1 (oracle t.tid).2 s aid
              t.tid tid hNT h, simulate_map_tid registry _ _ s aid t.tid⟩
          · rw [if_neg hag]
            exact ⟨h, rfl⟩
    · rw [if_neg hst]
      exact ⟨h, rfl⟩

theorem foldl_work_completedAt (registry : ToolRegistry)
    (oracle : Nat → Option JVal × Option JVal) (l : List Task) :
    ∀ (s : Sys) (tid : Nat),
    (s.tasks.map (fun u => u.tid)).Nodup → completedAt s.tasks tid →
    completedAt ((l.foldl (work_loop_step registry oracle) s).tasks) tid := by
  induction l with
  | nil =>
    intro s tid hN h
    exact h
  | cons t l' ih =>
    intro s tid hN h
    rw [List.foldl_cons]
    obtain ⟨h1, h2⟩ := work_loop_step_spec registry oracle s t tid hN h
    exact ih _ tid (by rw [h2]; exact hN) h1

theorem assign_phase_map_tid (s : Sys) :
    (assign_phase s).tasks.map (fun t => t.tid) = s.tasks.map (fun t => t.tid) := by
  cases hq : s.task_queue with
  | nil => rw [assign_phase_nil s hq]
  | cons next rest =>
    cases hg : getTask (check_and_update_task_readiness s.tasks) next with
    | none =>
      rw [assign_phase_unknown s next rest hq hg]
      exact check_map_tid s.tasks
    | some task =>
      cases hstate : task.state with
      | pending =>
        rw [assign_phase_pending s next rest hq task hg hstate]
        exact check_map_tid s.tasks
      | waiting_context =>
        rw [assign_phase_waiting s next rest hq task hg hstate]
        exact check_map_tid s.tasks
      | ready =>
        cases hav : get_available_agents s.agents with
        | nil =>
          rw [assign_phase_ready_noidle s next rest hq task hg hstate hav]
          exact check_map_tid s.tasks
        | cons agent r2 =>
          rw [assign_phase_ready_avail s next rest hq task hg hstate agent r2 hav,
            assign_task_to_agent_tasks,
            updateTask_map_tid _ next
              (fun t => { t with assigned_agent_id := some agent.aid, state := TaskState.assigned })
              (fun u => rfl)]
          exact check_map_tid s.tasks
      | assigned =>
        rw [assign_phase_drop s next rest hq task hg (Or.inl hstate)]
        exact check_map_tid s.tasks
      | running =>
        rw [assign_phase_drop s next rest hq task hg (Or.inr (Or.inl hstate))]
        exact check_map_tid s.tasks
      | completed =>
        rw [assign_phase_drop s next rest hq task hg (Or.inr (Or.inr (Or.inl hstate)))]
        exact check_map_tid s.tasks
      | failed =>
        rw [assign_phase_drop s next rest hq task hg (Or.inr (Or.inr (Or.inr hstate)))]
        exact check_map_tid s.tasks

theorem promoteStep_map_tid (s : Sys) (t : Task) :
    (promoteStep s t).tasks.map (fun u => u.tid) = s.tasks.map (fun u => u.tid) := by
  cases ha : t.assigned_agent_id with
  | none =>
    simp only [promoteStep, ha]
  | some aid =>
    cases hg : getAgent s.agents aid with
    | none =>
      simp only [promoteStep, ha, hg]
    | some agent =>
      by_cases hc : agent.current_task_id = some t.tid ∧ agent.state = AgentState.assigned
      · simp only [promoteStep, ha, hg, if_pos hc]
        rw [build_context_fst,
          updateTask_map_tid _ t.tid
            (fun u => { u with context := builtContext (update_task_state s.tasks t.tid TaskState.running) t })
            (fun u => rfl),
          update_task_state_map_tid]
      · simp only [promoteStep, ha, hg, if_neg hc]

theorem promote_fold_map_tid (l : List Task) : ∀ s : Sys,
    ((l.foldl promoteStep s).tasks).map (fun u => u.tid)
      = s.tasks.map (fun u => u.tid) := by
  induction l with
  | nil =>
    intro s
    rfl
  | cons t l' ih =>
    intro s
    rw [List.foldl_cons, ih (promoteStep s t), promoteStep_map_tid]

theorem schedule_next_map_tid (p : CrewProcess) (s : Sys) :
    (schedule_next p s).tasks.map (fun t => t.tid) = s.tasks.map (fun t => t.tid) := by
  cases p with
  | hierarchical => rfl
  | sequential =>
    show (assign_phase (promote_assigned s)).tasks.map (fun t => t.tid) = _
    rw [assign_phase_map_tid]
    exact promote_fold_map_tid (s.tasks.filter (fun t => t.state == TaskState.assigned)) s

/-- C7: a task that is COMPLETED stays COMPLETED — in particular it never
reverts to PENDING or READY — under every core operation: a readiness pass,
the kernel's completion state-write (for any target task), a scheduling pass
of either process, a work step, and a full kernel tick. -/
theorem C7_completed_monotonic (p : CrewProcess) (registry : ToolRegistry)
    (oracle : Nat → Option JVal × Option JVal) (resp1 resp2 : Option JVal)
    (s : Sys) (tid aid wtid : Nat) (k : Kernel)
    (hN : (s.tasks.map (fun t => t.tid)).Nodup)
    (hc : completedAt s.tasks tid) :
    completedAt (check_and_update_task_readiness s.tasks) tid ∧
    completedAt (update_task_state s.tasks wtid TaskState.completed) tid ∧
    completedAt (schedule_next p s).tasks tid ∧
    completedAt (_simulate_agent_work registry resp1 resp2 s aid wtid).2.tasks tid ∧
    (k.sys = s → completedAt (tick registry oracle k).2.sys.tasks tid) := by
  refine ⟨completedAt_check s.tasks tid hN hc,
    completedAt_update s.tasks tid wtid (fun t => { t with state := TaskState.completed })
      (fun u => rfl) (fun u _ => rfl) hc,
    completedAt_schedule p s tid hN hc,
    completedAt_simulate registry resp1 resp2 s aid wtid tid hN hc, ?_⟩
  intro hks
  cases hl : k.loaded with
  | false =>
    have hred : tick registry oracle k = (false, k) := by
      unfold tick
      simp [hl]
    rw [hred, hks]
    exact hc
  | true =>
    cases hr : k.running with
    | false =>
      have hred : tick registry oracle k = (false, k) := by
        unfold tick
        simp [hl, hr]
      rw [hred, hks]
      exact hc
    | true =>
      have hmain : completedAt
          ((((schedule_next k.process k.sys).tasks.filter
              (fun t => t.state == TaskState.running)).foldl
            (work_loop_step registry oracle) (schedule_next k.process k.sys)).tasks) tid := by
        apply foldl_work_completedAt
        · rw [schedule_next_map_tid, hks]
          exact hN
        · rw [hks]
          exact completedAt_schedule k.process s tid hN hc
      simp only [tick, hl, hr, Bool.not_true, Bool.false_eq_true, if_false]
      by_cases hd : all_tasks_done
          ((((schedule_next k.process k.sys).tasks.filter
              (fun t => t.state == TaskState.running)).foldl
            (work_loop_step registry oracle) (schedule_next k.process k.sys)).tasks) = true
      · rw [if_pos hd]
        exact hmain
      · rw [if_neg hd]
        exact hmain

/-- Witness for C7: a table whose task 0 is COMPLETED keeps it COMPLETED
through a readiness pass, a SEQUENTIAL scheduling pass, and a full tick of a
loaded running kernel. -/
theorem C7_completed_monotonic_witness :
    let t0 : Task :=
      { tid := 0, description := "done", expected_output := "d",
        assigned_agent_id := none, dependencies := [], state := TaskState.completed,
        context := some "", result := some "r" }
    let s : Sys := { tasks := [t0], agents := [], task_queue := [], rm := ResourceMonitor.init }
    let k : Kernel :=
      { loaded := true, process := CrewProcess.sequential, sys := s,
        tick_count := 0, running := true }
    ((s.tasks.map (fun t => t.tid)).Nodup ∧ completedAt s.tasks 0) ∧
    completedAt (check_and_update_task_readiness s.tasks) 0 ∧
    completedAt (schedule_next CrewProcess.sequential s).tasks 0 ∧
    completedAt (tick [] (fun _ => (none, none)) k).2.sys.tasks 0 := by
  intro t0 s k
  have hc : completedAt s.tasks 0 := by
    intro t h
    injection h with h2
    rw [← h2]
  obtain ⟨h1, -, h3, -, h5⟩ :=
    C7_completed_monotonic CrewProcess.sequential [] (fun _ => (none, none)) none none
      s 0 0 0 k (by decide) hc
  exact ⟨⟨by decide, hc⟩, h1, h3, h5 rfl⟩

/-! ## C9: reset -/

theorem getTask_map (g : Task → Task) (hgt : ∀ u, (g u).tid = u.tid)
    (ts : List Task) (tid : Nat) :
    getTask (ts.map g) tid = (getTask ts tid).map g := by
  induction ts with
  | nil => rfl
  | cons t rest ih =>
    rw [List.map_cons, getTask_cons, getTask_cons]
    by_cases he : t.tid = tid
    · rw [if_pos (by rw [hgt t]; exact he), if_pos he, Option.map_some']
    · rw [if_neg (by rw [hgt t]; exact he), if_neg he, ih]

theorem updateTask_map_commute (g f fi : Task → Task)
    (hcomm : ∀ u, f (g u) = g (fi u)) (hgt : ∀ u, (g u).tid = u.tid)
    (ts : List Task) (tid : Nat) :
    updateTask (ts.map g) tid f = (updateTask ts tid fi).map g := by
  unfold updateTask
  rw [List.map_map, List.map_map]
  apply List.map_congr_left
  intro u hu
  show (if (g u).tid == tid then f (g u) else g u)
    = g (if u.tid == tid then fi u else u)
  by_cases he : (u.tid == tid) = true
  · rw [if_pos (by rw [show (g u).tid = u.tid from hgt u]; exact he), if_pos he, hcomm u]
  · rw [if_neg (by rw [show (g u).tid = u.tid from hgt u]; exact he), if_neg he]

theorem depCompleted_map (g : Task → Task) (hgt : ∀ u, (g u).tid = u.tid)
    (hgs : ∀ u, (g u).state = u.state) (ts : List Task) (d : Nat) :
    depCompleted (ts.map g) d = depCompleted ts d := by
  unfold depCompleted
  rw [getTask_map g hgt ts d]
  cases hx : getTask ts d with
  | none => rfl
  | some u =>
    rw [Option.map_some']
    show ((g u).state == TaskState.completed) = (u.state == TaskState.completed)
    rw [hgs u]

theorem depsMet_map (g : Task → Task) (hgt : ∀ u, (g u).tid = u.tid)
    (hgs : ∀ u, (g u).state = u.state)
    (hgd : ∀ u, (g u).dependencies = u.dependencies)
    (ts : List Task) (t : Task) :
    depsMet (ts.map g) (g t) = depsMet ts t := by
  unfold depsMet
  rw [hgd t]
  have hfun : (fun d => depCompleted (ts.map g) d) = (fun d => depCompleted ts d) :=
    funext (fun d => depCompleted_map g hgt hgs ts d)
  rw [hfun]

theorem readinessPass_map (g : Task → Task)
    (hgt : ∀ u, (g u).tid = u.tid) (hgs : ∀ u, (g u).state = u.state)
    (hgd : ∀ u, (g u).dependencies = u.dependencies)
    (hgc : ∀ u st, g { u with state := st } = { g u with state := st }) :
    ∀ (l : List Task) (ts : List Task),
    readinessPass (ts.map g) (l.map g) = (readinessPass ts l).map g := by
  intro l
  induction l with
  | nil => intro ts; rfl
  | cons t l' ih =>
    intro ts
    rw [List.map_cons]
    show readinessPass
        (if (g t).state = TaskState.pending ∧ depsMet (ts.map g) (g t) then
          update_task_state (ts.map g) (g t).tid TaskState.ready
        else ts.map g) (l'.map g)
      = (readinessPass
          (if t.state = TaskState.pending ∧ depsMet ts t then
            update_task_state ts t.tid TaskState.ready
          else ts) l').map g
    have hdm : depsMet (ts.map g) (g t) = depsMet ts t := depsMet_map g hgt hgs hgd ts t
    by_cases hc : t.state = TaskState.pending ∧ depsMet ts t = true
    · rw [if_pos (⟨by rw [hgs t]; exact hc.1, by rw [hdm]; exact hc.2⟩ :
          (g t).state = TaskState.pending ∧ depsMet (ts.map g) (g t) = true),
        if_pos hc, hgt t]
      rw [show update_task_state (ts.map g) t.tid TaskState.ready
          = (update_task_state ts t.tid TaskState.ready).map g from
        updateTask_map_commute g (fun u => { u with state := TaskState.ready })
          (fun u => { u with state := TaskState.ready })
          (fun u => (hgc u TaskState.ready).symm) hgt ts t.tid]
      exact ih (update_task_state ts t.tid TaskState.ready)
    · have hc' : ¬ ((g t).state = TaskState.pending ∧ depsMet (ts.map g) (g t) = true) := by
        rintro ⟨h1, h2⟩
        rw [hgs t] at h1
        rw [hdm] at h2
        exact hc ⟨h1, h2⟩
      rw [if_neg hc', if_neg hc]
      exact ih ts

/-- The readiness pass commutes with any per-task rewrite that preserves id,
state and dependency list (it neither reads nor writes the other fields). -/
theorem check_map_compat (g : Task → Task)
    (hgt : ∀ u, (g u).tid = u.tid) (hgs : ∀ u, (g u).state = u.state)
    (hgd : ∀ u, (g u).dependencies = u.dependencies)
    (hgc : ∀ u st, g { u with state := st } = { g u with state := st })
    (ts : List Task) :
    check_and_update_task_readiness (ts.map g)
      = (check_and_update_task_readiness ts).map g :=
  readinessPass_map g hgt hgs hgd hgc ts ts

/-- C9: `reset_states` restores every task to PENDING with context and
result cleared and every agent to IDLE with `current_task_id` cleared and
usage counters zeroed, preserving every id, description, dependency list,
expected output, role, goal, backstory and tool allowlist, as well as the
process and the declared task order; and a readiness pass after reset
produces the same (id, state) table — hence the same READY set — as the
first readiness pass over a fresh load of the same declaration (fresh tasks
built by `Task.__init__` from the same ids, descriptions, expected outputs
and dependency lists, with any declared agent pre-assignment `decl`). -/
theorem C9_reset_states (c : Crew) (decl : Nat → Option Nat) :
    (c.reset_states.tasks.map (fun t => t.tid) = c.tasks.map (fun t => t.tid)) ∧
    (c.reset_states.agents.map (fun a => a.aid) = c.agents.map (fun a => a.aid)) ∧
    (∀ t ∈ c.reset_states.tasks,
      t.state = TaskState.pending ∧ t.context = none ∧ t.result = none) ∧
    (∀ a ∈ c.reset_states.agents,
      a.state = AgentState.idle ∧ a.current_task_id = none ∧
      a.resource_usage = { tokens := 0, tool_calls := 0 }) ∧
    (c.reset_states.tasks.map (fun t => (t.description, t.expected_output, t.dependencies))
      = c.tasks.map (fun t => (t.description, t.expected_output, t.dependencies))) ∧
    (c.reset_states.agents.map (fun a => (a.role, a.goal, a.backstory, a.tools))
      = c.agents.map (fun a => (a.role, a.goal, a.backstory, a.tools))) ∧
    c.reset_states.process = c.process ∧
    c.reset_states.task_order = c.task_order ∧
    ((check_and_update_task_readiness c.reset_states.tasks).map (fun t => (t.tid, t.state))
      = (check_and_update_task_readiness
          (c.tasks.map (fun t => Task.init t.tid t.description t.expected_output
            (decl t.tid) t.dependencies))).map (fun t => (t.tid, t.state))) := by
  have htasks : c.reset_states.tasks = c.tasks.map (fun u =>
      { u with state := TaskState.pending, context := none, result := none }) := rfl
  have hagents : c.reset_states.agents = c.agents.map (fun b =>
      { b with state := AgentState.idle, current_task_id := none,
               resource_usage := { tokens := 0, tool_calls := 0 } }) := rfl
  refine ⟨?_, ?_, ?_, ?_, ?_, ?_, rfl, rfl, ?_⟩
  · rw [htasks, List.map_map]
    rfl
  · rw [hagents, List.map_map]
    rfl
  · intro t ht
    rw [htasks, List.mem_map] at ht
    obtain ⟨u, -, rfl⟩ := ht
    exact ⟨rfl, rfl, rfl⟩
  · intro a ha
    rw [hagents, List.mem_map] at ha
    obtain ⟨b, -, rfl⟩ := ha
    exact ⟨rfl, rfl, rfl⟩
  · rw [htasks, List.map_map]
    rfl
  · rw [hagents, List.map_map]
    rfl
  · have hfresh : c.tasks.map (fun t => Task.init t.tid t.description t.expected_output
        (decl t.tid) t.dependencies)
        = c.reset_states.tasks.map (fun u => { u with assigned_agent_id := decl u.tid }) := by
      rw [htasks, List.map_map]
      rfl
    rw [hfresh,
      check_map_compat (fun u => { u with assigned_agent_id := decl u.tid })
        (fun u => rfl) (fun u => rfl) (fun u => rfl) (fun u st => rfl)
        c.reset_states.tasks,
      List.map_map]
    rfl

/-! ## C6: no double-booking -/

theorem getAgent_isSome_iff_mem (ags : List Agent) (aid : Nat) :
    (getAgent ags aid).isSome ↔ aid ∈ ags.map (fun a => a.aid) := by
  induction ags with
  | nil => simp [getAgent]
  | cons a rest ih =>
    rw [getAgent_cons, List.map_cons]
    by_cases hh : a.aid = aid
    · simp [hh]
    · rw [if_neg hh, List.mem_cons]
      constructor
      · intro hs
        exact Or.inr (ih.mp hs)
      · rintro (he | hm)
        · exact absurd he.symm hh
        · exact ih.mpr hm

theorem release_map_aid (ags : List Agent) (aid : Nat) :
    (release_agent ags aid).map (fun a => a.aid) = ags.map (fun a => a.aid) := by
  cases hga : getAgent ags aid with
  | none =>
    have hred : release_agent ags aid = ags := by
      simp only [release_agent, hga]
    rw [hred]
  | some agent =>
    by_cases hni : agent.state ≠ AgentState.idle
    · have hred : release_agent ags aid = updateAgent ags aid
          (fun a => { a with state := AgentState.idle, current_task_id := none }) := by
        simp only [release_agent, hga, if_pos hni]
      rw [hred]
      exact updateAgent_map_aid ags aid
        (fun a => { a with state := AgentState.idle, current_task_id := none })
        (fun a => rfl)
    · have hred : release_agent ags aid = ags := by
        simp only [release_agent, hga, if_neg hni]
      rw [hred]

theorem getAgent_release_self (ags : List Agent) (aid : Nat) (a0 : Agent)
    (h0 : getAgent ags aid = some a0) :
    ∃ b, getAgent (release_agent ags aid) aid = some b ∧
      ((b = a0 ∧ a0.state = AgentState.idle) ∨
       (b.state = AgentState.idle ∧ b.current_task_id = none)) := by
  by_cases hni : a0.state ≠ AgentState.idle
  · have hred : release_agent ags aid = updateAgent ags aid
        (fun a => { a with state := AgentState.idle, current_task_id := none }) := by
      simp only [release_agent, h0, if_pos hni]
    rw [hred, getAgent_update_self ags aid
      (fun a => { a with state := AgentState.idle, current_task_id := none })
      (fun a => rfl), h0, Option.map_some']
    exact ⟨_, rfl, Or.inr ⟨rfl, rfl⟩⟩
  · have hred : release_agent ags aid = ags := by
      simp only [release_agent, h0, if_neg hni]
    rw [hred]
    exact ⟨a0, h0, Or.inl ⟨rfl, not_not.mp hni⟩⟩

theorem getAgent_release_ne (ags : List Agent) (aid aid0 : Nat) (hne : aid0 ≠ aid) :
    getAgent (release_agent ags aid) aid0 = getAgent ags aid0 := by
  cases hga : getAgent ags aid with
  | none =>
    have hred : release_agent ags aid = ags := by
      simp only [release_agent, hga]
    rw [hred]
  | some agent =>
    by_cases hni : agent.state ≠ AgentState.idle
    · have hred : release_agent ags aid = updateAgent ags aid
          (fun a => { a with state := AgentState.idle, current_task_id := none }) := by
        simp only [release_agent, hga, if_pos hni]
      rw [hred, getAgent_update_ne ags aid aid0
        (fun a => { a with state := AgentState.idle, current_task_id := none })
        (fun a => rfl) hne]
    · have hred : release_agent ags aid = ags := by
        simp only [release_agent, hga, if_neg hni]
      rw [hred]

theorem execute_tool_map_aid (ags : List Agent) (registry : ToolRegistry)
    (rm : ResourceMonitor) (aid : Nat) (task_id : Option Nat) (tool_name : JVal)
    (kwargs : List (String × JVal)) :
    ((execute_tool ags registry rm aid task_id tool_name kwargs).1).map (fun a => a.aid)
      = ags.map (fun a => a.aid) := by
  rcases execute_tool_agents_cases ags registry rm aid task_id tool_name kwargs with
    h | ⟨c, h⟩ <;> rw [h]
  exact updateAgent_map_aid ags aid
    (fun a => (a.record_usage "tool_calls" 1).record_usage "tokens" c)
    (fun a => by
      rw [(Agent.record_usage_shadow (a.record_usage "tool_calls" 1) "tokens" c).2.2,
        (Agent.record_usage_shadow a "tool_calls" 1).2.2])

theorem charge_llm_map_aid (s : Sys) (aid tid : Nat) :
    ((charge_llm s aid tid).agents).map (fun a => a.aid) = s.agents.map (fun a => a.aid) := by
  show (updateAgent s.agents aid (fun a => a.record_usage "tokens" call_cost)).map
      (fun a => a.aid) = _
  exact updateAgent_map_aid s.agents aid (fun a => a.record_usage "tokens" call_cost)
    (fun a => (Agent.record_usage_shadow a "tokens" call_cost).2.2)

theorem filter_tid_le_one (ts : List Task) (hN : (ts.map (fun t => t.tid)).Nodup)
    (p : Task → Bool) (v : Nat) (hall : ∀ t ∈ ts, p t = true → t.tid = v) :
    (ts.filter p).length ≤ 1 := by
  have hsub : List.Sublist ((ts.filter p).map (fun t => t.tid)) (ts.map (fun t => t.tid)) :=
    List.Sublist.map (fun t => t.tid) (List.filter_sublist ts)
  have hNf : ((ts.filter p).map (fun t => t.tid)).Nodup := hN.sublist hsub
  cases hl : ts.filter p with
  | nil => simp
  | cons x rest =>
    cases rest with
    | nil => simp
    | cons y rest2 =>
      exfalso
      have hx : x ∈ ts.filter p := by
        rw [hl]
        exact List.mem_cons_self x _
      have hy : y ∈ ts.filter p := by
        rw [hl]
        exact List.mem_cons_of_mem x (List.mem_cons_self y _)
      obtain ⟨hxm, hxp⟩ := List.mem_filter.mp hx
      obtain ⟨hym, hyp⟩ := List.mem_filter.mp hy
      have hxv := hall x hxm hxp
      have hyv := hall y hym hyp
      rw [hl] at hNf
      simp only [List.map_cons, List.nodup_cons] at hNf
      refine hNf.1 ?_
      rw [List.mem_cons]
      left
      rw [hxv, hyv]

/-- The booking invariant maintained by the core operations: duplicate-free
id tables; every ACTIVE (ASSIGNED or RUNNING) task is bound to an existing
agent that is not IDLE and whose `current_task_id` points back at exactly
that task; and every IDLE agent holds no task reference. -/
def BookingInv (ts : List Task) (ags : List Agent) : Prop :=
  (ts.map (fun t => t.tid)).Nodup ∧
  (ags.map (fun a => a.aid)).Nodup ∧
  (∀ tid t, getTask ts tid = some t →
    (t.state = TaskState.assigned ∨ t.state = TaskState.running) →
    ∃ aid a, t.assigned_agent_id = some aid ∧ getAgent ags aid = some a ∧
      a.current_task_id = some tid ∧ a.state ≠ AgentState.idle) ∧
  (∀ aid a, getAgent ags aid = some a → a.state = AgentState.idle →
    a.current_task_id = none)

/-- Pointwise agent-table evolution within one work step: every agent keeps
its `current_task_id`, and keeps its state except that the worked agent may
be moved to USING_TOOL or RUNNING_TASK. -/
def shadowUpTo (ags ags' : List Agent) (aid : Nat) : Prop :=
  ∀ aid0 a0, getAgent ags aid0 = some a0 → ∃ a1,
    getAgent ags' aid0 = some a1 ∧
    a1.current_task_id = a0.current_task_id ∧
    (a1.state = a0.state ∨ (aid0 = aid ∧
      (a1.state = AgentState.using_tool ∨ a1.state = AgentState.running_task)))

theorem shadowUpTo_trans {ags ags' ags'' : List Agent} {aid : Nat}
    (h1 : shadowUpTo ags ags' aid) (h2 : shadowUpTo ags' ags'' aid) :
    shadowUpTo ags ags'' aid := by
  intro aid0 a0 h0
  obtain ⟨a1, hg1, hc1, hs1⟩ := h1 aid0 a0 h0
  obtain ⟨a2, hg2, hc2, hs2⟩ := h2 aid0 a1 hg1
  refine ⟨a2, hg2, hc2.trans hc1, ?_⟩
  rcases hs2 with hs2 | hs2
  · rcases hs1 with hs1 | hs1
    · exact Or.inl (hs2.trans hs1)
    · exact Or.inr ⟨hs1.1, hs2 ▸ hs1.2⟩
  · exact Or.inr hs2

theorem shadowUpTo_charge (s : Sys) (aid tid : Nat) (aid' : Nat) :
    shadowUpTo s.agents (charge_llm s aid tid).agents aid' := by
  intro aid0 a0 h0
  obtain ⟨a1, h1, hs1, hc1, -⟩ := getAgent_charge_llm s aid tid aid0 a0 h0
  exact ⟨a1, h1, hc1, Or.inl hs1⟩

theorem shadowUpTo_setState (ags : List Agent) (aid : Nat) (st : AgentState)
    (hst : st = AgentState.using_tool ∨ st = AgentState.running_task) :
    shadowUpTo ags (updateAgent ags aid (fun a => { a with state := st })) aid := by
  intro aid0 a0 h0
  by_cases he : aid0 = aid
  · subst he
    exact ⟨{ a0 with state := st }, setState_agent ags aid0 st a0 h0, rfl,
      Or.inr ⟨rfl, hst⟩⟩
  · rw [getAgent_update_ne ags aid aid0 (fun a => { a with state := st })
      (fun a => rfl) he]
    exact ⟨a0, h0, rfl, Or.inl rfl⟩

theorem shadowUpTo_execute (ags : List Agent) (registry : ToolRegistry)
    (rm : ResourceMonitor) (aid : Nat) (task_id : Option Nat) (tool_name : JVal)
    (kwargs : List (String × JVal)) (aid' : Nat) :
    shadowUpTo ags (execute_tool ags registry rm aid task_id tool_name kwargs).1 aid' := by
  intro aid0 a0 h0
  obtain ⟨a1, h1, hs1, hc1, -⟩ :=
    getAgent_execute_tool ags registry rm aid task_id tool_name kwargs aid0 a0 h0
  exact ⟨a1, h1, hc1, Or.inl hs1⟩

/-- The outcome split of a `final_answer` check: failure leaves the tasks
untouched and puts the agent back to RUNNING_TASK; success records the
result, completes the task, recomputes readiness, and releases the agent. -/
theorem final_answer_phase_split (s' : Sys) (aid tid : Nat) (action : JVal)
    (fields : List (String × JVal)) :
    ((final_answer_phase s' aid tid action fields).2.tasks = s'.tasks ∧
     (final_answer_phase s' aid tid action fields).2.agents
        = updateAgent s'.agents aid (fun a => { a with state := AgentState.running_task })) ∨
    ((∃ res, (final_answer_phase s' aid tid action fields).2.tasks =
        check_and_update_task_readiness
          (update_task_state (add_result s'.tasks tid res) tid TaskState.completed)) ∧
     (final_answer_phase s' aid tid action fields).2.agents
        = release_agent s'.agents aid) := by
  cases hf : jeqStr action "final_answer" with
  | false =>
    rw [final_answer_phase_fail s' aid tid action fields (Or.inl hf)]
    exact Or.inl ⟨rfl, rfl⟩
  | true =>
    cases hc : jget fields "content" with
    | none =>
      rw [final_answer_phase_fail s' aid tid action fields (Or.inr (Or.inl hc))]
      exact Or.inl ⟨rfl, rfl⟩
    | some v =>
      cases v with
      | jnull =>
        rw [final_answer_phase_fail s' aid tid action fields (Or.inr (Or.inr hc))]
        exact Or.inl ⟨rfl, rfl⟩
      | jbool b =>
        right
        refine ⟨⟨pyStr (JVal.jbool b), ?_⟩, ?_⟩ <;>
          simp only [final_answer_phase, hf, if_true, hc]
      | jnum n =>
        right
        refine ⟨⟨pyStr (JVal.jnum n), ?_⟩, ?_⟩ <;>
          simp only [final_answer_phase, hf, if_true, hc]
      | jstr str =>
        right
        refine ⟨⟨pyStr (JVal.jstr str), ?_⟩, ?_⟩ <;>
          simp only [final_answer_phase, hf, if_true, hc]
      | jarr xs =>
        right
        refine ⟨⟨pyStr (JVal.jarr xs), ?_⟩, ?_⟩ <;>
          simp only [final_answer_phase, hf, if_true, hc]
      | jobj ofs =>
        right
        refine ⟨⟨pyStr (JVal.jobj ofs), ?_⟩, ?_⟩ <;>
          simp only [final_answer_phase, hf, if_true, hc]

/-- The outcome split of one work step: either the step does not complete
the task — tasks untouched, agent ids preserved, agent shadows preserved up
to the worked agent's state — or it completes it: result recorded, task
COMPLETED, readiness recomputed, and the worked agent released from a table
whose shadows are preserved up to the worked agent. -/
theorem simulate_split (registry : ToolRegistry) (resp1 resp2 : Option JVal)
    (s : Sys) (aid tid : Nat) :
    ((_simulate_agent_work registry resp1 resp2 s aid tid).2.tasks = s.tasks ∧
     ((_simulate_agent_work registry resp1 resp2 s aid tid).2.agents).map (fun a => a.aid)
        = s.agents.map (fun a => a.aid) ∧
     shadowUpTo s.agents ((_simulate_agent_work registry resp1 resp2 s aid tid).2.agents) aid) ∨
    ((∃ res, (_simulate_agent_work registry resp1 resp2 s aid tid).2.tasks =
        check_and_update_task_readiness
          (update_task_state (add_result s.tasks tid res) tid TaskState.completed)) ∧
     (∃ ags1, (_simulate_agent_work registry resp1 resp2 s aid tid).2.agents
          = release_agent ags1 aid ∧
        ags1.map (fun a => a.aid) = s.agents.map (fun a => a.aid) ∧
        shadowUpTo s.agents ags1 aid)) := by
  cases h1 : respAction resp1 with
  | none =>
    left
    have hred : _simulate_agent_work registry resp1 resp2 s aid tid =
        (false, charge_llm s aid tid) := by
      simp only [_simulate_agent_work, h1]
    rw [hred]
    exact ⟨rfl, charge_llm_map_aid s aid tid, shadowUpTo_charge s aid tid aid⟩
  | some p =>
    obtain ⟨action, fields⟩ := p
    cases hu : jeqStr action "use_tool" with
    | false =>
      have hstep : _simulate_agent_work registry resp1 resp2 s aid tid =
          final_answer_phase (charge_llm s aid tid) aid tid action fields := by
        simp only [_simulate_agent_work, h1, hu, Bool.false_eq_true, if_false]
      rw [hstep]
      rcases final_answer_phase_split (charge_llm s aid tid) aid tid action fields with
        ⟨hT, hA⟩ | ⟨⟨res, hT⟩, hA⟩
      · left
        refine ⟨by rw [hT]; rfl, ?_, ?_⟩
        · rw [hA, updateAgent_map_aid _ aid
            (fun a => { a with state := AgentState.running_task }) (fun a => rfl)]
          exact charge_llm_map_aid s aid tid
        · rw [hA]
          exact shadowUpTo_trans (shadowUpTo_charge s aid tid aid)
            (shadowUpTo_setState (charge_llm s aid tid).agents aid
              AgentState.running_task (Or.inr rfl))
      · right
        refine ⟨⟨res, by rw [hT]; rfl⟩, (charge_llm s aid tid).agents, hA,
          charge_llm_map_aid s aid tid, shadowUpTo_charge s aid tid aid⟩
    | true =>
      cases hv : (jget fields "arguments").getD (JVal.jobj []) with
      | jobj af =>
        cases hn : optFalsy (jget fields "tool_name") with
        | true =>
          left
          have hred : _simulate_agent_work registry resp1 resp2 s aid tid =
              (false, charge_llm s aid tid) := by
            simp only [_simulate_agent_work, h1, hu, if_true, hv, hn]
          rw [hred]
          exact ⟨rfl, charge_llm_map_aid s aid tid, shadowUpTo_charge s aid tid aid⟩
        | false =>
          simp only [_simulate_agent_work, h1, hu, if_true, hv, hn,
            Bool.false_eq_true, if_false]
          generalize hE :
            execute_tool (updateAgent (charge_llm s aid tid).agents aid (fun a => { a with state := AgentState.using_tool }))
              registry (charge_llm s aid tid).rm aid (some tid)
              ((jget fields "tool_name").getD JVal.jnull) af = E
          have hsh3 : shadowUpTo s.agents E.1 aid := by
            rw [← hE]
            exact shadowUpTo_trans
              (shadowUpTo_trans (shadowUpTo_charge s aid tid aid)
                (shadowUpTo_setState (charge_llm s aid tid).agents aid
                  AgentState.using_tool (Or.inl rfl)))
              (shadowUpTo_execute _ registry (charge_llm s aid tid).rm aid (some tid)
                ((jget fields "tool_name").getD JVal.jnull) af aid)
          have hm3 : E.1.map (fun a => a.aid) = s.agents.map (fun a => a.aid) := by
            rw [← hE, execute_tool_map_aid,
              updateAgent_map_aid _ aid (fun a => { a with state := AgentState.using_tool })
                (fun a => rfl)]
            exact charge_llm_map_aid s aid tid
          have hsh4 : shadowUpTo s.agents
              (charge_llm (Sys.mk (charge_llm s aid tid).tasks E.1
                (charge_llm s aid tid).task_queue E.2.1) aid tid).agents aid :=
            shadowUpTo_trans hsh3
              (shadowUpTo_charge (Sys.mk (charge_llm s aid tid).tasks E.1
                (charge_llm s aid tid).task_queue E.2.1) aid tid aid)
          have hm4 : ((charge_llm (Sys.mk (charge_llm s aid tid).tasks E.1
              (charge_llm s aid tid).task_queue E.2.1) aid tid).agents).map (fun a => a.aid)
              = s.agents.map (fun a => a.aid) := by
            rw [charge_llm_map_aid]
            exact hm3
          cases h2 : respAction resp2 with
          | none =>
            left
            simp only [h2]
            refine ⟨by trivial, ?_, ?_⟩
            · rw [updateAgent_map_aid _ aid
                (fun a => { a with state := AgentState.running_task }) (fun a => rfl)]
              exact hm4
            · exact shadowUpTo_trans hsh4
                (shadowUpTo_setState _ aid AgentState.running_task (Or.inr rfl))
          | some p2 =>
            obtain ⟨action2, fields2⟩ := p2
            simp only [h2]
            rcases final_answer_phase_split
                (charge_llm (Sys.mk (charge_llm s aid tid).tasks E.1
                  (charge_llm s aid tid).task_queue E.2.1) aid tid)
                aid tid action2 fields2 with ⟨hT, hA⟩ | ⟨⟨res, hT⟩, hA⟩
            · left
              refine ⟨by rw [hT]; rfl, ?_, ?_⟩
              · rw [hA, updateAgent_map_aid _ aid
                  (fun a => { a with state := AgentState.running_task }) (fun a => rfl)]
                exact hm4
              · rw [hA]
                exact shadowUpTo_trans hsh4
                  (shadowUpTo_setState _ aid AgentState.running_task (Or.inr rfl))
            · right
              exact ⟨⟨res, by rw [hT]; rfl⟩,
                (charge_llm (Sys.mk (charge_llm s aid tid).tasks E.1
                  (charge_llm s aid tid).task_queue E.2.1) aid tid).agents,
                hA, hm4, hsh4⟩
      | jnull =>
        left
        have hred : _simulate_agent_work registry resp1 resp2 s aid tid =
            (false, charge_llm s aid tid) := by
          simp only [_simulate_agent_work, h1, hu, if_true, hv]
        rw [hred]
        exact ⟨rfl, charge_llm_map_aid s aid tid, shadowUpTo_charge s aid tid aid⟩
      | jbool b =>
        left
        have hred : _simulate_agent_work registry resp1 resp2 s aid tid =
            (false, charge_llm s aid tid) := by
          simp only [_simulate_agent_work, h1, hu, if_true, hv]
        rw [hred]
        exact ⟨rfl, charge_llm_map_aid s aid tid, shadowUpTo_charge s aid tid aid⟩
      | jnum n =>
        left
        have hred : _simulate_agent_work registry resp1 resp2 s aid tid =
            (false, charge_llm s aid tid) := by
          simp only [_simulate_agent_work, h1, hu, if_true, hv]
        rw [hred]
        exact ⟨rfl, charge_llm_map_aid s aid tid, shadowUpTo_charge s aid tid aid⟩
      | jstr str =>
        left
        have hred : _simulate_agent_work registry resp1 resp2 s aid tid =
            (false, charge_llm s aid tid) := by
          simp only [_simulate_agent_work, h1, hu, if_true, hv]
        rw [hred]
        exact ⟨rfl, charge_llm_map_aid s aid tid, shadowUpTo_charge s aid tid aid⟩
      | jarr xs =>
        left
        have hred : _simulate_agent_work registry resp1 resp2 s aid tid =
            (false, charge_llm s aid tid) := by
          simp only [_simulate_agent_work, h1, hu, if_true, hv]
        rw [hred]
        exact ⟨rfl, charge_llm_map_aid s aid tid, shadowUpTo_charge s aid tid aid⟩

theorem isSome_of_eq_some {α : Type} {o : Option α} {x : α} (h : o = some x) :
    o.isSome := by
  rw [h]
  rfl

theorem getTask_isSome_transfer (ts ts' : List Task) (tid : Nat)
    (hm : ts'.map (fun t => t.tid) = ts.map (fun t => t.tid))
    (h : (getTask ts' tid).isSome) : (getTask ts tid).isSome := by
  rw [getTask_isSome_iff_mem] at h ⊢
  rw [hm] at h
  exact h

theorem getAgent_isSome_transfer (ags ags' : List Agent) (aid : Nat)
    (hm : ags'.map (fun a => a.aid) = ags.map (fun a => a.aid))
    (h : (getAgent ags' aid).isSome) : (getAgent ags aid).isSome := by
  rw [getAgent_isSome_iff_mem] at h ⊢
  rw [hm] at h
  exact h

theorem BookingInv_check (ts : List Task) (ags : List Agent)
    (h : BookingInv ts ags) : BookingInv (check_and_update_task_readiness ts) ags := by
  obtain ⟨hNT, hNA, hact, hidle⟩ := h
  refine ⟨by rw [check_map_tid]; exact hNT, hNA, ?_, hidle⟩
  intro tid t htg hactive
  have hsome : (getTask ts tid).isSome :=
    getTask_isSome_transfer ts _ tid (check_map_tid ts) (isSome_of_eq_some htg)
  obtain ⟨t0, h0⟩ := Option.isSome_iff_exists.mp hsome
  rw [check_readiness_spec ts hNT tid t0 h0] at htg
  by_cases hc : t0.state = TaskState.pending ∧ depsMet ts t0 = true
  · rw [if_pos hc] at htg
    injection htg with he
    rw [← he] at hactive
    rcases hactive with hx | hx <;> simp at hx
  · rw [if_neg hc] at htg
    injection htg with he
    subst he
    exact hact tid t0 h0 hactive

theorem BookingInv_promote (s : Sys)
    (h : BookingInv s.tasks s.agents) :
    BookingInv (promote_assigned s).tasks (promote_assigned s).agents := by
  obtain ⟨hNT, hNA, hact, hidle⟩ := h
  obtain ⟨hT, hA, hQ, hRM, hMT, hMA, hD⟩ := promote_assigned_spec s hNT
  refine ⟨by rw [hMT]; exact hNT, by rw [hMA]; exact hNA, ?_, ?_⟩
  · intro tid t htg hactive
    have hsome : (getTask s.tasks tid).isSome :=
      getTask_isSome_transfer s.tasks _ tid hMT (isSome_of_eq_some htg)
    obtain ⟨t0, h0⟩ := Option.isSome_iff_exists.mp hsome
    rw [hT tid t0 h0] at htg
    by_cases hc : t0.state = TaskState.assigned ∧ promotesB s t0 = true
    · rw [if_pos hc] at htg
      injection htg with he
      obtain ⟨aid, agent, hta, hga, hcur, hstate⟩ := promotesB_iff.mp hc.2
      have htid0 : t0.tid = tid := getTask_tid h0
      have hmem0 : t0 ∈ s.tasks.filter (fun u => u.state == TaskState.assigned) :=
        List.mem_filter.mpr ⟨getTask_mem h0, by simp [hc.1]⟩
      have hap : agentPromotedB (s.tasks.filter (fun u => u.state == TaskState.assigned))
          agent = true := by
        simp only [agentPromotedB, Bool.and_eq_true, beq_iff_eq, List.any_eq_true]
        exact ⟨hstate, t0, hmem0, hcur, by rw [hta, getAgent_aid hga]⟩
      have hga' := hA aid agent hga
      rw [if_pos hap] at hga'
      refine ⟨aid, { agent with state := AgentState.running_task }, ?_, hga', ?_, ?_⟩
      · rw [← he]
        exact hta
      · show agent.current_task_id = some tid
        rw [hcur, htid0]
      · intro hx
        cases hx
    · rw [if_neg hc] at htg
      injection htg with he
      subst he
      obtain ⟨aid, a, hta, hga, hcur, hnid⟩ := hact tid t0 h0 hactive
      have hga' := hA aid a hga
      by_cases hap : agentPromotedB (s.tasks.filter (fun u => u.state == TaskState.assigned))
          a = true
      · rw [if_pos hap] at hga'
        refine ⟨aid, { a with state := AgentState.running_task }, hta, hga', ?_, ?_⟩
        · show a.current_task_id = some tid
          exact hcur
        · intro hx
          cases hx
      · rw [if_neg hap] at hga'
        exact ⟨aid, a, hta, hga', hcur, hnid⟩
  · intro aid a hga' hidle'
    have hsome : (getAgent s.agents aid).isSome :=
      getAgent_isSome_transfer s.agents _ aid hMA (isSome_of_eq_some hga')
    obtain ⟨a0, h0⟩ := Option.isSome_iff_exists.mp hsome
    have hh := hA aid a0 h0
    rw [hga'] at hh
    by_cases hap : agentPromotedB (s.tasks.filter (fun u => u.state == TaskState.assigned))
        a0 = true
    · rw [if_pos hap] at hh
      injection hh with he
      rw [he] at hidle'
      simp at hidle'
    · rw [if_neg hap] at hh
      injection hh with he
      rw [he] at hidle' ⊢
      exact hidle aid a0 h0 hidle'

theorem BookingInv_assign (s : Sys) (h : BookingInv s.tasks s.agents) :
    BookingInv (assign_phase s).tasks (assign_phase s).agents := by
  have h1 : BookingInv (check_and_update_task_readiness s.tasks) s.agents :=
    BookingInv_check s.tasks s.agents h
  have hNT := h.1
  have hNA := h.2.1
  cases hq : s.task_queue with
  | nil =>
    rw [assign_phase_nil s hq]
    exact h
  | cons next rest =>
    cases hg : getTask (check_and_update_task_readiness s.tasks) next with
    | none =>
      rw [assign_phase_unknown s next rest hq hg]
      exact h1
    | some task =>
      cases hstate : task.state with
      | pending =>
        rw [assign_phase_pending s next rest hq task hg hstate]
        exact h1
      | waiting_context =>
        rw [assign_phase_waiting s next rest hq task hg hstate]
        exact h1
      | assigned =>
        rw [assign_phase_drop s next rest hq task hg (Or.inl hstate)]
        exact h1
      | running =>
        rw [assign_phase_drop s next rest hq task hg (Or.inr (Or.inl hstate))]
        exact h1
      | completed =>
        rw [assign_phase_drop s next rest hq task hg (Or.inr (Or.inr (Or.inl hstate)))]
        exact h1
      | failed =>
        rw [assign_phase_drop s next rest hq task hg (Or.inr (Or.inr (Or.inr hstate)))]
        exact h1
      | ready =>
        cases hav : get_available_agents s.agents with
        | nil =>
          rw [assign_phase_ready_noidle s next rest hq task hg hstate hav]
          exact h1
        | cons agent r2 =>
          rw [assign_phase_ready_avail s next rest hq task hg hstate agent r2 hav]
          rw [show (assign_task_to_agent
              { s with tasks := check_and_update_task_readiness s.tasks, task_queue := rest }
              next agent).tasks
            = updateTask (check_and_update_task_readiness s.tasks) next
              (fun t => { t with assigned_agent_id := some agent.aid, state := TaskState.assigned })
            from assign_task_to_agent_tasks _ next agent]
          rw [show (assign_task_to_agent
              { s with tasks := check_and_update_task_readiness s.tasks, task_queue := rest }
              next agent).agents
            = updateAgent s.agents agent.aid
              (fun a => { a with current_task_id := some next, state := AgentState.assigned })
            from assign_task_to_agent_agents _ next agent]
          have hmem : agent ∈ get_available_agents s.agents := by
            rw [hav]
            exact List.mem_cons_self _ _
          obtain ⟨hmemA, hidleA⟩ := List.mem_filter.mp hmem
          have hidleA' : agent.state = AgentState.idle := by
            simpa using hidleA
          have hgaA : getAgent s.agents agent.aid = some agent :=
            getAgent_of_mem_nodup hNA hmemA
          obtain ⟨hNT1, hNA1, hact1, hidle1⟩ := h1
          refine ⟨?_, ?_, ?_, ?_⟩
          · rw [updateTask_map_tid _ next
              (fun t => { t with assigned_agent_id := some agent.aid, state := TaskState.assigned })
              (fun u => rfl)]
            exact hNT1
          · rw [updateAgent_map_aid _ agent.aid
              (fun a => { a with current_task_id := some next, state := AgentState.assigned })
              (fun a => rfl)]
            exact hNA
          · intro tid t htg hactive
            by_cases he : tid = next
            · subst he
              rw [getTask_update_self _ tid
                (fun t => { t with assigned_agent_id := some agent.aid, state := TaskState.assigned })
                (fun u => rfl), hg, Option.map_some'] at htg
              injection htg with heq
              refine ⟨agent.aid,
                { agent with current_task_id := some tid, state := AgentState.assigned },
                ?_, ?_, rfl, ?_⟩
              · rw [← heq]
              · rw [getAgent_update_self s.agents agent.aid
                  (fun a => { a with current_task_id := some tid, state := AgentState.assigned })
                  (fun a => rfl), hgaA, Option.map_some']
              · intro hx
                cases hx
            · rw [getTask_update_ne _ next tid
                (fun t => { t with assigned_agent_id := some agent.aid, state := TaskState.assigned })
                (fun u => rfl) he] at htg
              obtain ⟨aid, a, hta, hga1, hcur, hnid⟩ := hact1 tid t htg hactive
              have hne2 : aid ≠ agent.aid := by
                intro hee
                rw [hee, hgaA] at hga1
                injection hga1 with he2
                rw [← he2] at hnid
                exact hnid hidleA'
              refine ⟨aid, a, hta, ?_, hcur, hnid⟩
              rw [getAgent_update_ne s.agents agent.aid aid
                (fun a => { a with current_task_id := some next, state := AgentState.assigned })
                (fun a => rfl) hne2]
              exact hga1
          · intro aid a hga' hidle'
            by_cases he : aid = agent.aid
            · rw [he] at hga'
              rw [getAgent_update_self s.agents agent.aid
                (fun a => { a with current_task_id := some next, state := AgentState.assigned })
                (fun a => rfl), hgaA, Option.map_some'] at hga'
              injection hga' with heq
              rw [← heq] at hidle'
              simp at hidle'
            · rw [getAgent_update_ne s.agents agent.aid aid
                (fun a => { a with current_task_id := some next, state := AgentState.assigned })
                (fun a => rfl) he] at hga'
              exact hidle1 aid a hga' hidle'

theorem BookingInv_schedule (p : CrewProcess) (s : Sys)
    (h : BookingInv s.tasks s.agents) :
    BookingInv (schedule_next p s).tasks (schedule_next p s).agents := by
  cases p with
  | hierarchical => exact h
  | sequential =>
    show BookingInv (assign_phase (promote_assigned s)).tasks
      (assign_phase (promote_assigned s)).agents
    exact BookingInv_assign (promote_assigned s) (BookingInv_promote s h)

/-- Releasing an agent with no ACTIVE task bound to it (the condition under
which the kernel invokes `release_agent`: on completion, right after the
held task left the ACTIVE states) preserves the booking invariant. -/
theorem BookingInv_release (ts : List Task) (ags : List Agent) (aid : Nat)
    (h : BookingInv ts ags)
    (hfree : ∀ tid t, getTask ts tid = some t →
      (t.state = TaskState.assigned ∨ t.state = TaskState.running) →
      t.assigned_agent_id ≠ some aid) :
    BookingInv ts (release_agent ags aid) := by
  obtain ⟨hNT, hNA, hact, hidle⟩ := h
  refine ⟨hNT, by rw [release_map_aid]; exact hNA, ?_, ?_⟩
  · intro tid t htg hactive
    obtain ⟨aid', a, hta, hga, hcur, hnid⟩ := hact tid t htg hactive
    have hne : aid' ≠ aid := by
      intro hee
      exact hfree tid t htg hactive (by rw [hta, hee])
    rw [← getAgent_release_ne ags aid aid' hne] at hga
    exact ⟨aid', a, hta, hga, hcur, hnid⟩
  · intro aid0 b hgb hbidle
    by_cases he : aid0 = aid
    · subst he
      have hsome : (getAgent ags aid0).isSome :=
        getAgent_isSome_transfer ags _ aid0 (release_map_aid ags aid0)
          (isSome_of_eq_some hgb)
      obtain ⟨a0, h0⟩ := Option.isSome_iff_exists.mp hsome
      obtain ⟨b2, hgb2, hcase⟩ := getAgent_release_self ags aid0 a0 h0
      rw [hgb] at hgb2
      injection hgb2 with he2
      rcases hcase with ⟨hbe, hidle0⟩ | ⟨-, hnone⟩
      · rw [he2, hbe]
        exact hidle aid0 a0 h0 hidle0
      · rw [he2]
        exact hnone
    · rw [getAgent_release_ne ags aid aid0 he] at hgb
      exact hidle aid0 b hgb hbidle

/-- A work step invoked under the kernel's guards — the task is RUNNING and
bound to a RUNNING_TASK agent — preserves the booking invariant. -/
theorem BookingInv_work (registry : ToolRegistry) (resp1 resp2 : Option JVal)
    (s : Sys) (aid tid : Nat) (cur : Task) (agent : Agent)
    (hcur : getTask s.tasks tid = some cur) (hrun : cur.state = TaskState.running)
    (hasg : cur.assigned_agent_id = some aid)
    (hga : getAgent s.agents aid = some agent)
    (hags : agent.state = AgentState.running_task)
    (h : BookingInv s.tasks s.agents) :
    BookingInv (_simulate_agent_work registry resp1 resp2 s aid tid).2.tasks
      (_simulate_agent_work registry resp1 resp2 s aid tid).2.agents := by
  obtain ⟨hNT, hNA, hact, hidle⟩ := h
  obtain ⟨aidc, ac, htac, hgac, hcurc, -⟩ := hact tid cur hcur (Or.inr hrun)
  rw [hasg] at htac
  injection htac with haidc
  cases haidc
  rw [hga] at hgac
  injection hgac with hace
  have hagentcur : agent.current_task_id = some tid := by
    rw [hace]
    exact hcurc
  have huniq : ∀ tid' t', getTask s.tasks tid' = some t' →
      (t'.state = TaskState.assigned ∨ t'.state = TaskState.running) →
      t'.assigned_agent_id = some aid → tid' = tid := by
    intro tid' t' hgt' hact' hta'
    obtain ⟨aid2, a2, hta2, hga2, hcur2, -⟩ := hact tid' t' hgt' hact'
    rw [hta'] at hta2
    injection hta2 with haid2
    cases haid2
    rw [hga] at hga2
    injection hga2 with hae2
    rw [← hae2] at hcur2
    rw [hagentcur] at hcur2
    injection hcur2 with htide
    exact htide.symm
  rcases simulate_split registry resp1 resp2 s aid tid with
    ⟨hTT, hMM, hSS⟩ | ⟨⟨res, hTT⟩, ags1, hAA, hMM, hSS⟩
  · refine ⟨by rw [hTT]; exact hNT, by rw [hMM]; exact hNA, ?_, ?_⟩
    · intro tid0 t htg hactive
      rw [hTT] at htg
      obtain ⟨aid0, a0, hta0, hga0, hcur0, hnid0⟩ := hact tid0 t htg hactive
      obtain ⟨a1, hga1, hc1, hs1⟩ := hSS aid0 a0 hga0
      refine ⟨aid0, a1, hta0, hga1, by rw [hc1]; exact hcur0, ?_⟩
      rcases hs1 with hs1 | ⟨-, hs1⟩
      · rw [hs1]
        exact hnid0
      · rcases hs1 with hs1 | hs1 <;> rw [hs1] <;> intro hx <;> cases hx
    · intro aid0 b hgb hbidle
      have hsome : (getAgent s.agents aid0).isSome :=
        getAgent_isSome_transfer s.agents _ aid0 hMM (isSome_of_eq_some hgb)
      obtain ⟨a0, h0⟩ := Option.isSome_iff_exists.mp hsome
      obtain ⟨a1, hga1, hc1, hs1⟩ := hSS aid0 a0 h0
      rw [hgb] at hga1
      injection hga1 with he1
      rcases hs1 with hs1 | ⟨-, hs1⟩
      · rw [he1, hc1]
        refine hidle aid0 a0 h0 ?_
        rw [← hs1, ← he1]
        exact hbidle
      · rcases hs1 with hs1 | hs1 <;> rw [he1, hs1] at hbidle <;> cases hbidle
  · refine ⟨?_, ?_, ?_, ?_⟩
    · rw [hTT, check_map_tid, update_task_state_map_tid, add_result_map_tid]
      exact hNT
    · rw [hAA, release_map_aid, hMM]
      exact hNA
    · intro tid0 t htg hactive
      rw [hTT] at htg
      have hNT2 : ((update_task_state (add_result s.tasks tid res) tid
          TaskState.completed).map (fun t => t.tid)).Nodup := by
        rw [update_task_state_map_tid, add_result_map_tid]
        exact hNT
      have hsome : (getTask (update_task_state (add_result s.tasks tid res) tid
          TaskState.completed) tid0).isSome :=
        getTask_isSome_transfer _ _ tid0 (check_map_tid _) (isSome_of_eq_some htg)
      obtain ⟨t2, h2⟩ := Option.isSome_iff_exists.mp hsome
      rw [check_readiness_spec _ hNT2 tid0 t2 h2] at htg
      by_cases hcnd : t2.state = TaskState.pending ∧
          depsMet (update_task_state (add_result s.tasks tid res) tid TaskState.completed) t2
            = true
      · rw [if_pos hcnd] at htg
        injection htg with he
        rw [← he] at hactive
        rcases hactive with hx | hx <;> simp at hx
      · rw [if_neg hcnd] at htg
        injection htg with he
        by_cases heq : tid0 = tid
        · exfalso
          rw [heq] at h2
          have ht2 : getTask (update_task_state (add_result s.tasks tid res) tid
              TaskState.completed) tid
              = some { cur with result := some res, state := TaskState.completed } := by
            show getTask (updateTask (updateTask s.tasks tid
              (fun u => { u with result := some res })) tid
              (fun u => { u with state := TaskState.completed })) tid = _
            rw [getTask_update_self _ tid (fun u => { u with state := TaskState.completed })
                (fun u => rfl),
              getTask_update_self _ tid (fun u => { u with result := some res })
                (fun u => rfl),
              hcur, Option.map_some', Option.map_some']
          rw [h2] at ht2
          injection ht2 with he3
          have hts : t.state = TaskState.completed := by
            rw [← he, he3]
          rcases hactive with hx | hx <;> rw [hts] at hx <;> cases hx
        · have hpre : getTask s.tasks tid0 = some t := by
            have hug : getTask (update_task_state (add_result s.tasks tid res) tid
                TaskState.completed) tid0 = getTask s.tasks tid0 := by
              show getTask (updateTask (updateTask s.tasks tid
                (fun u => { u with result := some res })) tid
                (fun u => { u with state := TaskState.completed })) tid0 = _
              rw [getTask_update_ne _ tid tid0 (fun u => { u with state := TaskState.completed })
                  (fun u => rfl) heq,
                getTask_update_ne _ tid tid0 (fun u => { u with result := some res })
                  (fun u => rfl) heq]
            rw [hug] at h2
            rw [h2, he]
          obtain ⟨aid0, a0, hta0, hga0, hcur0, hnid0⟩ := hact tid0 t hpre hactive
          have hne0 : aid0 ≠ aid := by
            intro hee
            rw [hee] at hta0
            exact heq (huniq tid0 t hpre hactive hta0)
          obtain ⟨a1, hga1, hc1, hs1⟩ := hSS aid0 a0 hga0
          refine ⟨aid0, a1, hta0, ?_, by rw [hc1]; exact hcur0, ?_⟩
          · rw [hAA, getAgent_release_ne ags1 aid aid0 hne0]
            exact hga1
          · rcases hs1 with hs1 | ⟨hee, -⟩
            · rw [hs1]
              exact hnid0
            · exact absurd hee hne0
    · intro aid0 b hgb hbidle
      rw [hAA] at hgb
      by_cases he : aid0 = aid
      · subst he
        have hsome1 : (getAgent ags1 aid0).isSome :=
          getAgent_isSome_transfer ags1 _ aid0 (release_map_aid ags1 aid0)
            (isSome_of_eq_some hgb)
        obtain ⟨a1, h1⟩ := Option.isSome_iff_exists.mp hsome1
        obtain ⟨b2, hgb2, hcase⟩ := getAgent_release_self ags1 aid0 a1 h1
        rw [hgb] at hgb2
        injection hgb2 with he2
        rcases hcase with ⟨hbe, hist⟩ | ⟨-, hnone⟩
        · have hsome0 : (getAgent s.agents aid0).isSome :=
            getAgent_isSome_transfer s.agents _ aid0 hMM (isSome_of_eq_some h1)
          obtain ⟨a0, h0⟩ := Option.isSome_iff_exists.mp hsome0
          obtain ⟨a1x, hga1x, hc1, hs1⟩ := hSS aid0 a0 h0
          rw [h1] at hga1x
          injection hga1x with he3
          rcases hs1 with hs1 | ⟨-, hs1⟩
          · rw [he2, hbe, he3, hc1]
            refine hidle aid0 a0 h0 ?_
            rw [← hs1, ← he3]
            exact hist
          · rw [he3] at hist
            rcases hs1 with hs1 | hs1 <;> rw [hs1] at hist <;> cases hist
        · rw [he2]
          exact hnone
      · rw [getAgent_release_ne ags1 aid aid0 he] at hgb
        have hsome0 : (getAgent s.agents aid0).isSome :=
          getAgent_isSome_transfer s.agents _ aid0 hMM (isSome_of_eq_some hgb)
        obtain ⟨a0, h0⟩ := Option.isSome_iff_exists.mp hsome0
        obtain ⟨a1, hga1, hc1, hs1⟩ := hSS aid0 a0 h0
        rw [hgb] at hga1
        injection hga1 with he1
        rcases hs1 with hs1 | ⟨hee, -⟩
        · rw [he1, hc1]
          refine hidle aid0 a0 h0 ?_
          rw [← hs1, ← he1]
          exact hbidle
        · exact absurd hee he

/-- One core operation on the shared state, with the guards under which the
scheduler and kernel invoke it: a readiness pass; a scheduling pass of the
crew's process; a work step on a RUNNING task bound to a RUNNING_TASK agent
(the condition of `tick`'s work loop); and the release of an agent holding
no ACTIVE task (the condition at `release_agent`'s only call site, reached
right after the held task is made COMPLETED). -/
inductive Step (p : CrewProcess) : Sys → Sys → Prop where
  | readiness (s : Sys) :
      Step p s { s with tasks := check_and_update_task_readiness s.tasks }
  | schedule (s : Sys) : Step p s (schedule_next p s)
  | work (s : Sys) (registry : ToolRegistry) (resp1 resp2 : Option JVal)
      (aid tid : Nat) (cur : Task) (agent : Agent)
      (hcur : getTask s.tasks tid = some cur) (hrun : cur.state = TaskState.running)
      (hasg : cur.assigned_agent_id = some aid)
      (hga : getAgent s.agents aid = some agent)
      (hags : agent.state = AgentState.running_task) :
      Step p s (_simulate_agent_work registry resp1 resp2 s aid tid).2
  | release (s : Sys) (aid : Nat)
      (hfree : ∀ tid t, getTask s.tasks tid = some t →
        (t.state = TaskState.assigned ∨ t.state = TaskState.running) →
        t.assigned_agent_id ≠ some aid) :
      Step p s { s with agents := release_agent s.agents aid }

theorem BookingInv_step (p : CrewProcess) (s s' : Sys) (hstep : Step p s s')
    (h : BookingInv s.tasks s.agents) : BookingInv s'.tasks s'.agents := by
  cases hstep with
  | readiness => exact BookingInv_check s.tasks s.agents h
  | schedule => exact BookingInv_schedule p s h
  | work registry resp1 resp2 aid tid cur agent hcur hrun hasg hga hags =>
    exact BookingInv_work registry resp1 resp2 s aid tid cur agent
      hcur hrun hasg hga hags h
  | release aid hfree => exact BookingInv_release s.tasks s.agents aid h hfree

theorem BookingInv_reach (p : CrewProcess) (s0 s : Sys)
    (h0 : BookingInv s0.tasks s0.agents)
    (hreach : Relation.ReflTransGen (Step p) s0 s) :
    BookingInv s.tasks s.agents := by
  induction hreach with
  | refl => exact h0
  | tail hab hbc ih => exact BookingInv_step p _ _ hbc ih

/-- C6: in every state reachable from a freshly loaded crew (duplicate-free
id tables, all tasks PENDING, all agents IDLE holding nothing) by the core
operations — readiness passes, scheduling passes, guarded work steps, agent
release — for every agent at most one task is ASSIGNED or RUNNING with
`assigned_agent_id` equal to that agent, and every agent's
`current_task_id` references at most one task. -/
theorem C6_no_double_booking (p : CrewProcess) (c : Crew) (s : Sys)
    (hNT : (c.tasks.map (fun t => t.tid)).Nodup)
    (hNA : (c.agents.map (fun a => a.aid)).Nodup)
    (hpend : ∀ t ∈ c.tasks, t.state = TaskState.pending)
    (hidle0 : ∀ a ∈ c.agents, a.state = AgentState.idle ∧ a.current_task_id = none)
    (hreach : Relation.ReflTransGen (Step p)
      { tasks := c.tasks, agents := c.agents, task_queue := c.task_order,
        rm := ResourceMonitor.init } s) :
    (∀ aid, (s.tasks.filter (fun t =>
        (t.state == TaskState.assigned || t.state == TaskState.running) &&
          t.assigned_agent_id == some aid)).length ≤ 1) ∧
    (∀ a ∈ s.agents,
      (s.tasks.filter (fun t => a.current_task_id == some t.tid)).length ≤ 1) := by
  have h0 : BookingInv c.tasks c.agents := by
    refine ⟨hNT, hNA, ?_, ?_⟩
    · intro tid t htg hactive
      have hp := hpend t (getTask_mem htg)
      rcases hactive with hx | hx <;> rw [hp] at hx <;> cases hx
    · intro aid a hga hid
      exact (hidle0 a (getAgent_mem hga)).2
  obtain ⟨hNT', hNA', hact', hidle'⟩ := BookingInv_reach p _ s h0 hreach
  constructor
  · intro aid
    cases hf : s.tasks.filter (fun t =>
        (t.state == TaskState.assigned || t.state == TaskState.running) &&
          t.assigned_agent_id == some aid) with
    | nil => simp
    | cons x rest =>
      have hxm : x ∈ s.tasks.filter (fun t =>
          (t.state == TaskState.assigned || t.state == TaskState.running) &&
            t.assigned_agent_id == some aid) := by
        rw [hf]
        exact List.mem_cons_self _ _
      obtain ⟨hxmem, hxp⟩ := List.mem_filter.mp hxm
      simp only [Bool.and_eq_true, Bool.or_eq_true, beq_iff_eq] at hxp
      obtain ⟨hxact, hxaid⟩ := hxp
      obtain ⟨aidx, ax, htax, hgax, hcurx, -⟩ :=
        hact' x.tid x (getTask_of_mem_nodup hNT' hxmem) hxact
      rw [hxaid] at htax
      injection htax with hex
      cases hex
      have hall : ∀ t ∈ s.tasks, ((t.state == TaskState.assigned ||
          t.state == TaskState.running) && t.assigned_agent_id == some aid) = true →
          t.tid = x.tid := by
        intro t htm htp
        simp only [Bool.and_eq_true, Bool.or_eq_true, beq_iff_eq] at htp
        obtain ⟨htact, htaid⟩ := htp
        obtain ⟨aidt, att, htat, hgat, hcurt, -⟩ :=
          hact' t.tid t (getTask_of_mem_nodup hNT' htm) htact
        rw [htaid] at htat
        injection htat with het
        cases het
        rw [hgax] at hgat
        injection hgat with he3
        rw [← he3] at hcurt
        rw [hcurx] at hcurt
        injection hcurt with he4
        exact he4.symm
      have hle := filter_tid_le_one s.tasks hNT' _ x.tid hall
      rw [hf] at hle
      exact hle
  · intro a hma
    cases hcc : a.current_task_id with
    | none =>
      apply filter_tid_le_one s.tasks hNT' _ 0
      intro t htm htp
      simp at htp
    | some v =>
      apply filter_tid_le_one s.tasks hNT' _ v
      intro t htm htp
      rw [beq_iff_eq] at htp
      injection htp with hv
      exact hv.symm

/-- Witness for C6: a fresh one-task, one-agent SEQUENTIAL crew after one
scheduling pass (reachable in one step) books the agent at most once in both
directions. -/
theorem C6_no_double_booking_witness :
    let t0 : Task := Task.init 0 "write" "text" none []
    let a0 : Agent := Agent.init 0 "writer" "w" "b" []
    let c : Crew := Crew.make [a0] [t0] CrewProcess.sequential
    let s0 : Sys := { tasks := c.tasks, agents := c.agents, task_queue := c.task_order, rm := ResourceMonitor.init }
    (∀ aid, ((schedule_next CrewProcess.sequential s0).tasks.filter (fun t =>
        (t.state == TaskState.assigned || t.state == TaskState.running) &&
          t.assigned_agent_id == some aid)).length ≤ 1) ∧
    (∀ a ∈ (schedule_next CrewProcess.sequential s0).agents,
      ((schedule_next CrewProcess.sequential s0).tasks.filter
        (fun t => a.current_task_id == some t.tid)).length ≤ 1) := by
  intro t0 a0 c s0
  exact C6_no_double_booking CrewProcess.sequential c
    (schedule_next CrewProcess.sequential s0)
    (by decide) (by decide) (by decide) (by decide)
    (Relation.ReflTransGen.single (Step.schedule s0))
